import Mathlib

/-!
Verification development for the self-vue virtual-DOM renderer
(src/src/compiler/index.js, src/src/utils/props.js, src/unnamed/part_000).

The JavaScript source is shallowly embedded: JS values appearing as vnode
props, keys and prop defaults become the inductive `JVal`; JS objects used
as string-keyed records become association lists; JS arrays become lists,
read through total lookup functions that return `Option` (`none` models
the `undefined` an out-of-bounds read yields); code that can throw a
runtime `TypeError`/`ReferenceError` is embedded in `Except String`.
Imperative loops are embedded as structurally recursive functions over an
explicit step counter large enough for every terminating run of the
source; exhausting the counter yields the distinguished error "fuel",
which never occurs in any of the runs below.
-/

namespace SelfVue

/-- JS primitive values as they occur in vnode props, keys, prop defaults
and component state in this repository. Functions are modelled by an
identity token, matching strict-equality (===) semantics on function
references. -/
inductive JVal where
  | undef
  | null
  | jbool (b : Bool)
  | num (n : Int)
  | str (s : String)
  | fn (id : Nat)
deriving DecidableEq, Repr

/-- JS truthiness of a `JVal` (only the cases used by the source:
`if (handler)`, `vnode.component` guards and so on). -/
def JVal.truthy : JVal → Bool
  | .undef => false
  | .null => false
  | .jbool b => b
  | .num n => n ≠ 0
  | .str s => s ≠ ""
  | .fn _ => true

/-- A JS object used as a string-keyed record (props, attrs, state). -/
abbrev PList := List (String × JVal)

/-- Property read obj.k on a record: `undefined` when absent. -/
def pget (l : PList) (k : String) : JVal :=
  match l.find? (fun p => p.1 = k) with
  | none => .undef
  | some p => p.2

/-- The JS test `k in obj`. -/
def pmem (l : PList) (k : String) : Bool :=
  l.any (fun p => p.1 = k)

/-- Property write obj[k] = v: overwrite in place, else append (JS
objects keep insertion order). -/
def pset (l : PList) (k : String) (v : JVal) : PList :=
  if pmem l k then l.map (fun p => if p.1 = k then (k, v) else p)
  else l ++ [(k, v)]

/-- JS array read a[i] on an integer-indexed array: `undefined` (here
`none`) when the index is negative or past the end. -/
def agetI (l : List Int) (i : Int) : Option Int :=
  if 0 ≤ i then l.get? i.toNat else none

/-- JS array write a[i] = v for an index already in bounds (every write
the embedded code performs is in bounds). -/
def asetI (l : List Int) (i : Int) (v : Int) : List Int :=
  if 0 ≤ i then l.set i.toNat v else l

/-- Array read that surfaces a subsequent use of `undefined` as an
explicit error. Used where the source would go on to compute with the
read value, so that an out-of-bounds read cannot be silently absorbed.
None of the runs appearing in the theorems below reaches this error. -/
def ogetE (l : List Int) (i : Int) : Except String Int :=
  match agetI l i with
  | some x => .ok x
  | none => .error "undefined array read"

/-!
Embedding of getSequence from src/unnamed/part_000: the O(n log n)
longest-increasing-subsequence routine by patience sort with predecessor
reconstruction. Note the guard in the outer loop is `arrI !== 0`: entries
equal to 0 are skipped as holes, not entries equal to -1.
-/

/-- Inner binary search of getSequence: while (u < v) with
c = (u + v) >> 1, narrowing on arr[result[c]] < arrI. -/
def gsBSearch (arr result : List Int) (arrI : Int) :
    Nat → Int → Int → Except String Int
  | 0, _, _ => .error "fuel"
  | k + 1, u, v =>
    if u < v then do
      let c := (u + v) / 2
      let rc ← ogetE result c
      let ac ← ogetE arr rc
      if ac < arrI then gsBSearch arr result arrI k (c + 1) v
      else gsBSearch arr result arrI k u c
    else pure u

/-- Outer for-loop of getSequence over i with state (p, result). -/
def gsOuter (arr : List Int) :
    Nat → Int → List Int → List Int → Except String (List Int × List Int)
  | 0, _, _, _ => .error "fuel"
  | k + 1, i, p, result =>
    if i < (arr.length : Int) then do
      let arrI ← ogetE arr i
      if arrI ≠ 0 then do
        let j ← ogetE result ((result.length : Int) - 1)
        let aj ← ogetE arr j
        if aj < arrI then
          gsOuter arr k (i + 1) (asetI p i j) (result ++ [i])
        else do
          let u ← gsBSearch arr result arrI (result.length + 1) 0
            ((result.length : Int) - 1)
          let ru ← ogetE result u
          let aru ← ogetE arr ru
          if arrI < aru then
            let p' := if 0 < u then asetI p i (pgetSafe result (u - 1)) else p
            gsOuter arr k (i + 1) p' (asetI result u i)
          else
            gsOuter arr k (i + 1) p result
      else gsOuter arr k (i + 1) p result
    else pure (p, result)
where
  /-- Read result[u-1] under the guard u > 0, where it is in bounds. -/
  pgetSafe (l : List Int) (i : Int) : Int := (agetI l i).getD 0

/-- Backward reconstruction loop of getSequence:
u = result.length; v = result[u-1]; while (u-- > 0) with result[u] = v and
v = p[v]. The structural counter is the remaining iteration count. -/
def gsBack (p : List Int) : Nat → Int → List Int → Except String (List Int)
  | 0, _, result => pure result
  | u + 1, v, result => do
    let result := asetI result u v
    let v' ← ogetE p v
    gsBack p u v' result

/-- getSequence(arr) from src/unnamed/part_000. p starts as a copy of
arr, result starts as [0]. -/
def getSequence (arr : List Int) : Except String (List Int) := do
  let p := arr
  let result : List Int := [0]
  let (p, result) ← gsOuter arr (arr.length + 1) 0 p result
  let u := result.length
  let v ← ogetE result ((u : Int) - 1)
  gsBack p u v result

/-!
Embedding of src/src/utils/props.js.
-/

/-- Shape of one entry of a component's props declaration object, as seen
by resolveProps. The source computes
typeof propValue === Object ? propsOptions[key].default : undefined, and a
function-valued default is invoked; a function is modelled by the value it
returns. A null declaration entry also has typeof object in JS, and
reading .default of null throws. -/
inductive PropOpt where
  | nonObj (v : JVal)
  | nullOpt
  | objNoDefault
  | objDefault (v : JVal)
  | objDefaultFn (ret : JVal)
deriving DecidableEq, Repr

/-- The declaration-side default for one key: the value of
typeof propValue === Object ? propsOptions[key].default : undefined,
with a function default already invoked. -/
def PropOpt.defaultVal : PropOpt → Except String JVal
  | .nonObj _ => .ok .undef
  | .nullOpt => .error "TypeError: reading default of null"
  | .objNoDefault => .ok .undef
  | .objDefault v => .ok v
  | .objDefaultFn ret => .ok ret

/-- The JS operator incoming ?? fallback. -/
def nullish (v fallback : JVal) : JVal :=
  match v with
  | .undef => fallback
  | .null => fallback
  | _ => v

/-- resolveProps(propsOptions, propsValue) from src/src/utils/props.js.
Iterates the incoming props in order; a key present in the declaration or
starting with on goes to props (applying the declaration default when the
incoming value is nullish), everything else goes to attrs. The membership
test runs key in propsOptions, which throws when the declaration object is
undefined and at least one incoming key exists. -/
def resolveProps (propsOptions : Option (List (String × PropOpt)))
    (propsValue : PList) : Except String (PList × PList) :=
  go propsValue [] []
where
  go : PList → PList → PList → Except String (PList × PList)
    | [], props, attrs => .ok (props, attrs)
    | (key, v) :: rest, props, attrs => do
      let opts ← match propsOptions with
        | some opts => pure opts
        | none => .error "TypeError: cannot use in operator on undefined"
      if opts.any (fun p => p.1 = key) || key.startsWith "on" then do
        let popt := (opts.find? (fun p => p.1 = key)).map (·.2)
        let dflt ← match popt with
          | some po => po.defaultVal
          | none => pure .undef
        go rest (pset props key (nullish v dflt)) attrs
      else
        go rest props (pset attrs key v)

/-- hasPropsChanged(prevProps, nextProps) from src/src/utils/props.js:
true when the key counts differ or some key of nextProps has a
strictly different value in prevProps. -/
def hasPropsChanged (prevProps nextProps : PList) : Bool :=
  if nextProps.length ≠ prevProps.length then true
  else nextProps.any (fun p => pget prevProps p.1 ≠ p.2)

/-!
Embedding of the render-context Proxy get trap from
src/src/compiler/index.js (mountComponent, the new Proxy(instance, ...)
get handler). Reads resolve against state, then props, then setupState.
The following branch in the source is written else if (k === ...with the
dollar-slots string...) where no variable k is in scope anywhere in the
file, so reaching that branch evaluates an undeclared identifier and
throws a ReferenceError before the console.error fallback can run. -/
def renderContextGet (state : Option PList) (props : PList)
    (setupState : Option PList) (key : String) : Except String JVal :=
  match state with
  | some st =>
    if pmem st key then .ok (pget st key)
    else renderContextGetAfterState props setupState key
  | none => renderContextGetAfterState props setupState key
where
  renderContextGetAfterState (props : PList) (setupState : Option PList)
      (key : String) : Except String JVal :=
    if pmem props key then .ok (pget props key)
    else match setupState with
      | some ss =>
        if pmem ss key then .ok (pget ss key)
        else .error "ReferenceError: k is not defined"
      | none => .error "ReferenceError: k is not defined"

/-!
Embedding of emit from src/src/compiler/index.js (mountComponent).
emit(event, ...payload) computes on + event[0].toUpperCase() +
event.slice(1), reads that key from instance.props, and either invokes
the handler or logs a warning. When event is the empty string, event[0]
is undefined and calling toUpperCase on it throws a TypeError. The result
records the warnings logged and the handler invoked, if any; emit never
writes to the instance. -/
def emit (instanceProps : PList) (event : String) :
    Except String (List String × Option JVal) :=
  match event.toList with
  | [] => .error "TypeError: cannot read toUpperCase of undefined"
  | c :: rest =>
    let eventName := "on" ++ String.mk (c.toUpper :: rest)
    let handler := pget instanceProps eventName
    if handler.truthy then .ok ([], some handler)
    else .ok (["missing handler for " ++ eventName], none)

/-!
Host-node model. The renderer is written against a host adapter
(createElement, createTextNode, createComment, insert, setElementText,
patchProps, removeChild through parentNode). Host nodes are identified by
numeric ids; the host state is a finite map from ids to node records, and
every adapter call is also logged in an operation trace. patchProps is
logged only: attribute bookkeeping is the adapter's (external) concern
and no claim reads attributes back. -/

inductive HKind where
  | elem (tag : String)
  | textN
  | commentN
deriving DecidableEq, Repr

structure HNode where
  kind : HKind
  content : String
  childIds : List Nat
  parentId : Option Nat
deriving DecidableEq, Repr

structure Host where
  nextId : Nat
  nodes : List (Nat × HNode)
deriving DecidableEq, Repr

def hget (h : Host) (i : Nat) : Option HNode :=
  (h.nodes.find? (fun p => p.1 = i)).map (·.2)

def hset (h : Host) (i : Nat) (n : HNode) : Host :=
  { h with nodes :=
      if h.nodes.any (fun p => p.1 = i)
      then h.nodes.map (fun p => if p.1 = i then (i, n) else p)
      else h.nodes ++ [(i, n)] }

def hmod (h : Host) (i : Nat) (f : HNode → HNode) : Host :=
  match hget h i with
  | some n => hset h i (f n)
  | none => h

/-- Host adapter operations, as logged in the trace. -/
inductive HOp where
  | createElement (id : Nat) (tag : String)
  | createTextNode (id : Nat) (s : String)
  | createComment (id : Nat) (s : String)
  | insert (node parentN : Nat) (anchor : Option Nat)
  | setElementText (el : Nat) (s : String)
  | patchProp (el : Option Nat) (key : String) (prevVal nextVal : JVal)
  | removeChild (parentN child : Nat)
deriving DecidableEq, Repr

/-- Lifecycle and diagnostic events, logged in the same trace so that
ordering between host mutations and lifecycle callbacks is observable.
mountedCbE inst cb is the invocation of the onMounted-registered callback
cb of the component instance inst. -/
inductive LEvent where
  | beforeCreateE (inst : Nat)
  | createdE (inst : Nat)
  | beforeMountE (inst : Nat)
  | mountedCbE (inst cb : Nat)
  | mountedOptE (inst : Nat)
  | beforeUpdateE (inst : Nat)
  | updatedE (inst : Nat)
  | warnE (msg : String)
deriving DecidableEq, Repr

inductive TItem where
  | hop (o : HOp)
  | lev (e : LEvent)
deriving DecidableEq, Repr

def TItem.isHostOp : TItem → Bool
  | .hop _ => true
  | .lev _ => false

/-- Renderer state: the host tree, the operation/event trace, and the
counter from which component instance identities are drawn. -/
structure RState where
  host : Host
  trace : List TItem
  nextInst : Nat
deriving DecidableEq, Repr

def emitT (st : RState) (t : TItem) : RState :=
  { st with trace := st.trace ++ [t] }

def createElementS (tag : String) (st : RState) : Nat × RState :=
  let e := st.host.nextId
  let h : Host :=
    { nextId := e + 1,
      nodes := st.host.nodes ++ [(e, ⟨.elem tag, "", [], none⟩)] }
  (e, emitT { st with host := h } (.hop (.createElement e tag)))

def createTextNodeS (s : String) (st : RState) : Nat × RState :=
  let e := st.host.nextId
  let h : Host :=
    { nextId := e + 1,
      nodes := st.host.nodes ++ [(e, ⟨.textN, s, [], none⟩)] }
  (e, emitT { st with host := h } (.hop (.createTextNode e s)))

def createCommentS (s : String) (st : RState) : Nat × RState :=
  let e := st.host.nextId
  let h : Host :=
    { nextId := e + 1,
      nodes := st.host.nodes ++ [(e, ⟨.commentN, s, [], none⟩)] }
  (e, emitT { st with host := h } (.hop (.createComment e s)))

/-- Insert x before the first occurrence of the anchor in a child list,
appending when the anchor is absent or null (DOM insertBefore with a null
anchor appends). -/
def insBeforeAux (x a : Nat) : List Nat → List Nat
  | [] => [x]
  | y :: ys => if y = a then x :: y :: ys else y :: insBeforeAux x a ys

def insBefore (l : List Nat) (x : Nat) (anchor : Option Nat) : List Nat :=
  match anchor with
  | none => l ++ [x]
  | some a => if a ∈ l then insBeforeAux x a l else l ++ [x]

/-- Detach a node from its current parent, as DOM insertBefore does
before re-attaching. -/
def detachH (node : Nat) (h : Host) : Host :=
  match hget h node with
  | some n =>
    match n.parentId with
    | some p =>
      hmod (hset h node { n with parentId := none }) p
        (fun pn => { pn with childIds := pn.childIds.erase node })
    | none => h
  | none => h

def insertS (node parentN : Nat) (anchor : Option Nat) (st : RState) : RState :=
  let h := detachH node st.host
  let h := hmod h node (fun n => { n with parentId := some parentN })
  let h := hmod h parentN
    (fun pn => { pn with childIds := insBefore pn.childIds node anchor })
  emitT { st with host := h } (.hop (.insert node parentN anchor))

/-- setElementText assigns textContent: existing children are detached
and the node holds the single text. -/
def setElementTextS (el : Nat) (s : String) (st : RState) : RState :=
  let h :=
    match hget st.host el with
    | some n =>
      let h1 := n.childIds.foldl
        (fun hh c => hmod hh c (fun cn => { cn with parentId := none })) st.host
      hmod h1 el (fun m => { m with content := s, childIds := [] })
    | none => st.host
  emitT { st with host := h } (.hop (.setElementText el s))

def removeChildS (parentN el : Nat) (st : RState) : RState :=
  let h := hmod st.host parentN
    (fun pn => { pn with childIds := pn.childIds.erase el })
  let h := hmod h el (fun n => { n with parentId := none })
  emitT { st with host := h } (.hop (.removeChild parentN el))

def patchPropS (el : Option Nat) (k : String) (pv nv : JVal) (st : RState) : RState :=
  emitT st (.hop (.patchProp el k pv nv))

def contentOf (h : Host) (e : Nat) : Option String :=
  (hget h e).map (·.content)

def childIdsOf (h : Host) (e : Nat) : Option (List Nat) :=
  (hget h e).map (·.childIds)

/-!
The vnode data model (spec section 3, read off the source). type is a
host tag string, a Text/Comment/Fragment sentinel, a component
descriptor object, or a function component; children is null, a text
primitive, an ordered vnode list, or a slots object; key defaults to
undefined; el and component are the mutable back-references the renderer
writes during mount (and are none on user-built vnodes). A component
descriptor carries its user callbacks as data: setup is modelled by the
callbacks it registers through onMounted and by its observable result
(a render thunk is modelled by the vnode it returns, the source invokes
it exactly once in every execution modelled here); render is likewise
modelled by its produced vnode; data() by the state record it returns;
the remaining lifecycle options by presence flags. descId models the JS
reference identity of the descriptor object, which is what
oldVnode.type !== newVnode.type compares. -/

mutual
inductive VNode where
  | mk (type : VType) (props : Option PList) (children : VChild)
      (key : JVal) (el : Option Nat) (component : Option CInstance)

inductive VType where
  | tag (name : String)
  | textT
  | commentT
  | fragmentT
  | comp (opts : COpts)
  | funcComp (fid : Nat)

inductive VChild where
  | nothing
  | text (s : String)
  | arr (cs : List VNode)
  | slots (names : List String)

inductive COpts where
  | mk (descId : Nat) (propsOption : Option (List (String × PropOpt)))
      (hasData : Bool) (dataState : PList)
      (hasSetup : Bool) (setupCbs : List Nat) (setupResult : SetupRes)
      (renderOpt : Option VNode)
      (hasBeforeCreate hasCreated hasBeforeMount hasMounted
        hasBeforeUpdate hasUpdated : Bool)

inductive SetupRes where
  | renderFn (body : VNode)
  | objRes (st : PList)
  | nullRes

inductive CInstance where
  | mk (props attrs : PList) (state : Option PList) (isMounted : Bool)
      (subTree : Option VNode) (slots : VChild) (mountedCbs : List Nat)
      (instId : Nat)
end

def VNode.type : VNode → VType
  | .mk t _ _ _ _ _ => t

def VNode.props : VNode → Option PList
  | .mk _ p _ _ _ _ => p

def VNode.children : VNode → VChild
  | .mk _ _ c _ _ _ => c

def VNode.key : VNode → JVal
  | .mk _ _ _ k _ _ => k

def VNode.el : VNode → Option Nat
  | .mk _ _ _ _ e _ => e

def VNode.component : VNode → Option CInstance
  | .mk _ _ _ _ _ c => c

def VNode.withEl (v : VNode) (e : Option Nat) : VNode :=
  match v with
  | .mk t p c k _ cmp => .mk t p c k e cmp

def VNode.withChildren (v : VNode) (ch : VChild) : VNode :=
  match v with
  | .mk t p _ k e cmp => .mk t p ch k e cmp

def VNode.withComponent (v : VNode) (cmp : Option CInstance) : VNode :=
  match v with
  | .mk t p c k e _ => .mk t p c k e cmp

def COpts.descId : COpts → Nat
  | .mk d _ _ _ _ _ _ _ _ _ _ _ _ _ => d

def COpts.propsOption : COpts → Option (List (String × PropOpt))
  | .mk _ po _ _ _ _ _ _ _ _ _ _ _ _ => po

def COpts.hasData : COpts → Bool
  | .mk _ _ hd _ _ _ _ _ _ _ _ _ _ _ => hd

def COpts.dataState : COpts → PList
  | .mk _ _ _ ds _ _ _ _ _ _ _ _ _ _ => ds

def COpts.hasSetup : COpts → Bool
  | .mk _ _ _ _ hs _ _ _ _ _ _ _ _ _ => hs

def COpts.setupCbs : COpts → List Nat
  | .mk _ _ _ _ _ cbs _ _ _ _ _ _ _ _ => cbs

def COpts.setupResult : COpts → SetupRes
  | .mk _ _ _ _ _ _ sr _ _ _ _ _ _ _ => sr

def COpts.renderOpt : COpts → Option VNode
  | .mk _ _ _ _ _ _ _ r _ _ _ _ _ _ => r

def COpts.hasBeforeCreate : COpts → Bool
  | .mk _ _ _ _ _ _ _ _ b _ _ _ _ _ => b

def COpts.hasCreated : COpts → Bool
  | .mk _ _ _ _ _ _ _ _ _ b _ _ _ _ => b

def COpts.hasBeforeMount : COpts → Bool
  | .mk _ _ _ _ _ _ _ _ _ _ b _ _ _ => b

def COpts.hasMounted : COpts → Bool
  | .mk _ _ _ _ _ _ _ _ _ _ _ b _ _ => b

def COpts.hasBeforeUpdate : COpts → Bool
  | .mk _ _ _ _ _ _ _ _ _ _ _ _ b _ => b

def COpts.hasUpdated : COpts → Bool
  | .mk _ _ _ _ _ _ _ _ _ _ _ _ _ b => b

def CInstance.props : CInstance → PList
  | .mk p _ _ _ _ _ _ _ => p

def CInstance.attrs : CInstance → PList
  | .mk _ a _ _ _ _ _ _ => a

def CInstance.state : CInstance → Option PList
  | .mk _ _ s _ _ _ _ _ => s

def CInstance.isMounted : CInstance → Bool
  | .mk _ _ _ m _ _ _ _ => m

def CInstance.subTree : CInstance → Option VNode
  | .mk _ _ _ _ t _ _ _ => t

def CInstance.slots : CInstance → VChild
  | .mk _ _ _ _ _ s _ _ => s

def CInstance.mountedCbs : CInstance → List Nat
  | .mk _ _ _ _ _ _ cbs _ => cbs

def CInstance.instId : CInstance → Nat
  | .mk _ _ _ _ _ _ _ i => i

/-- JS strict equality on vnode types: strings by value, the three
sentinels by identity, descriptor objects and functions by reference
identity (modelled by their ids). -/
def VType.same : VType → VType → Bool
  | .tag a, .tag b => a == b
  | .textT, .textT => true
  | .commentT, .commentT => true
  | .fragmentT, .fragmentT => true
  | .comp o, .comp o' => o.descId == o'.descId
  | .funcComp a, .funcComp b => a == b
  | _, _ => false

/-- notEmpty(children): children is neither null nor undefined. -/
def notEmptyC : VChild → Bool
  | .nothing => false
  | _ => true

/-- The string a non-array children value contributes where the source
hands it to createTextNode / createComment / setElementText. A slots
object in that position stringifies the JS way. -/
def childText : VChild → String
  | .text s => s
  | .slots _ => "[object Object]"
  | _ => ""

def childArr : VChild → List VNode
  | .arr cs => cs
  | _ => []

/-- JS array read children[i]: undefined when out of bounds. -/
def jget (l : List VNode) (i : Int) : Option VNode :=
  if 0 ≤ i then l.get? i.toNat else none

/-- In-place JS array write at an in-bounds index. -/
def jset (l : List VNode) (i : Int) (v : VNode) : List VNode :=
  if 0 ≤ i then l.set i.toNat v else l

/-- keysIndex object of the fast diff: key value to new index. JS object
property writes overwrite. -/
def kset (l : List (JVal × Int)) (k : JVal) (v : Int) : List (JVal × Int) :=
  if l.any (fun p => p.1 = k) then l.map (fun p => if p.1 = k then (k, v) else p)
  else l ++ [(k, v)]

def klookup (l : List (JVal × Int)) (k : JVal) : Option Int :=
  (l.find? (fun p => p.1 = k)).map (·.2)

/-- The fallback render installed by mountComponent when neither the
render option nor setup supplies one: () => ({ type: Comment,
children: the empty string }). -/
def fallbackRender : VNode :=
  .mk .commentT none (.text "") .undef none none

/-- The render function mountComponent ends up invoking: the setup
result when it is callable, else the render option, else the fallback. -/
def effRenderOf (o : COpts) : VNode :=
  if o.hasSetup then
    match o.setupResult with
    | .renderFn b => b
    | _ => o.renderOpt.getD fallbackRender
  else o.renderOpt.getD fallbackRender

/-!
The renderer itself, from src/src/compiler/index.js (createRenderer).
Each source function becomes a step function parameterised by the
recursive entry points (patch and unmount); the knot is tied by the
fuel-indexed patchR and unmountR below, so that every definition is
structurally recursive and computable. Sequencing of fallible steps is
written with the explicit combinators andThen1/andThen2/andThenE, which
are exactly Except-bind with an error short-circuit (curried over the
renderer state where one is produced). The effect wrapper around a
component's render runs its body synchronously: the source passes no
scheduler (the scheduler option is commented out).
-/

abbrev PatchFn :=
  Option VNode → VNode → Nat → Option Nat → RState →
    Except String (VNode × RState)

abbrev UnmountFn := VNode → RState → Except String RState

/-- Sequence a fallible step producing only a state. -/
def andThen1 {β : Type} (x : Except String RState)
    (k : RState → Except String β) : Except String β :=
  match x with
  | .error e => .error e
  | .ok st => k st

/-- Sequence a fallible step producing a value and a state. -/
def andThen2 {α β : Type} (x : Except String (α × RState))
    (k : α → RState → Except String β) : Except String β :=
  match x with
  | .error e => .error e
  | .ok (a, st) => k a st

/-- Sequence a fallible stateless computation. -/
def andThenE {α β : Type} (x : Except String α)
    (k : α → Except String β) : Except String β :=
  match x with
  | .error e => .error e
  | .ok a => k a

/-- Sequential unmount of a child array (children.forEach(unmount)). -/
def unmountListF (um : UnmountFn) : List VNode → RState → Except String RState
  | [], st => .ok st
  | c :: cs, st => andThen1 (um c st) (fun st => unmountListF um cs st)

/-- Sequential mount of a child array (forEach patch(null, child,
container)); the anchor argument is omitted in the source, hence null.
Returns the children decorated with the el/component references the
patches wrote into them. -/
def mountListF (pf : PatchFn) (container : Nat) :
    List VNode → RState → Except String (List VNode × RState)
  | [], st => .ok ([], st)
  | c :: cs, st =>
    andThen2 (pf none c container none st) (fun c' st =>
      andThen2 (mountListF pf container cs st) (fun cs' st =>
        .ok (c' :: cs', st)))

/-- unmount(vnode) from src/src/compiler/index.js. In source order:
recursively unmount array children; for a component-descriptor vnode
unmount instance.subTree and stop; release props through
patchProps(el, key, value, null); for a Fragment unmount the children
again and stop; for a function-typed vnode the source guards on
vnode.subTree, which no code ever assigns, so that branch never runs;
finally remove el from its parent host node. -/
def unmountStep (um : UnmountFn) (v : VNode) (st : RState) :
    Except String RState :=
  andThen1
    (match v.children with
      | .arr cs => unmountListF um cs st
      | _ => .ok st)
    (fun st =>
      match v.type with
      | .comp _ =>
        match v.component with
        | some inst =>
          match inst.subTree with
          | some w => um w st
          | none => .error "TypeError: unmount of null subTree"
        | none => .error "TypeError: reading subTree of undefined"
      | _ =>
        let st := match v.props with
          | some ps => ps.foldl (fun s kv => patchPropS v.el kv.1 kv.2 .null s) st
          | none => st
        match v.type with
        | .fragmentT =>
          match v.children with
          | .arr cs => unmountListF um cs st
          | _ => .error "TypeError: forEach of non-array children"
        | _ =>
          let st := match v.el with
            | some e =>
              match hget st.host e with
              | some n =>
                match n.parentId with
                | some p => removeChildS p e st
                | none => st
              | none => st
            | none => st
          .ok st)

def unmountR : Nat → VNode → RState → Except String RState
  | 0, _, _ => .error "fuel"
  | f + 1, v, st => unmountStep (unmountR f) v st

/-- mountElement(vnode, container, anchor): create the host element,
recurse into array children (or set text content), apply props through
patchProps(el, key, null, value), then insert before the anchor. -/
def mountElementStep (pf : PatchFn) (v : VNode) (container : Nat)
    (anchor : Option Nat) (st : RState) : Except String (VNode × RState) :=
  match v.type with
  | .tag t =>
    let e := (createElementS t st).1
    let st := (createElementS t st).2
    andThen2
      (match v.children with
        | .arr cs =>
          andThen2 (mountListF pf e cs st) (fun cs' st =>
            .ok (VChild.arr cs', st))
        | .nothing => .ok (VChild.nothing, st)
        | ch => .ok (ch, setElementTextS e (childText ch) st))
      (fun children' st =>
        let st := match v.props with
          | some ps =>
            ps.foldl (fun s kv => patchPropS (some e) kv.1 .null kv.2 s) st
          | none => st
        let st := insertS e container anchor st
        .ok ((v.withEl (some e)).withChildren children', st))
  | _ => .error "TypeError: mountElement on a non-string type"

/-- patchChildren(ov, nv, container): the children reconciler. -/
def patchChildrenStep (pf : PatchFn) (um : UnmountFn)
    (fdiff : VNode → VNode → Nat → RState → Except String (List VNode × RState))
    (ov nv : VNode) (container : Nat) (st : RState) :
    Except String (VChild × RState) :=
  match nv.children with
  | .arr _ =>
    match ov.children with
    | .arr _ =>
      andThen2 (fdiff ov nv container st) (fun ncs' st =>
        .ok (VChild.arr ncs', st))
    | _ =>
      let st := setElementTextS container "" st
      andThen2 (mountListF pf container (childArr nv.children) st)
        (fun ncs' st => .ok (VChild.arr ncs', st))
  | nc =>
    if notEmptyC nc then
      andThen1
        (match ov.children with
          | .arr ocs => unmountListF um ocs st
          | _ => .ok st)
        (fun st => .ok (nc, setElementTextS container (childText nc) st))
    else
      match ov.children with
      | .arr ocs =>
        andThen1 (unmountListF um ocs st) (fun st => .ok (nc, st))
      | .text _ => .ok (nc, setElementTextS container "" st)
      | _ => .ok (nc, st)

/-- The first props loop of patchElement: for each key of the new props
object, call patchProps when the value differs from the old one. When
the old props object is absent the source still reads oldProps[key],
which throws on the first iteration. -/
def newPropsLoop (e : Nat) (oldProps : Option PList) :
    PList → RState → Except String RState
  | [], st => .ok st
  | kv :: rest, st =>
    match oldProps with
    | some ops =>
      if kv.2 ≠ pget ops kv.1 then
        newPropsLoop e oldProps rest
          (patchPropS (some e) kv.1 (pget ops kv.1) kv.2 st)
      else newPropsLoop e oldProps rest st
    | none => .error "TypeError: reading a property of undefined"

/-- The second props loop of patchElement: remove old props absent from
the new object. Object.hasOwn(newProps, key) throws when newProps is
absent. -/
def oldPropsLoop (e : Nat) (newProps : Option PList) :
    PList → RState → Except String RState
  | [], st => .ok st
  | kv :: rest, st =>
    match newProps with
    | some nps =>
      if pmem nps kv.1 then oldPropsLoop e newProps rest st
      else oldPropsLoop e newProps rest (patchPropS (some e) kv.1 kv.2 .null st)
    | none => .error "TypeError: hasOwn on undefined"

/-- patchElement(ov, nv): carry el over, patch changed props, remove
props absent from the new set, then reconcile children. -/
def patchElementStep (pf : PatchFn) (um : UnmountFn)
    (fdiff : VNode → VNode → Nat → RState → Except String (List VNode × RState))
    (ov nv : VNode) (st : RState) : Except String (VNode × RState) :=
  match ov.el with
  | none => .error "TypeError: old vnode has no el"
  | some e =>
    andThen1
      (match nv.props with
        | some nps => newPropsLoop e ov.props nps st
        | none => .ok st)
      (fun st =>
        andThen1
          (match ov.props with
            | some ops => oldPropsLoop e nv.props ops st
            | none => .ok st)
          (fun st =>
            andThen2 (patchChildrenStep pf um fdiff ov nv e st)
              (fun children' st =>
                .ok ((nv.withEl (some e)).withChildren children', st))))

/-- Phase 1 of the fast diff: the common-prefix loop
while (oldVnode and newVnode and oldVnode.key === newVnode.key) patching
each pair. Returns commonStartIdx and the decorated new children. -/
def preLoopF (pf : PatchFn) (oldChildren : List VNode) (container : Nat) :
    Nat → List VNode → Int → RState → Except String (Int × List VNode × RState)
  | 0, _, _, _ => .error "fuel"
  | k + 1, newC, i, st =>
    match jget oldChildren i, jget newC i with
    | some ovn, some nvn =>
      if ovn.key = nvn.key then
        andThen2 (pf (some ovn) nvn container none st) (fun nv' st =>
          preLoopF pf oldChildren container k (jset newC i nv') (i + 1) st)
      else .ok (i, newC, st)
    | _, _ => .ok (i, newC, st)

/-- Phase 2 of the fast diff: the common-suffix loop, guarded by
Math.min(oldEndIdx, newEndIdx) > commonStartIdx. -/
def sufLoopF (pf : PatchFn) (oldChildren : List VNode) (container : Nat)
    (i : Int) :
    Nat → List VNode → Int → Int → RState →
    Except String (Int × Int × List VNode × RState)
  | 0, _, _, _, _ => .error "fuel"
  | k + 1, newC, oldEnd, newEnd, st =>
    match jget oldChildren oldEnd, jget newC newEnd with
    | some ovn, some nvn =>
      if min oldEnd newEnd > i ∧ ovn.key = nvn.key then
        andThen2 (pf (some ovn) nvn container none st) (fun nv' st =>
          sufLoopF pf oldChildren container i k (jset newC newEnd nv')
            (oldEnd - 1) (newEnd - 1) st)
      else .ok (oldEnd, newEnd, newC, st)
    | _, _ => .ok (oldEnd, newEnd, newC, st)

/-- Phase 3, first arm: mount the remaining new children
while (commonStartIdx <= newEndIdx), all before the precomputed anchor. -/
def mountTailF (pf : PatchFn) (container : Nat) (anchor : Option Nat) :
    Nat → List VNode → Int → Int → RState →
    Except String (List VNode × RState)
  | 0, _, _, _, _ => .error "fuel"
  | k + 1, newC, i, newEnd, st =>
    if i ≤ newEnd then
      match jget newC i with
      | some w =>
        andThen2 (pf none w container anchor st) (fun w' st =>
          mountTailF pf container anchor k (jset newC i w') (i + 1) newEnd st)
      | none => .error "TypeError: patch of undefined"
    else .ok (newC, st)

/-- Phase 3, second arm: unmount the remaining old children
while (commonStartIdx <= oldEndIdx). -/
def unmountTailF (um : UnmountFn) (oldChildren : List VNode) :
    Nat → Int → Int → RState → Except String RState
  | 0, _, _, _ => .error "fuel"
  | k + 1, i, oldEnd, st =>
    if i ≤ oldEnd then
      match jget oldChildren i with
      | some w =>
        andThen1 (um w st) (fun st =>
          unmountTailF um oldChildren k (i + 1) oldEnd st)
      | none => .error "TypeError: unmount of undefined"
    else .ok st

/-- Phase 4 key table: for i in newStartIdx..newEndIdx map
newChildren[i].key to i. -/
def buildKeysIndex (newC : List VNode) :
    Nat → Int → Int → List (JVal × Int) → List (JVal × Int)
  | 0, _, _, acc => acc
  | k + 1, idx, newEnd, acc =>
    if idx ≤ newEnd then
      match jget newC idx with
      | some w => buildKeysIndex newC k (idx + 1) newEnd (kset acc w.key idx)
      | none => acc
    else acc

/-- Phase 4 main loop over the remaining old children: patch the ones
whose key appears in the key table (recording their old index in source
and watching for out-of-order new indices), unmount the others, and
unmount directly once more than needPatchCount nodes have been patched. -/
def midLoopF (pf : PatchFn) (um : UnmountFn) (oldChildren : List VNode)
    (container : Nat) (oldStartIdx oldEnd needPatchCount : Int)
    (keysIndex : List (JVal × Int)) :
    Nat → Int → List Int → Bool → Int → Int → List VNode → RState →
    Except String (List Int × Bool × List VNode × RState)
  | 0, _, _, _, _, _, _, _ => .error "fuel"
  | k + 1, j, source, moved, pos, patched, newC, st =>
    if j ≤ oldEnd then
      match jget oldChildren j with
      | some oldVnode =>
        if patched > needPatchCount then
          andThen1 (um oldVnode st) (fun st =>
            midLoopF pf um oldChildren container oldStartIdx oldEnd
              needPatchCount keysIndex k (j + 1) source moved pos patched
              newC st)
        else
          match klookup keysIndex oldVnode.key with
          | some keyIdx =>
            match jget newC keyIdx with
            | some newVnode =>
              let source := asetI source (keyIdx - oldStartIdx) j
              let patched := patched + 1
              andThen2 (pf (some oldVnode) newVnode container none st)
                (fun nv' st =>
                  let newC := jset newC keyIdx nv'
                  if keyIdx < pos then
                    midLoopF pf um oldChildren container oldStartIdx oldEnd
                      needPatchCount keysIndex k (j + 1) source true pos
                      patched newC st
                  else
                    midLoopF pf um oldChildren container oldStartIdx oldEnd
                      needPatchCount keysIndex k (j + 1) source moved keyIdx
                      patched newC st)
            | none => .error "TypeError: patch of undefined new child"
          | none =>
            andThen1 (um oldVnode st) (fun st =>
              midLoopF pf um oldChildren container oldStartIdx oldEnd
                needPatchCount keysIndex k (j + 1) source moved pos patched
                newC st)
      | none => .error "TypeError: reading key of undefined"
    else .ok (source, moved, newC, st)

/-- The anchor of the phase 4 loop bodies: newChildren[nextPos].el when
nextPos < newChildren.length, null otherwise (the correct bound). -/
def moveAnchor (newC : List VNode) (nextPos : Int) :
    Except String (Option Nat) :=
  if nextPos < (newC.length : Int) then
    match jget newC nextPos with
    | some w => .ok w.el
    | none => .error "TypeError: reading el of undefined"
  else .ok none

/-- Phase 4 move loop, from x = needPatchCount - 1 down to 0: mount the
source = -1 holes, move the nodes whose position x is not the current
longest-increasing-subsequence entry seq[s], and step s down otherwise. -/
def moveLoopF (pf : PatchFn) (container : Nat) (newStartIdx : Int) :
    Nat → List VNode → List Int → List Int → Int → Int → RState →
    Except String (List VNode × RState)
  | 0, _, _, _, _, _, _ => .error "fuel"
  | k + 1, newC, source, seq, s, x, st =>
    if 0 ≤ x then
      match agetI source x with
      | some sx =>
        if sx = -1 then
          match jget newC (x + newStartIdx) with
          | some newVNode =>
            andThenE (moveAnchor newC (x + newStartIdx + 1)) (fun anchor =>
              andThen2 (pf none newVNode container anchor st) (fun nv' st =>
                moveLoopF pf container newStartIdx k
                  (jset newC (x + newStartIdx) nv') source seq s (x - 1) st))
          | none => .error "TypeError: patch of undefined"
        else if (match agetI seq s with | some y => x != y | none => true) then
          match jget newC (x + newStartIdx) with
          | some newVNode =>
            andThenE (moveAnchor newC (x + newStartIdx + 1)) (fun anchor =>
              match newVNode.el with
              | some e =>
                moveLoopF pf container newStartIdx k newC source seq s (x - 1)
                  (insertS e container anchor st)
              | none => .error "TypeError: insert of undefined el")
          | none => .error "TypeError: reading el of undefined"
        else
          moveLoopF pf container newStartIdx k newC source seq (s - 1) (x - 1) st
      | none => .error "TypeError: reading source of undefined"
    else .ok (newC, st)

/-- fastDiff(ov, nv, container): prefix trim, suffix trim, the two pure
tail cases, then the general middle with source table, key table and
longest-increasing-subsequence moves. The phase-3 mount anchor is
computed with the bound anchorIdx < newChildren.length + 1 exactly as in
the source, so when anchorIdx equals newChildren.length the source reads
newChildren[anchorIdx].el of an undefined element and throws. -/
def fastDiffStep (pf : PatchFn) (um : UnmountFn) (ov nv : VNode)
    (container : Nat) (st : RState) :
    Except String (List VNode × RState) :=
  let newChildren := childArr nv.children
  let oldChildren := childArr ov.children
  let fl := oldChildren.length + newChildren.length + 1
  andThenE (preLoopF pf oldChildren container fl newChildren 0 st)
    (fun r1 =>
      let i := r1.1
      andThenE (sufLoopF pf oldChildren container i fl r1.2.1
          ((oldChildren.length : Int) - 1) ((newChildren.length : Int) - 1)
          r1.2.2)
        (fun r2 =>
          let oldEnd := r2.1
          let newEnd := r2.2.1
          let newC := r2.2.2.1
          let st := r2.2.2.2
          if i > oldEnd ∧ i ≤ newEnd then
            andThenE
              (if newEnd + 1 < (newC.length : Int) + 1 then
                match jget newC (newEnd + 1) with
                | some w => .ok w.el
                | none => .error "TypeError: reading el of undefined"
              else .ok none)
              (fun anchor => mountTailF pf container anchor fl newC i newEnd st)
          else if i ≤ oldEnd ∧ i > newEnd then
            andThen1 (unmountTailF um oldChildren fl i oldEnd st)
              (fun st => .ok (newC, st))
          else
            let needPatchCount : Int := newEnd - i + 1
            if needPatchCount ≤ 0 then .ok (newC, st)
            else
              let source := List.replicate needPatchCount.toNat (-1 : Int)
              let keysIndex := buildKeysIndex newC fl i newEnd []
              andThenE (midLoopF pf um oldChildren container i oldEnd
                  needPatchCount keysIndex fl i source false 0 0 newC st)
                (fun r3 =>
                  let source := r3.1
                  let moved := r3.2.1
                  let newC := r3.2.2.1
                  let st := r3.2.2.2
                  if moved then
                    andThenE (getSequence source) (fun seq =>
                      moveLoopF pf container i fl newC source seq
                        ((seq.length : Int) - 1) (needPatchCount - 1) st)
                  else .ok (newC, st))))

/-- mountComponent(vnode, container, anchor): resolve the descriptor,
run beforeCreate, resolveProps, build the instance (setup registrations
land in instance.mounted through the currentInstance register, which is
set only when setup exists), adopt a callable setup result as the render
function (warning when it overrides a render option), run created, fall
back to the Comment render when no render function exists, then run the
render effect synchronously: beforeMount, patch the subtree, flip
isMounted, drain the onMounted registrations in order, run the mounted
option, and record the subtree on the instance. -/
def mountComponentStep (pf : PatchFn) (v : VNode) (container : Nat)
    (anchor : Option Nat) (st : RState) : Except String (VNode × RState) :=
  match v.type with
  | .comp o =>
    let instId := st.nextInst
    let st : RState := { st with nextInst := instId + 1 }
    let st := if o.hasBeforeCreate then emitT st (.lev (.beforeCreateE instId))
      else st
    andThenE (resolveProps o.propsOption (v.props.getD [])) (fun pa =>
      let props := pa.1
      let attrs := pa.2
      let slots := match v.children with
        | .nothing => VChild.slots []
        | .text s => if s = "" then VChild.slots [] else VChild.text s
        | ch => ch
      let state := if o.hasData then some o.dataState else none
      let mountedCbs := if o.hasSetup then o.setupCbs else []
      let rs :=
        if o.hasSetup then
          match o.setupResult with
          | .renderFn b =>
            ((some b : Option VNode),
              if o.renderOpt.isSome then
                emitT st (.lev (.warnE "setup returned a render function, the render option is overridden"))
              else st)
          | _ => ((o.renderOpt : Option VNode), st)
        else ((o.renderOpt : Option VNode), st)
      let render? := rs.1
      let st := rs.2
      let st := if o.hasCreated then emitT st (.lev (.createdE instId)) else st
      let renderBody := render?.getD fallbackRender
      let st := if o.hasBeforeMount then emitT st (.lev (.beforeMountE instId))
        else st
      andThen2 (pf none renderBody container anchor st) (fun subTree st =>
        let st := mountedCbs.foldl
          (fun s cb => emitT s (.lev (.mountedCbE instId cb))) st
        let st := if o.hasMounted then emitT st (.lev (.mountedOptE instId))
          else st
        let inst := CInstance.mk props attrs state true (some subTree) slots
          mountedCbs instId
        .ok (v.withComponent (some inst), st)))
  | _ => .error "TypeError: mountComponent on a non-component"

/-- The dispatch of patch(ov, nv, container, anchor) after the
type-mismatch unmount: a string tag goes to the element reconciler; Text
and Comment create or update their host node (the text update writes
el.textContent directly, not through the adapter, and only when it
differs); Fragment mounts its children or delegates to patchChildren; a
component descriptor is mounted when no old vnode exists and otherwise
NOTHING happens (the source has no else branch there, patchComponent is
never invoked); a function type matches no dispatch branch at all, so
the vnode is ignored. -/
def patchCore (pf : PatchFn) (um : UnmountFn)
    (fdiff : VNode → VNode → Nat → RState → Except String (List VNode × RState))
    (ov? : Option VNode) (nv : VNode) (container : Nat)
    (anchor : Option Nat) (st : RState) : Except String (VNode × RState) :=
  match nv.type with
  | .tag _ =>
    match ov? with
    | none => mountElementStep pf nv container anchor st
    | some ovn => patchElementStep pf um fdiff ovn nv st
  | .textT =>
    match ov? with
    | none =>
      let e := (createTextNodeS (childText nv.children) st).1
      let st := (createTextNodeS (childText nv.children) st).2
      .ok (nv.withEl (some e), insertS e container none st)
    | some ovn =>
      match ovn.el with
      | some e =>
        let st :=
          if contentOf st.host e ≠ some (childText nv.children) then
            let h :=
              hmod st.host e
                (fun n => { n with content := childText nv.children })
            { st with host := h }
          else st
        .ok (nv.withEl (some e), st)
      | none => .error "TypeError: textContent of undefined"
  | .commentT =>
    match ov? with
    | none =>
      let e := (createCommentS (childText nv.children) st).1
      let st := (createCommentS (childText nv.children) st).2
      .ok (nv.withEl (some e), insertS e container none st)
    | some ovn =>
      match ovn.el with
      | some e =>
        let st :=
          if contentOf st.host e ≠ some (childText nv.children) then
            let h :=
              hmod st.host e
                (fun n => { n with content := childText nv.children })
            { st with host := h }
          else st
        .ok (nv.withEl (some e), st)
      | none => .error "TypeError: textContent of undefined"
  | .fragmentT =>
    match ov? with
    | none =>
      match nv.children with
      | .arr cs =>
        andThen2 (mountListF pf container cs st) (fun cs' st =>
          .ok (nv.withChildren (.arr cs'), st))
      | _ => .error "TypeError: forEach of non-array children"
    | some ovn =>
      andThen2 (patchChildrenStep pf um fdiff ovn nv container st)
        (fun ch' st => .ok (nv.withChildren ch', st))
  | .comp _ =>
    match ov? with
    | none => mountComponentStep pf nv container anchor st
    | some _ => .ok (nv, st)
  | .funcComp _ => .ok (nv, st)

/-- patch(ov, nv, container, anchor): when both vnodes exist and their
types differ, unmount the old one first and proceed as a pure mount;
then dispatch through patchCore. -/
def patchStep (pf : PatchFn) (um : UnmountFn)
    (fdiff : VNode → VNode → Nat → RState → Except String (List VNode × RState))
    (ov? : Option VNode) (nv : VNode) (container : Nat)
    (anchor : Option Nat) (st : RState) : Except String (VNode × RState) :=
  match ov? with
  | some ovn =>
    if ¬ (ovn.type.same nv.type) then
      andThen1 (um ovn st) (fun st =>
        patchCore pf um fdiff none nv container anchor st)
    else patchCore pf um fdiff (some ovn) nv container anchor st
  | none => patchCore pf um fdiff none nv container anchor st

/-- The tied knot: patch with the given amount of fuel. Every recursive
entry runs with one unit less; unmount receives the full local budget. -/
def patchR :
    Nat → Option VNode → VNode → Nat → Option Nat → RState →
      Except String (VNode × RState)
  | 0, _, _, _, _, _ => .error "fuel"
  | f + 1, ov?, nv, c, a, st =>
    patchStep (patchR f) (unmountR (f + 1))
      (fun ov nv c st => fastDiffStep (patchR f) (unmountR (f + 1)) ov nv c st)
      ov? nv c a st

/-- render(vnode, container) from createRenderer: patch against the
stored container._vnode when the new vnode exists, unmount the stored
vnode when it does not, and store the result (the very object patch
decorated) back into container._vnode. The stored vnode is threaded
explicitly here; the returned first component is the new value of
container._vnode. -/
def render (fuel : Nat) (vnode? : Option VNode) (container : Nat)
    (prevVnode : Option VNode) (st : RState) :
    Except String (Option VNode × RState) :=
  match vnode? with
  | some v =>
    andThen2 (patchR fuel prevVnode v container none st) (fun v' st =>
      .ok (some v', st))
  | none =>
    match prevVnode with
    | some p =>
      andThen1 (unmountR fuel p st) (fun st => .ok ((none : Option VNode), st))
    | none => .ok (none, st)


/-- Initial renderer state: one empty container element with host id 0
and no trace. -/
def initState : RState :=
  { host := { nextId := 1, nodes := [(0, ⟨.elem "root", "", [], none⟩)] },
    trace := [], nextInst := 0 }

/-!
Invariants used by the theorems: which host nodes a mounted vnode owns,
well-formedness of the host map, cleanliness of user-built vnodes, and
the shape a mounted tree has in the host.
-/

/-!
The top-level host nodes of a mounted vnode: the element/text/comment
node itself, the concatenation of the children for a fragment, the
subtree's top nodes for a component, nothing for a function component. -/
mutual
def topEls : VNode → List Nat
  | .mk t _ ch _ el cmp =>
    match t with
    | .fragmentT =>
      match ch with
      | .arr cs => topElsL cs
      | _ => []
    | .comp _ =>
      match cmp with
      | some (.mk _ _ _ _ (some w) _ _ _) => topEls w
      | _ => []
    | .funcComp _ => []
    | _ => match el with | some e => [e] | _ => []

def topElsL : List VNode → List Nat
  | [] => []
  | c :: cs => topEls c ++ topElsL cs
end

/-!
Every host node referenced anywhere inside a decorated vnode tree:
its own el, its array children's nodes, and its component subtree's. -/
mutual
def elsTree : VNode → List Nat
  | .mk _ _ ch _ el cmp =>
    (match el with | some e => [e] | none => []) ++
    (match ch with | .arr cs => elsTreeL cs | _ => []) ++
    (match cmp with
      | some (.mk _ _ _ _ (some w) _ _ _) => elsTree w
      | _ => [])

def elsTreeL : List VNode → List Nat
  | [] => []
  | c :: cs => elsTree c ++ elsTreeL cs
end

/-- Well-formed host map: node ids are unique and below the allocation
counter. -/
def ValidH (h : Host) : Prop :=
  (h.nodes.map Prod.fst).Nodup ∧ ∀ q ∈ h.nodes.map Prod.fst, q < h.nextId

/-- Key uniqueness of a props record (JS objects cannot carry duplicate
keys, so association lists with duplicates represent no JS value). -/
def PNodup : Option PList → Prop
  | none => True
  | some l => (l.map Prod.fst).Nodup

/-- Types whose vnodes carry slots (or nothing) as children rather than
an element child array. -/
def slotsOnly : VType → Bool
  | .comp _ => true
  | .funcComp _ => true
  | _ => false

/-!
A user-built vnode before any mount: el and component are unset
(null before mount, per the data model), props objects have unique keys,
component-like vnodes do not carry child arrays, and the same holds
recursively, including for the vnode a component descriptor's render
function (or its setup-returned render thunk) produces. -/
mutual
inductive Clean : VNode → Prop where
  | mk : ∀ t props ch key,
      PNodup props → CleanC ch → CleanT t →
      (slotsOnly t = true → ∀ cs, ch ≠ .arr cs) →
      Clean (.mk t props ch key none none)

inductive CleanC : VChild → Prop where
  | nothing : CleanC .nothing
  | text : ∀ s, CleanC (.text s)
  | slots : ∀ ss, CleanC (.slots ss)
  | arr : ∀ cs, CleanL cs → CleanC (.arr cs)

inductive CleanL : List VNode → Prop where
  | nil : CleanL []
  | cons : ∀ c cs, Clean c → CleanL cs → CleanL (c :: cs)

inductive CleanT : VType → Prop where
  | tag : ∀ s, CleanT (.tag s)
  | textT : CleanT .textT
  | commentT : CleanT .commentT
  | fragmentT : CleanT .fragmentT
  | comp : ∀ o, Clean (effRenderOf o) → CleanT (.comp o)
  | funcComp : ∀ fid, CleanT (.funcComp fid)
end

/-!
The shape a mounted vnode tree has in host h under parent node p:
host elements carry their tag, their child list is exactly the top nodes
of the vnode's children (or their text), text/comment nodes carry their
text, fragments and component subtrees recurse, and every node's parent
pointer is p. Props records keep unique keys. -/
mutual
inductive Sub (h : Host) : VNode → Nat → Prop where
  | tagArr : ∀ t props cs key e n p,
      PNodup props →
      hget h e = some n → n.kind = .elem t → n.parentId = some p →
      n.childIds = topElsL cs → SubL h cs e →
      Sub h (.mk (.tag t) props (.arr cs) key (some e) none) p
  | tagOther : ∀ t props ch key e n p,
      PNodup props → (∀ cs, ch ≠ .arr cs) →
      hget h e = some n → n.kind = .elem t → n.parentId = some p →
      n.childIds = [] → n.content = childText ch →
      Sub h (.mk (.tag t) props ch key (some e) none) p
  | textS : ∀ props ch key e n p,
      PNodup props → (∀ cs, ch = .arr cs → elsTreeL cs = []) →
      hget h e = some n → n.kind = .textN → n.parentId = some p →
      n.childIds = [] → n.content = childText ch →
      Sub h (.mk .textT props ch key (some e) none) p
  | commentS : ∀ props ch key e n p,
      PNodup props → (∀ cs, ch = .arr cs → elsTreeL cs = []) →
      hget h e = some n → n.kind = .commentN → n.parentId = some p →
      n.childIds = [] → n.content = childText ch →
      Sub h (.mk .commentT props ch key (some e) none) p
  | fragS : ∀ props cs key p,
      PNodup props → SubL h cs p →
      Sub h (.mk .fragmentT props (.arr cs) key none none) p
  | compS : ∀ o props ch key inst w p,
      PNodup props → (∀ cs, ch ≠ .arr cs) →
      inst.subTree = some w → Sub h w p →
      Sub h (.mk (.comp o) props ch key none (some inst)) p
  | funcS : ∀ fid props ch key p,
      PNodup props → (∀ cs, ch ≠ .arr cs) →
      Sub h (.mk (.funcComp fid) props ch key none none) p

inductive SubL (h : Host) : List VNode → Nat → Prop where
  | nil : ∀ p, SubL h [] p
  | cons : ∀ c cs p, Sub h c p → SubL h cs p → SubL h (c :: cs) p
end

/-- The state change a re-render of an unchanged tree is allowed to
make: the host is untouched, no component instance is allocated, and the
trace grows only by setElementText operations that rewrite a node's
existing text with the same string. -/
def SamePost (st st' : RState) : Prop :=
  st'.host = st.host ∧ st'.nextInst = st.nextInst ∧
  ∃ tr, st'.trace = st.trace ++ tr ∧
    ∀ t ∈ tr, ∃ e s, t = TItem.hop (.setElementText e s) ∧
      contentOf st.host e = some s

/-- What a successful mount (patch with no old vnode, null anchor)
guarantees: the allocation counter grows, every host node of the mounted
tree is freshly allocated and they are pairwise distinct, pre-existing
nodes other than the container are untouched, the container gains
exactly the tree's top nodes at the end of its child list, the mounted
tree has the Sub shape under the container, and the host stays well
formed. -/
structure MountPost (st : RState) (c : Nat) (v' : VNode) (st' : RState) : Prop where
  nextMono : st.host.nextId ≤ st'.host.nextId
  fresh : ∀ x ∈ elsTree v', st.host.nextId ≤ x ∧ x < st'.host.nextId
  nodup : (elsTree v').Nodup
  sub : Sub st'.host v' c
  frameOld : ∀ q, q ≠ c → q < st.host.nextId → hget st'.host q = hget st.host q
  contChanged : ∀ n, hget st.host c = some n →
    hget st'.host c = some { n with childIds := n.childIds ++ topEls v' }
  valid : ValidH st'.host

/-- The list form of MountPost: what mounting a child array into
container c (mountChildren / the Fragment mount) guarantees. -/
structure MountPostL (st : RState) (c : Nat) (cs' : List VNode) (st' : RState) :
    Prop where
  nextMono : st.host.nextId ≤ st'.host.nextId
  fresh : ∀ x ∈ elsTreeL cs', st.host.nextId ≤ x ∧ x < st'.host.nextId
  nodup : (elsTreeL cs').Nodup
  sub : SubL st'.host cs' c
  frameOld : ∀ q, q ≠ c → q < st.host.nextId → hget st'.host q = hget st.host q
  contChanged : ∀ n, hget st.host c = some n →
    hget st'.host c = some { n with childIds := n.childIds ++ topElsL cs' }
  valid : ValidH st'.host

/-- What unmount(v) does to the host when v is mounted under parent p:
nodes outside the tree and other than p keep their entries, every node
of the tree ends up detached, and p's child list loses exactly the
tree's top nodes (each erased once, in order). -/
def UPost (v : VNode) (p : Nat) (st st' : RState) : Prop :=
  (∀ q, q ∉ elsTree v → q ≠ p → hget st'.host q = hget st.host q) ∧
  (∀ e ∈ elsTree v, ∀ n, hget st'.host e = some n → n.parentId = none) ∧
  (∀ np, hget st.host p = some np →
    hget st'.host p
      = some { np with childIds := (topEls v).foldl List.erase np.childIds })

/-- UPost for a child array unmounted from parent p. -/
def UPostL (cs : List VNode) (p : Nat) (st st' : RState) : Prop :=
  (∀ q, q ∉ elsTreeL cs → q ≠ p → hget st'.host q = hget st.host q) ∧
  (∀ e ∈ elsTreeL cs, ∀ n, hget st'.host e = some n → n.parentId = none) ∧
  (∀ np, hget st.host p = some np →
    hget st'.host p
      = some { np with childIds := (topElsL cs).foldl List.erase np.childIds })

/-- Every host node a vnode tree references is already detached. Such a
tree arises from the double unmount pass the Fragment branch performs:
the second pass leaves the host untouched. -/
def DetachedTree (h : Host) (v : VNode) : Prop :=
  ∀ e ∈ elsTree v, ∀ n, hget h e = some n → n.parentId = none

def DetachedL (h : Host) (cs : List VNode) : Prop :=
  ∀ e ∈ elsTreeL cs, ∀ n, hget h e = some n → n.parentId = none

/-- Relation between renderer states before and after one interpreter
step: the instance counter only grows, the trace only gains a suffix,
and every onMounted-callback event in that suffix belongs to an instance
allocated at or after the starting counter. -/
def TraceMono (st st' : RState) : Prop :=
  st.nextInst ≤ st'.nextInst ∧
  ∃ tr, st'.trace = st.trace ++ tr ∧
    ∀ i cb, TItem.lev (.mountedCbE i cb) ∈ tr → st.nextInst ≤ i

/-- The states a component mount passes through before its own
onMounted callbacks run, relative to the instance id n it allocated:
the instance counter has moved strictly past n and the trace has grown
only by items whose onMounted-callback events belong to strictly later
instances. -/
def PreSeg (n : Nat) (st st' : RState) : Prop :=
  n < st'.nextInst ∧
  ∃ tr, st'.trace = st.trace ++ tr ∧
    ∀ i cb, TItem.lev (.mountedCbE i cb) ∈ tr → n < i

/-!
Concrete example inputs used by closed theorems and witnesses.
-/

def exDivHi : VNode :=
  .mk (.tag "div") (some [("id", .str "x")]) (.text "hi") .undef none none

def exKeyed (k : String) : VNode :=
  .mk (.tag "div") none .nothing (.str k) none none

def exEmptyList : VNode := .mk (.tag "div") none (.arr []) .undef none none

def exABC : VNode :=
  .mk (.tag "div") none (.arr [exKeyed "a", exKeyed "b", exKeyed "c"]) .undef
    none none

def exTitleOpts : COpts :=
  .mk 2 (some [("title", .objDefault (.str "d"))]) false [] true []
    (.renderFn (exKeyed "x")) none false false false false false false

def exComp1 : VNode :=
  .mk (.comp exTitleOpts) (some [("title", .str "one")]) .nothing .undef
    none none

def exComp2 : VNode :=
  .mk (.comp exTitleOpts) (some [("title", .str "two")]) .nothing .undef
    none none

def exFunc : VNode :=
  .mk (.funcComp 7) (some [("color", .str "red")]) .nothing .undef none none

def exCbOpts : COpts :=
  .mk 1 (some []) false [] true [10, 11] .nullRes none false false false
    true false false

def exCbComp : VNode := .mk (.comp exCbOpts) none .nothing .undef none none

/-!
Theorems. The toolkit lemmas about Except, the host map and the step
operations come first; the claim theorems close the file.
-/

theorem andThen1_ok {β : Type} (a : RState) (k : RState → Except String β) :
    andThen1 (.ok a) k = k a := rfl

theorem andThen1_err {β : Type} (e : String) (k : RState → Except String β) :
    andThen1 (.error e) k = .error e := rfl

theorem andThen2_ok {α β : Type} (a : α) (s : RState)
    (k : α → RState → Except String β) : andThen2 (.ok (a, s)) k = k a s := rfl

theorem andThen2_err {α β : Type} (e : String)
    (k : α → RState → Except String β) :
    andThen2 (.error e : Except String (α × RState)) k = .error e := rfl

theorem andThenE_ok {α β : Type} (a : α) (k : α → Except String β) :
    andThenE (.ok a) k = k a := rfl

theorem andThenE_err {α β : Type} (e : String) (k : α → Except String β) :
    andThenE (.error e : Except String α) k = .error e := rfl

theorem andThen1_eq_ok {β : Type} {x : Except String RState}
    {k : RState → Except String β} {r : β} :
    andThen1 x k = .ok r ↔ ∃ s, x = .ok s ∧ k s = .ok r := by
  cases x with
  | ok a => simp [andThen1]
  | error e => simp [andThen1]

theorem andThen2_eq_ok {α β : Type} {x : Except String (α × RState)}
    {k : α → RState → Except String β} {r : β} :
    andThen2 x k = .ok r ↔ ∃ a s, x = .ok (a, s) ∧ k a s = .ok r := by
  cases x with
  | ok a =>
    obtain ⟨a, s⟩ := a
    simp only [andThen2, Except.ok.injEq, Prod.mk.injEq]
    constructor
    · intro h
      exact ⟨a, s, ⟨rfl, rfl⟩, h⟩
    · rintro ⟨a1, s1, ⟨rfl, rfl⟩, h⟩
      exact h
  | error e => simp [andThen2]

theorem andThenE_eq_ok {α β : Type} {x : Except String α}
    {k : α → Except String β} {r : β} :
    andThenE x k = .ok r ↔ ∃ a, x = .ok a ∧ k a = .ok r := by
  cases x with
  | ok a => simp [andThenE]
  | error e => simp [andThenE]

/-!
Host-map access lemmas.
-/

theorem find_map_set_self (l : List (Nat × HNode)) (i : Nat) (n : HNode)
    (hmem : l.any (fun p => p.1 = i) = true) :
    (l.map (fun p => if p.1 = i then (i, n) else p)).find?
      (fun p => p.1 = i) = some (i, n) := by
  induction l with
  | nil => simp at hmem
  | cons hd tl ih =>
    by_cases hhd : hd.1 = i
    · simp [List.find?_cons_of_pos, hhd]
    · simp only [List.any_cons, Bool.or_eq_true, decide_eq_true_eq] at hmem
      rcases hmem with h | h
      · exact absurd h hhd
      · simpa [List.map_cons, List.find?_cons_of_neg, hhd] using ih (by simpa using h)

theorem find_map_set_ne (l : List (Nat × HNode)) (i j : Nat) (n : HNode)
    (hij : j ≠ i) :
    (l.map (fun p => if p.1 = i then (i, n) else p)).find?
      (fun p => p.1 = j) = l.find? (fun p => p.1 = j) := by
  induction l with
  | nil => simp
  | cons hd tl ih =>
    by_cases hhd : hd.1 = i
    · have h1 : ¬ ((i, n).1 = j) := by simp [Ne.symm hij]
      have h2 : ¬ (hd.1 = j) := by rw [hhd]; exact Ne.symm hij
      rw [List.map_cons, if_pos hhd,
        List.find?_cons_of_neg _ (by simpa using h1),
        List.find?_cons_of_neg _ (by simpa using h2)]
      exact ih
    · by_cases hj : hd.1 = j
      · rw [List.map_cons, if_neg hhd,
          List.find?_cons_of_pos _ (by simpa using hj),
          List.find?_cons_of_pos _ (by simpa using hj)]
      · rw [List.map_cons, if_neg hhd,
          List.find?_cons_of_neg _ (by simpa using hj),
          List.find?_cons_of_neg _ (by simpa using hj)]
        exact ih

theorem hget_hset_self (h : Host) (i : Nat) (n : HNode) :
    hget (hset h i n) i = some n := by
  unfold hget hset
  by_cases hmem : h.nodes.any (fun p => p.1 = i)
  · simp [hmem, find_map_set_self h.nodes i n hmem]
  · have hnone : h.nodes.find? (fun p => p.1 = i) = none := by
      rw [List.find?_eq_none]
      intro x hx
      simp only [decide_eq_true_eq]
      intro hx1
      exact hmem (List.any_eq_true.mpr ⟨x, hx, by simp [hx1]⟩)
    simp [hmem, List.find?_append, hnone, List.find?_cons_of_pos]

theorem hget_hset_ne (h : Host) (i j : Nat) (n : HNode) (hij : j ≠ i) :
    hget (hset h i n) j = hget h j := by
  unfold hget hset
  by_cases hmem : h.nodes.any (fun p => p.1 = i)
  · simp [hmem, find_map_set_ne h.nodes i j n hij]
  · have h1 : ¬ ((i, n).1 = j) := by simp [Ne.symm hij]
    simp [hmem, List.find?_append, List.find?_cons_of_neg, h1]

theorem hget_hmod_self (h : Host) (i : Nat) (f : HNode → HNode) (n : HNode)
    (hn : hget h i = some n) : hget (hmod h i f) i = some (f n) := by
  unfold hmod
  rw [hn, hget_hset_self]

theorem hmod_absent (h : Host) (i : Nat) (f : HNode → HNode)
    (hn : hget h i = none) : hmod h i f = h := by
  unfold hmod
  rw [hn]

theorem hget_hmod_ne (h : Host) (i j : Nat) (f : HNode → HNode) (hij : j ≠ i) :
    hget (hmod h i f) j = hget h j := by
  unfold hmod
  cases hres : hget h i with
  | none => rfl
  | some n => exact hget_hset_ne h i j (f n) hij

@[simp] theorem emitT_host (st : RState) (t : TItem) : (emitT st t).host = st.host := rfl

@[simp] theorem emitT_nextInst (st : RState) (t : TItem) :
    (emitT st t).nextInst = st.nextInst := rfl

@[simp] theorem emitT_trace (st : RState) (t : TItem) :
    (emitT st t).trace = st.trace ++ [t] := rfl

@[simp] theorem patchPropS_host (el : Option Nat) (k : String) (pv nv : JVal)
    (st : RState) : (patchPropS el k pv nv st).host = st.host := rfl

@[simp] theorem patchPropS_nextInst (el : Option Nat) (k : String) (pv nv : JVal)
    (st : RState) : (patchPropS el k pv nv st).nextInst = st.nextInst := rfl


@[simp] theorem withNextInst_host (st : RState) (k : Nat) :
    ({ st with nextInst := k } : RState).host = st.host := rfl

@[simp] theorem if_emit_host (b : Bool) (st : RState) (t : TItem) :
    (if b then emitT st t else st).host = st.host := by cases b <;> rfl

@[simp] theorem if_emit_nextInst (b : Bool) (st : RState) (t : TItem) :
    (if b then emitT st t else st).nextInst = st.nextInst := by cases b <;> rfl

theorem foldl_emit_host {α : Type} (g : α → TItem) (l : List α) (st : RState) :
    (l.foldl (fun s cb => emitT s (g cb)) st).host = st.host := by
  induction l generalizing st with
  | nil => rfl
  | cons hd tl ih => simp [List.foldl_cons, ih]

theorem foldl_emit_nextInst {α : Type} (g : α → TItem) (l : List α) (st : RState) :
    (l.foldl (fun s cb => emitT s (g cb)) st).nextInst = st.nextInst := by
  induction l generalizing st with
  | nil => rfl
  | cons hd tl ih => simp [List.foldl_cons, ih]

theorem hget_create_old (h : Host) (n : HNode) (q : Nat) (hq : q ≠ h.nextId) :
    hget { nextId := h.nextId + 1, nodes := h.nodes ++ [(h.nextId, n)] } q
      = hget h q := by
  unfold hget
  simp only [List.find?_append]
  cases hres : h.nodes.find? (fun p => p.1 = q) with
  | some x => simp
  | none =>
    have : ¬ ((h.nextId, n).1 = q) := by simpa using (Ne.symm hq)
    simp [List.find?_cons_of_neg, this]

theorem hget_create_fresh (h : Host) (n : HNode) (hv : ValidH h) :
    hget { nextId := h.nextId + 1, nodes := h.nodes ++ [(h.nextId, n)] }
      h.nextId = some n := by
  unfold hget
  have hnone : h.nodes.find? (fun p => p.1 = h.nextId) = none := by
    rw [List.find?_eq_none]
    intro x hx
    simp only [decide_eq_true_eq]
    intro hx1
    have := hv.2 x.1 (List.mem_map.mpr ⟨x, hx, rfl⟩)
    omega
  simp [List.find?_append, hnone, List.find?_cons_of_pos]

theorem detachH_noparent (node : Nat) (h : Host) (n : HNode)
    (hn : hget h node = some n) (hpar : n.parentId = none) :
    detachH node h = h := by
  unfold detachH
  rw [hn]
  simp only [hpar]

theorem insertS_hget_node (node parentN : Nat) (anchor : Option Nat)
    (st : RState) (n : HNode) (hn : hget st.host node = some n)
    (hpar : n.parentId = none) (hne : node ≠ parentN) :
    hget (insertS node parentN anchor st).host node
      = some { n with parentId := some parentN } := by
  unfold insertS
  rw [detachH_noparent node st.host n hn hpar]
  simp only [emitT_host]
  rw [hget_hmod_ne _ parentN node _ hne,
    hget_hmod_self _ node _ n hn]

theorem insertS_hget_parent (node parentN : Nat) (anchor : Option Nat)
    (st : RState) (n pn : HNode) (hn : hget st.host node = some n)
    (hpar : n.parentId = none) (hne : node ≠ parentN)
    (hp : hget st.host parentN = some pn) :
    hget (insertS node parentN anchor st).host parentN
      = some { pn with childIds := insBefore pn.childIds node anchor } := by
  unfold insertS
  rw [detachH_noparent node st.host n hn hpar]
  simp only [emitT_host]
  have hp2 : hget (hmod st.host node fun m => { m with parentId := some parentN })
      parentN = some pn := by
    rw [hget_hmod_ne _ node parentN _ (Ne.symm hne)]
    exact hp
  rw [hget_hmod_self _ parentN _ pn hp2]

theorem insertS_hget_other (node parentN : Nat) (anchor : Option Nat)
    (st : RState) (n : HNode) (q : Nat) (hn : hget st.host node = some n)
    (hpar : n.parentId = none) (hq1 : q ≠ node) (hq2 : q ≠ parentN) :
    hget (insertS node parentN anchor st).host q = hget st.host q := by
  unfold insertS
  rw [detachH_noparent node st.host n hn hpar]
  simp only [emitT_host]
  rw [hget_hmod_ne _ parentN q _ hq2, hget_hmod_ne _ node q _ hq1]

theorem commentMount_eq (g : Nat) (c : Nat) (a : Option Nat) (st : RState) :
    patchR (g + 1) none fallbackRender c a st
      = .ok (fallbackRender.withEl (some st.host.nextId),
          insertS st.host.nextId c none (createCommentS "" st).2) := rfl

theorem commentMount_host (st5 : RState) (c : Nat) (hv : ValidH st5.host)
    (hc : c < st5.host.nextId) :
    hget (insertS st5.host.nextId c none (createCommentS "" st5).2).host
      st5.host.nextId = some ⟨.commentN, "", [], some c⟩ := by
  have hcr : hget (createCommentS "" st5).2.host st5.host.nextId
      = some ⟨.commentN, "", [], none⟩ :=
    hget_create_fresh st5.host _ hv
  have hne : st5.host.nextId ≠ c := by omega
  have h2 := insertS_hget_node st5.host.nextId c none (createCommentS "" st5).2
    ⟨.commentN, "", [], none⟩ hcr rfl hne
  simpa using h2


/-!
TraceMono combinators: every adapter operation appends one host-op trace
item and leaves the instance counter alone.
-/

theorem TraceMono.refl (st : RState) : TraceMono st st :=
  ⟨le_refl _, [], by simp, by simp⟩

theorem TraceMono.trans {s1 s2 s3 : RState} (h1 : TraceMono s1 s2)
    (h2 : TraceMono s2 s3) : TraceMono s1 s3 := by
  obtain ⟨hn1, t1, ht1, hc1⟩ := h1
  obtain ⟨hn2, t2, ht2, hc2⟩ := h2
  refine ⟨le_trans hn1 hn2, t1 ++ t2, by rw [ht2, ht1, List.append_assoc], ?_⟩
  intro i cb hmem
  rcases List.mem_append.mp hmem with h | h
  · exact hc1 i cb h
  · exact le_trans hn1 (hc2 i cb h)

theorem traceMono_hop (st : RState) (o : HOp) : TraceMono st (emitT st (.hop o)) :=
  ⟨le_refl _, [.hop o], rfl, by simp⟩

theorem traceMono_trace_pres {st st' : RState} (ht : st'.trace = st.trace)
    (hn : st'.nextInst = st.nextInst) : TraceMono st st' :=
  ⟨le_of_eq hn.symm, [], by simp [ht], by simp⟩

theorem traceMono_createElementS (tag : String) (st : RState) :
    TraceMono st (createElementS tag st).2 := traceMono_hop _ _

theorem traceMono_createTextNodeS (s : String) (st : RState) :
    TraceMono st (createTextNodeS s st).2 := traceMono_hop _ _

theorem traceMono_createCommentS (s : String) (st : RState) :
    TraceMono st (createCommentS s st).2 := traceMono_hop _ _

theorem traceMono_insertS (node p : Nat) (a : Option Nat) (st : RState) :
    TraceMono st (insertS node p a st) := traceMono_hop _ _

theorem traceMono_setElementTextS (el : Nat) (s : String) (st : RState) :
    TraceMono st (setElementTextS el s st) := traceMono_hop _ _

theorem traceMono_removeChildS (p el : Nat) (st : RState) :
    TraceMono st (removeChildS p el st) := traceMono_hop _ _

theorem traceMono_patchPropS (el : Option Nat) (k : String) (pv nv : JVal)
    (st : RState) : TraceMono st (patchPropS el k pv nv st) := traceMono_hop _ _

theorem traceMono_foldl {α : Type} (g : RState → α → RState)
    (hg : ∀ s a, TraceMono s (g s a)) (l : List α) (st : RState) :
    TraceMono st (l.foldl g st) := by
  induction l generalizing st with
  | nil => exact TraceMono.refl st
  | cons hd tl ih => exact TraceMono.trans (hg st hd) (ih (g st hd))

theorem traceMono_if_emit {st : RState} (b : Bool) (t : TItem)
    (h : ∀ i cb, t = .lev (.mountedCbE i cb) → st.nextInst ≤ i) :
    TraceMono st (if b then emitT st t else st) := by
  cases b
  · exact TraceMono.refl st
  · exact ⟨le_refl _, [t], rfl, fun i cb hm => by
      simp at hm
      exact h i cb hm.symm⟩

theorem traceMono_bumpInst (st : RState) (k : Nat) (hk : st.nextInst ≤ k) :
    TraceMono st { st with nextInst := k } :=
  ⟨hk, [], by simp, by simp⟩

theorem traceMono_snoc_if {s1 s2 : RState} (h : TraceMono s1 s2) (b : Bool)
    (t : TItem) (ht : ∀ i cb, t = .lev (.mountedCbE i cb) → s1.nextInst ≤ i) :
    TraceMono s1 (if b then emitT s2 t else s2) := by
  obtain ⟨hn, tr, htr, hc⟩ := h
  cases b
  · exact ⟨hn, tr, htr, hc⟩
  · refine ⟨hn, tr ++ [t], by simp [htr], ?_⟩
    intro i cb hm
    rcases List.mem_append.mp hm with hx | hx
    · exact hc i cb hx
    · simp at hx
      exact ht i cb hx.symm

theorem traceMono_foldl_cb {s1 s2 : RState} (h : TraceMono s1 s2) (n : Nat)
    (hn : s1.nextInst ≤ n) (l : List Nat) :
    TraceMono s1
      (l.foldl (fun s cb => emitT s (.lev (.mountedCbE n cb))) s2) := by
  induction l generalizing s2 with
  | nil => exact h
  | cons hd tl ih =>
    refine ih ?_
    obtain ⟨h1, tr, htr, hc⟩ := h
    refine ⟨h1, tr ++ [.lev (.mountedCbE n hd)], by simp [htr], ?_⟩
    intro i cb hm
    rcases List.mem_append.mp hm with hx | hx
    · exact hc i cb hx
    · simp only [List.mem_singleton, TItem.lev.injEq, LEvent.mountedCbE.injEq] at hx
      exact hx.1 ▸ hn

theorem preSeg_bump (n : Nat) (st : RState) (k : Nat) (hk : n < k) :
    PreSeg n st { st with nextInst := k } :=
  ⟨hk, [], by simp, by simp⟩

theorem preSeg_snoc_if {n : Nat} {s1 s2 : RState} (h : PreSeg n s1 s2) (b : Bool)
    (t : TItem) (ht : ∀ i cb, t ≠ .lev (.mountedCbE i cb)) :
    PreSeg n s1 (if b then emitT s2 t else s2) := by
  obtain ⟨hn, tr, htr, hc⟩ := h
  cases b
  · exact ⟨hn, tr, htr, hc⟩
  · refine ⟨hn, tr ++ [t], by simp [htr], ?_⟩
    intro i cb hm
    rcases List.mem_append.mp hm with hx | hx
    · exact hc i cb hx
    · simp at hx
      exact absurd hx.symm (ht i cb)

theorem preSeg_mono {n : Nat} {s1 s2 s3 : RState} (h : PreSeg n s1 s2)
    (hm : TraceMono s2 s3) : PreSeg n s1 s3 := by
  obtain ⟨hn, tr, htr, hc⟩ := h
  obtain ⟨hn2, tr2, htr2, hc2⟩ := hm
  refine ⟨lt_of_lt_of_le hn hn2, tr ++ tr2,
    by rw [htr2, htr, List.append_assoc], ?_⟩
  intro i cb hmem
  rcases List.mem_append.mp hmem with hx | hx
  · exact hc i cb hx
  · exact lt_of_lt_of_le hn (hc2 i cb hx)

theorem foldl_cb_trace (n : Nat) (l : List Nat) (st : RState) :
    (l.foldl (fun s cb => emitT s (.lev (.mountedCbE n cb))) st).trace
      = st.trace ++ l.map (fun cb => TItem.lev (.mountedCbE n cb)) := by
  induction l generalizing st with
  | nil => simp
  | cons hd tl ih => simp [List.foldl_cons, ih]

theorem mountListF_mono (pf : PatchFn)
    (hpf : ∀ nv c a st r, pf none nv c a st = .ok r → TraceMono st r.2)
    (cs : List VNode) (c : Nat) (st : RState) (r : List VNode × RState)
    (h : mountListF pf c cs st = .ok r) : TraceMono st r.2 := by
  induction cs generalizing st r with
  | nil =>
    simp only [mountListF] at h
    rw [← Except.ok.inj h]
    exact TraceMono.refl st
  | cons hd tl ih =>
    simp only [mountListF] at h
    rw [andThen2_eq_ok] at h
    obtain ⟨v1, s1, h1, h⟩ := h
    rw [andThen2_eq_ok] at h
    obtain ⟨cs1, s2, h2, h3⟩ := h
    have hs : s2 = r.2 := congrArg Prod.snd (Except.ok.inj h3)
    subst hs
    exact TraceMono.trans (hpf _ _ _ _ _ h1) (ih s1 (cs1, r.2) h2)

theorem mountElementStep_mono (pf : PatchFn)
    (hpf : ∀ nv c a st r, pf none nv c a st = .ok r → TraceMono st r.2)
    (v : VNode) (c : Nat) (a : Option Nat) (st : RState) (r : VNode × RState)
    (h : mountElementStep pf v c a st = .ok r) : TraceMono st r.2 := by
  obtain ⟨t, props, ch, key, el, cmp⟩ := v
  cases t
  case tag tg =>
    simp only [mountElementStep, VNode.type] at h
    rw [andThen2_eq_ok] at h
    obtain ⟨ch1, s1, h1, h2⟩ := h
    have hm1 : TraceMono st s1 := by
      cases ch <;> simp only [VNode.children] at h1
      case arr cs =>
        rw [andThen2_eq_ok] at h1
        obtain ⟨cs1, s2, hml, heq⟩ := h1
        have hs : s2 = s1 := congrArg Prod.snd (Except.ok.inj heq)
        subst hs
        exact TraceMono.trans (traceMono_createElementS tg st)
          (mountListF_mono pf hpf cs _ _ _ hml)
      case nothing =>
        have hs : (createElementS tg st).2 = s1 :=
          congrArg Prod.snd (Except.ok.inj h1)
        rw [← hs]
        exact traceMono_createElementS tg st
      case text s =>
        have hs : setElementTextS (createElementS tg st).1
            (childText (.text s)) (createElementS tg st).2 = s1 :=
          congrArg Prod.snd (Except.ok.inj h1)
        rw [← hs]
        exact TraceMono.trans (traceMono_createElementS tg st)
          (traceMono_setElementTextS _ _ _)
      case slots ss =>
        have hs : setElementTextS (createElementS tg st).1
            (childText (.slots ss)) (createElementS tg st).2 = s1 :=
          congrArg Prod.snd (Except.ok.inj h1)
        rw [← hs]
        exact TraceMono.trans (traceMono_createElementS tg st)
          (traceMono_setElementTextS _ _ _)
    cases props with
    | none =>
      rw [← congrArg Prod.snd (Except.ok.inj h2)]
      exact TraceMono.trans hm1 (traceMono_insertS _ _ _ _)
    | some ps =>
      rw [← congrArg Prod.snd (Except.ok.inj h2)]
      refine TraceMono.trans hm1 (TraceMono.trans
        (traceMono_foldl _ ?_ ps s1) (traceMono_insertS _ _ _ _))
      intro s kv
      exact traceMono_patchPropS _ _ _ _ _
  all_goals simp [mountElementStep, VNode.type] at h

theorem mountComponentStep_mono (pf : PatchFn)
    (hpf : ∀ nv c a st r, pf none nv c a st = .ok r → TraceMono st r.2)
    (v : VNode) (c : Nat) (a : Option Nat) (st : RState) (r : VNode × RState)
    (h : mountComponentStep pf v c a st = .ok r) : TraceMono st r.2 := by
  obtain ⟨t, props, ch, key, el, cmp⟩ := v
  cases t
  case comp o =>
    simp only [mountComponentStep, VNode.type] at h
    rw [andThenE_eq_ok] at h
    obtain ⟨pa, hra, h⟩ := h
    rw [andThen2_eq_ok] at h
    obtain ⟨sub, s1, hsub, heq⟩ := h
    rw [← congrArg Prod.snd (Except.ok.inj heq)]
    refine traceMono_snoc_if ?_ _ _ (by intro i cb hc; simp at hc)
    refine traceMono_foldl_cb ?_ st.nextInst (le_refl _) _
    refine TraceMono.trans ?_ (hpf _ _ _ _ _ hsub)
    refine traceMono_snoc_if ?_ _ _ (by intro i cb hc; simp at hc)
    refine traceMono_snoc_if ?_ _ _ (by intro i cb hc; simp at hc)
    cases hs : o.hasSetup
    · refine traceMono_snoc_if ?_ _ _ (by intro i cb hc; simp at hc)
      exact traceMono_bumpInst st _ (Nat.le_succ _)
    · cases hsr : o.setupResult
      case renderFn b =>
        refine traceMono_snoc_if ?_ _ _ (by intro i cb hc; simp at hc)
        refine traceMono_snoc_if ?_ _ _ (by intro i cb hc; simp at hc)
        exact traceMono_bumpInst st _ (Nat.le_succ _)
      all_goals
        refine traceMono_snoc_if ?_ _ _ (by intro i cb hc; simp at hc)
        exact traceMono_bumpInst st _ (Nat.le_succ _)
  all_goals simp [mountComponentStep, VNode.type] at h

theorem patchR_mono_mount :
    ∀ (f : Nat) (nv : VNode) (c : Nat) (a : Option Nat) (st : RState)
      (r : VNode × RState),
      patchR f none nv c a st = .ok r → TraceMono st r.2 := by
  intro f
  induction f with
  | zero =>
    intro nv c a st r h
    simp [patchR] at h
  | succ f ih =>
    intro nv c a st r h
    simp only [patchR, patchStep] at h
    obtain ⟨t, props, ch, key, el, cmp⟩ := nv
    cases t
    case tag tg =>
      simp only [patchCore, VNode.type] at h
      exact mountElementStep_mono _ ih _ _ _ _ _ h
    case textT =>
      simp only [patchCore, VNode.type] at h
      rw [← congrArg Prod.snd (Except.ok.inj h)]
      exact TraceMono.trans (traceMono_createTextNodeS _ _)
        (traceMono_insertS _ _ _ _)
    case commentT =>
      simp only [patchCore, VNode.type] at h
      rw [← congrArg Prod.snd (Except.ok.inj h)]
      exact TraceMono.trans (traceMono_createCommentS _ _)
        (traceMono_insertS _ _ _ _)
    case fragmentT =>
      simp only [patchCore, VNode.type] at h
      cases ch <;> simp only [VNode.children] at h
      case arr cs =>
        rw [andThen2_eq_ok] at h
        obtain ⟨cs1, s1, hml, heq⟩ := h
        rw [← congrArg Prod.snd (Except.ok.inj heq)]
        exact mountListF_mono _ ih cs _ _ _ hml
      all_goals simp at h
    case comp o =>
      simp only [patchCore, VNode.type] at h
      exact mountComponentStep_mono _ ih _ _ _ _ _ h
    case funcComp fid =>
      simp only [patchCore, VNode.type] at h
      rw [← congrArg Prod.snd (Except.ok.inj h)]
      exact TraceMono.refl st


/-!
Bookkeeping of the host map under the adapter operations: node keys and
the allocation counter are preserved by every mutation, so
well-formedness transfers; precise hget facts for removeChildS.
-/

theorem hset_nextId (h : Host) (i : Nat) (n : HNode) :
    (hset h i n).nextId = h.nextId := rfl

theorem hmod_nextId (h : Host) (i : Nat) (f : HNode → HNode) :
    (hmod h i f).nextId = h.nextId := by
  unfold hmod
  cases hr : hget h i
  · rfl
  · rfl

theorem hget_any (h : Host) (i : Nat) (n : HNode) (hn : hget h i = some n) :
    h.nodes.any (fun p => p.1 = i) = true := by
  unfold hget at hn
  cases hf : h.nodes.find? (fun p => p.1 = i) with
  | none => rw [hf] at hn; simp at hn
  | some x =>
    have hmem := List.mem_of_find?_eq_some hf
    have hp := List.find?_some hf
    simp only [decide_eq_true_eq] at hp
    exact List.any_eq_true.mpr ⟨x, hmem, by simp [hp]⟩

theorem map_fst_setmap (l : List (Nat × HNode)) (i : Nat) (m : HNode) :
    (l.map (fun p => if p.1 = i then (i, m) else p)).map Prod.fst
      = l.map Prod.fst := by
  rw [List.map_map]
  apply List.map_congr_left
  intro p hp
  by_cases hpi : p.1 = i
  · simp [hpi]
  · simp [hpi]

theorem hmod_keys (h : Host) (i : Nat) (f : HNode → HNode) :
    (hmod h i f).nodes.map Prod.fst = h.nodes.map Prod.fst := by
  unfold hmod
  cases hr : hget h i with
  | none => rfl
  | some n =>
    show (hset h i (f n)).nodes.map Prod.fst = h.nodes.map Prod.fst
    unfold hset
    rw [if_pos (hget_any h i n hr)]
    exact map_fst_setmap h.nodes i (f n)

theorem ValidH_of_eq {h h' : Host}
    (hk : h'.nodes.map Prod.fst = h.nodes.map Prod.fst)
    (hn : h'.nextId = h.nextId) (hv : ValidH h) : ValidH h' := by
  unfold ValidH
  rw [hk, hn]
  exact hv

theorem ValidH_hmod (h : Host) (i : Nat) (f : HNode → HNode) (hv : ValidH h) :
    ValidH (hmod h i f) :=
  ValidH_of_eq (hmod_keys h i f) (hmod_nextId h i f) hv

theorem detachH_keys (node : Nat) (h : Host) :
    (detachH node h).nodes.map Prod.fst = h.nodes.map Prod.fst ∧
      (detachH node h).nextId = h.nextId := by
  unfold detachH
  cases hr : hget h node with
  | none => exact ⟨rfl, rfl⟩
  | some n =>
    dsimp only
    cases hp : n.parentId with
    | none => exact ⟨rfl, rfl⟩
    | some p =>
      dsimp only
      constructor
      · rw [hmod_keys]
        show (hset h node _).nodes.map Prod.fst = _
        unfold hset
        rw [if_pos (hget_any h node n hr)]
        exact map_fst_setmap h.nodes node _
      · rw [hmod_nextId, hset_nextId]

theorem insertS_keys (node p : Nat) (a : Option Nat) (st : RState) :
    (insertS node p a st).host.nodes.map Prod.fst
        = st.host.nodes.map Prod.fst ∧
      (insertS node p a st).host.nextId = st.host.nextId := by
  unfold insertS
  simp only [emitT_host]
  constructor
  · rw [hmod_keys, hmod_keys, (detachH_keys node st.host).1]
  · rw [hmod_nextId, hmod_nextId, (detachH_keys node st.host).2]

theorem removeChildS_keys (p e : Nat) (st : RState) :
    (removeChildS p e st).host.nodes.map Prod.fst
        = st.host.nodes.map Prod.fst ∧
      (removeChildS p e st).host.nextId = st.host.nextId := by
  unfold removeChildS
  simp only [emitT_host]
  constructor
  · rw [hmod_keys, hmod_keys]
  · rw [hmod_nextId, hmod_nextId]

theorem foldl_hmod_keys (F : HNode → HNode) (l : List Nat) (h : Host) :
    ((l.foldl (fun hh c => hmod hh c F) h).nodes.map Prod.fst
        = h.nodes.map Prod.fst)
      ∧ (l.foldl (fun hh c => hmod hh c F) h).nextId = h.nextId := by
  induction l generalizing h with
  | nil => exact ⟨rfl, rfl⟩
  | cons hd tl ih =>
    constructor
    · rw [List.foldl_cons, (ih _).1, hmod_keys]
    · rw [List.foldl_cons, (ih _).2, hmod_nextId]

theorem setElementTextS_keys (e : Nat) (s : String) (st : RState) :
    (setElementTextS e s st).host.nodes.map Prod.fst
        = st.host.nodes.map Prod.fst ∧
      (setElementTextS e s st).host.nextId = st.host.nextId := by
  unfold setElementTextS
  simp only [emitT_host]
  cases hr : hget st.host e with
  | none => exact ⟨rfl, rfl⟩
  | some n =>
    constructor
    · rw [hmod_keys, (foldl_hmod_keys _ n.childIds st.host).1]
    · rw [hmod_nextId, (foldl_hmod_keys _ n.childIds st.host).2]

theorem create_valid (h : Host) (n : HNode) (hv : ValidH h) :
    ValidH { nextId := h.nextId + 1, nodes := h.nodes ++ [(h.nextId, n)] } := by
  obtain ⟨hnd, hlt⟩ := hv
  constructor
  · simp only [List.map_append, List.map_cons, List.map_nil]
    rw [List.nodup_append]
    refine ⟨hnd, List.nodup_singleton _, ?_⟩
    intro x hx
    simp only [List.mem_singleton]
    intro hxe
    subst hxe
    exact absurd (hlt _ hx) (lt_irrefl _)
  · intro q hq
    simp only [List.map_append, List.map_cons, List.map_nil,
      List.mem_append, List.mem_singleton] at hq
    rcases hq with hq | hq
    · exact Nat.lt_succ_of_lt (hlt q hq)
    · subst hq; exact Nat.lt_succ_self _

theorem removeChildS_hget_other (p e q : Nat) (st : RState) (hq1 : q ≠ p)
    (hq2 : q ≠ e) : hget (removeChildS p e st).host q = hget st.host q := by
  unfold removeChildS
  simp only [emitT_host]
  rw [hget_hmod_ne _ e q _ hq2, hget_hmod_ne _ p q _ hq1]

theorem removeChildS_hget_el (p e : Nat) (st : RState) (n : HNode)
    (hne : e ≠ p) (hn : hget st.host e = some n) :
    hget (removeChildS p e st).host e = some { n with parentId := none } := by
  unfold removeChildS
  simp only [emitT_host]
  have h1 : hget (hmod st.host p
      fun pn => { pn with childIds := pn.childIds.erase e }) e = some n := by
    rw [hget_hmod_ne _ p e _ hne]; exact hn
  rw [hget_hmod_self _ e _ n h1]

theorem removeChildS_hget_parent (p e : Nat) (st : RState) (np : HNode)
    (hne : p ≠ e) (hp : hget st.host p = some np) :
    hget (removeChildS p e st).host p
      = some { np with childIds := np.childIds.erase e } := by
  unfold removeChildS
  simp only [emitT_host]
  rw [hget_hmod_ne _ e p _ hne, hget_hmod_self _ p _ np hp]

theorem foldl_erase_self (l : List Nat) (hnd : l.Nodup) :
    l.foldl List.erase l = [] := by
  induction l with
  | nil => rfl
  | cons hd tl ih =>
    rw [List.foldl_cons, List.erase_cons_head]
    exact ih (List.Nodup.of_cons hnd)

/-!
Structural facts about clean vnodes and mounted trees: a user-built
vnode references no host node, the top nodes of a mounted tree are among
its tree nodes, and the Sub shape only depends on the host entries of
the tree's own nodes.
-/

theorem elsTreeL_nil : elsTreeL [] = [] := rfl

theorem elsTreeL_cons (c : VNode) (cs : List VNode) :
    elsTreeL (c :: cs) = elsTree c ++ elsTreeL cs := rfl

theorem elsTree_el_some (t : VType) (props : Option PList) (ch : VChild)
    (key : JVal) (e : Nat) (hne : ∀ cs, ch ≠ VChild.arr cs) :
    elsTree (.mk t props ch key (some e) none) = [e] := by
  cases ch with
  | arr cs => exact absurd rfl (hne cs)
  | nothing => rfl
  | text s => rfl
  | slots ss => rfl

theorem elsTree_el_some_emp (t : VType) (props : Option PList) (ch : VChild)
    (key : JVal) (e : Nat) (hph : ∀ cs, ch = VChild.arr cs → elsTreeL cs = []) :
    elsTree (.mk t props ch key (some e) none) = [e] := by
  cases ch with
  | arr cs =>
    show [e] ++ elsTreeL cs ++ [] = [e]
    rw [hph cs rfl]
    rfl
  | nothing => rfl
  | text s => rfl
  | slots ss => rfl

theorem elsTree_arr_some (t : VType) (props : Option PList) (cs : List VNode)
    (key : JVal) (e : Nat) :
    elsTree (.mk t props (.arr cs) key (some e) none) = e :: elsTreeL cs := by
  show [e] ++ elsTreeL cs ++ [] = _
  simp

theorem elsTree_arr_none (t : VType) (props : Option PList) (cs : List VNode)
    (key : JVal) :
    elsTree (.mk t props (.arr cs) key none none) = elsTreeL cs := by
  show [] ++ elsTreeL cs ++ [] = _
  simp

theorem elsTree_cmp_some (t : VType) (props : Option PList) (ch : VChild)
    (key : JVal) (ip ia : PList) (ist : Option PList) (im : Bool) (w : VNode)
    (isl : VChild) (icb : List Nat) (iid : Nat)
    (hne : ∀ cs, ch ≠ VChild.arr cs) :
    elsTree (.mk t props ch key none
        (some (.mk ip ia ist im (some w) isl icb iid)))
      = elsTree w := by
  cases ch with
  | arr cs => exact absurd rfl (hne cs)
  | nothing => show [] ++ [] ++ elsTree w = _ ; simp
  | text s => show [] ++ [] ++ elsTree w = _ ; simp
  | slots ss => show [] ++ [] ++ elsTree w = _ ; simp

theorem elsTree_plain (t : VType) (props : Option PList) (ch : VChild)
    (key : JVal) (hne : ∀ cs, ch ≠ VChild.arr cs) :
    elsTree (.mk t props ch key none none) = [] := by
  cases ch with
  | arr cs => exact absurd rfl (hne cs)
  | nothing => rfl
  | text s => rfl
  | slots ss => rfl

theorem topElsL_nil : topElsL [] = [] := rfl

theorem topElsL_cons (c : VNode) (cs : List VNode) :
    topElsL (c :: cs) = topEls c ++ topElsL cs := rfl

theorem topEls_tag (s : String) (props : Option PList) (ch : VChild)
    (key : JVal) (e : Nat) (cmp : Option CInstance) :
    topEls (.mk (.tag s) props ch key (some e) cmp) = [e] := rfl

theorem topEls_text (props : Option PList) (ch : VChild) (key : JVal)
    (e : Nat) (cmp : Option CInstance) :
    topEls (.mk .textT props ch key (some e) cmp) = [e] := rfl

theorem topEls_comment (props : Option PList) (ch : VChild) (key : JVal)
    (e : Nat) (cmp : Option CInstance) :
    topEls (.mk .commentT props ch key (some e) cmp) = [e] := rfl

theorem topEls_frag (props : Option PList) (cs : List VNode) (key : JVal)
    (el : Option Nat) (cmp : Option CInstance) :
    topEls (.mk .fragmentT props (.arr cs) key el cmp) = topElsL cs := rfl

theorem topEls_comp (o : COpts) (props : Option PList) (ch : VChild)
    (key : JVal) (el : Option Nat) (ip ia : PList) (ist : Option PList)
    (im : Bool) (w : VNode) (isl : VChild) (icb : List Nat) (iid : Nat) :
    topEls (.mk (.comp o) props ch key el
        (some (.mk ip ia ist im (some w) isl icb iid)))
      = topEls w := rfl

theorem topEls_func (fid : Nat) (props : Option PList) (ch : VChild)
    (key : JVal) (el : Option Nat) (cmp : Option CInstance) :
    topEls (.mk (.funcComp fid) props ch key el cmp) = [] := rfl

theorem cleanL_mem {cs : List VNode} (hc : CleanL cs) :
    ∀ c ∈ cs, Clean c := by
  induction cs with
  | nil => intro c hcm; simp at hcm
  | cons hd tl ih =>
    intro c hcm
    cases hc with
    | cons _ _ h1 h2 =>
      rcases List.mem_cons.mp hcm with rfl | hm
      · exact h1
      · exact ih h2 c hm

theorem elsTree_clean {v : VNode} (hc : Clean v) : elsTree v = [] := by
  refine @Clean.rec
    (fun v _ => elsTree v = [])
    (fun ch _ => ∀ cs, ch = .arr cs → elsTreeL cs = [])
    (fun cs _ => elsTreeL cs = [])
    (fun _ _ => True)
    ?_ ?_ ?_ ?_ ?_ ?_ ?_ ?_ ?_ ?_ ?_ ?_ ?_ v hc
  · intro t props ch key hnd hcc hct hsl ih2 ih4
    cases ch with
    | arr cs => simp [elsTree, ih2 cs rfl]
    | nothing => simp [elsTree]
    | text s => simp [elsTree]
    | slots ss => simp [elsTree]
  · intro cs h; simp at h
  · intro s cs h; simp at h
  · intro ss cs h; simp at h
  · intro cs hcl ih cs' h
    injection h with h
    subst h
    exact ih
  · rfl
  · intro c cs hc1 hc2 ih1 ih3
    simp [elsTreeL, ih1, ih3]
  · intro s; trivial
  · trivial
  · trivial
  · trivial
  · intro o ha ih; trivial
  · intro fid; trivial

theorem elsTreeL_clean {cs : List VNode} (hc : CleanL cs) : elsTreeL cs = [] := by
  induction cs with
  | nil => rfl
  | cons hd tl ih =>
    cases hc with
    | cons _ _ h1 h2 => simp [elsTreeL, elsTree_clean h1, ih h2]

theorem sub_topEls_sublist {h : Host} {v : VNode} {p : Nat} (hs : Sub h v p) :
    List.Sublist (topEls v) (elsTree v) := by
  refine @Sub.rec h
    (fun v _ _ => List.Sublist (topEls v) (elsTree v))
    (fun cs _ _ => List.Sublist (topElsL cs) (elsTreeL cs))
    ?_ ?_ ?_ ?_ ?_ ?_ ?_ ?_ ?_ v p hs
  · intro t props cs key e n p hnd hg hk hpar hch hsl ih
    simp only [topEls, elsTree]
    exact List.Sublist.cons₂ e (by simp)
  · intro t props ch key e n p hnd hne hg hk hpar hch hct
    cases ch with
    | arr cs => exact absurd rfl (hne cs)
    | nothing => simp [topEls, elsTree]
    | text s => simp [topEls, elsTree]
    | slots ss => simp [topEls, elsTree]
  · intro props ch key e n p hnd hg hk hpar hch hct
    cases ch with
    | arr cs => simp [topEls, elsTree]
    | nothing => simp [topEls, elsTree]
    | text s => simp [topEls, elsTree]
    | slots ss => simp [topEls, elsTree]
  · intro props ch key e n p hnd hg hk hpar hch hct
    cases ch with
    | arr cs => simp [topEls, elsTree]
    | nothing => simp [topEls, elsTree]
    | text s => simp [topEls, elsTree]
    | slots ss => simp [topEls, elsTree]
  · intro props cs key p hnd hsl ih
    simpa [topEls, elsTree] using ih
  · intro o props ch key inst w p hnd hne hsub hw ih
    obtain ⟨ip, ia, is_, im, isub, isl, icb, iid⟩ := inst
    simp only [CInstance.subTree] at hsub
    subst hsub
    cases ch with
    | arr cs => exact absurd rfl (hne cs)
    | nothing => simpa [topEls, elsTree] using ih
    | text s => simpa [topEls, elsTree] using ih
    | slots ss => simpa [topEls, elsTree] using ih
  · intro fid props ch key p hnd hne
    cases ch with
    | arr cs => exact absurd rfl (hne cs)
    | nothing => simp [topEls, elsTree]
    | text s => simp [topEls, elsTree]
    | slots ss => simp [topEls, elsTree]
  · intro p
    simp [topElsL, elsTreeL]
  · intro c cs p h1 h2 ih1 ih2
    simp only [topElsL, elsTreeL]
    exact List.Sublist.append ih1 ih2

theorem Sub_frame {h h' : Host} {v : VNode} {p : Nat} (hs : Sub h v p)
    (hf : ∀ q ∈ elsTree v, hget h' q = hget h q) : Sub h' v p := by
  refine @Sub.rec h
    (fun v p _ => (∀ q ∈ elsTree v, hget h' q = hget h q) → Sub h' v p)
    (fun cs p _ => (∀ q ∈ elsTreeL cs, hget h' q = hget h q) → SubL h' cs p)
    ?_ ?_ ?_ ?_ ?_ ?_ ?_ ?_ ?_ v p hs hf
  · intro t props cs key e n p hnd hg hk hpar hch hsl ih hf2
    rw [elsTree_arr_some] at hf2
    refine Sub.tagArr t props cs key e n p hnd ?_ hk hpar hch (ih ?_)
    · rw [hf2 e (List.mem_cons_self _ _)]
      exact hg
    · intro q hq
      exact hf2 q (List.mem_cons_of_mem _ hq)
  · intro t props ch key e n p hnd hne hg hk hpar hch hct hf2
    rw [elsTree_el_some _ _ _ _ _ hne] at hf2
    refine Sub.tagOther t props ch key e n p hnd hne ?_ hk hpar hch hct
    rw [hf2 e (List.mem_singleton.mpr rfl)]
    exact hg
  · intro props ch key e n p hnd hph hg hk hpar hch hct hf2
    rw [elsTree_el_some_emp _ _ _ _ _ hph] at hf2
    refine Sub.textS props ch key e n p hnd hph ?_ hk hpar hch hct
    rw [hf2 e (List.mem_singleton.mpr rfl)]
    exact hg
  · intro props ch key e n p hnd hph hg hk hpar hch hct hf2
    rw [elsTree_el_some_emp _ _ _ _ _ hph] at hf2
    refine Sub.commentS props ch key e n p hnd hph ?_ hk hpar hch hct
    rw [hf2 e (List.mem_singleton.mpr rfl)]
    exact hg
  · intro props cs key p hnd hsl ih hf2
    rw [elsTree_arr_none] at hf2
    exact Sub.fragS props cs key p hnd (ih hf2)
  · intro o props ch key inst w p hnd hne hw hsub ih hf2
    refine Sub.compS o props ch key inst w p hnd hne hw (ih ?_)
    obtain ⟨ip, ia, is_, im, isub, isl, icb, iid⟩ := inst
    simp only [CInstance.subTree] at hw
    subst hw
    rw [elsTree_cmp_some _ _ _ _ _ _ _ _ _ _ _ _ hne] at hf2
    exact hf2
  · intro fid props ch key p hnd hne hf2
    exact Sub.funcS fid props ch key p hnd hne
  · intro p hf2
    exact SubL.nil p
  · intro c cs p h1 h2 ih1 ih2 hf2
    rw [elsTreeL_cons] at hf2
    refine SubL.cons c cs p (ih1 ?_) (ih2 ?_)
    · intro q hq
      exact hf2 q (List.mem_append.mpr (Or.inl hq))
    · intro q hq
      exact hf2 q (List.mem_append.mpr (Or.inr hq))

/-!
The mount guarantee: patching with no old vnode and a null anchor
produces a fresh, well-shaped tree. Proved for each mount step
parameterised over the recursive patch entry, then tied over the fuel.
-/

theorem mountPost_rebase {s s0 : RState} {c : Nat} {v' : VNode}
    {st' : RState} (hmp : MountPost s c v' st') (heq : s.host = s0.host) :
    MountPost s0 c v' st' :=
  { nextMono := heq ▸ hmp.nextMono
    fresh := heq ▸ hmp.fresh
    nodup := hmp.nodup
    sub := hmp.sub
    frameOld := heq ▸ hmp.frameOld
    contChanged := heq ▸ hmp.contChanged
    valid := hmp.valid }

theorem mountPost_retarget {s0 : RState} {c : Nat} {v' : VNode}
    {s s2 : RState} (hmp : MountPost s0 c v' s) (heq : s2.host = s.host) :
    MountPost s0 c v' s2 :=
  { nextMono := heq ▸ hmp.nextMono
    fresh := heq ▸ hmp.fresh
    nodup := hmp.nodup
    sub := heq ▸ hmp.sub
    frameOld := heq ▸ hmp.frameOld
    contChanged := heq ▸ hmp.contChanged
    valid := heq ▸ hmp.valid }

theorem foldl_ppn_host (e : Option Nat) (ps : PList) (st : RState) :
    (ps.foldl (fun s kv => patchPropS e kv.1 JVal.null kv.2 s) st).host
      = st.host := by
  induction ps generalizing st with
  | nil => rfl
  | cons hd tl ih => rw [List.foldl_cons, ih, patchPropS_host]

theorem foldl_ppo_host (e : Option Nat) (ps : PList) (st : RState) :
    (ps.foldl (fun s kv => patchPropS e kv.1 kv.2 JVal.null s) st).host
      = st.host := by
  induction ps generalizing st with
  | nil => rfl
  | cons hd tl ih => rw [List.foldl_cons, ih, patchPropS_host]

theorem setElementTextS_hget_self (el : Nat) (s : String) (st : RState)
    (n : HNode) (hn : hget st.host el = some n) (hch : n.childIds = []) :
    hget (setElementTextS el s st).host el
      = some { n with content := s, childIds := [] } := by
  unfold setElementTextS
  simp only [emitT_host]
  rw [hn]
  dsimp only
  rw [hch, List.foldl_nil]
  exact hget_hmod_self st.host el _ n hn

theorem setElementTextS_hget_other (el : Nat) (s : String) (st : RState)
    (n : HNode) (q : Nat) (hn : hget st.host el = some n)
    (hch : n.childIds = []) (hq : q ≠ el) :
    hget (setElementTextS el s st).host q = hget st.host q := by
  unfold setElementTextS
  simp only [emitT_host]
  rw [hn]
  dsimp only
  rw [hch, List.foldl_nil]
  exact hget_hmod_ne st.host el q _ hq

theorem setElementTextS_valid (el : Nat) (s : String) (st : RState)
    (hv : ValidH st.host) : ValidH (setElementTextS el s st).host :=
  ValidH_of_eq (setElementTextS_keys el s st).1 (setElementTextS_keys el s st).2 hv

theorem insertS_valid (node p : Nat) (a : Option Nat) (st : RState)
    (hv : ValidH st.host) : ValidH (insertS node p a st).host :=
  ValidH_of_eq (insertS_keys node p a st).1 (insertS_keys node p a st).2 hv

theorem insBefore_none (l : List Nat) (x : Nat) :
    insBefore l x none = l ++ [x] := rfl

theorem mountListF_post (pf : PatchFn)
    (hpf : ∀ v c st r, Clean v → ValidH st.host → c < st.host.nextId →
      pf none v c none st = .ok r → MountPost st c r.1 r.2) :
    ∀ (cs : List VNode) (c : Nat) (st : RState) (r : List VNode × RState),
      CleanL cs → ValidH st.host → c < st.host.nextId →
      mountListF pf c cs st = .ok r → MountPostL st c r.1 r.2 := by
  intro cs
  induction cs with
  | nil =>
    intro c st r hcl hv hc h
    simp only [mountListF] at h
    obtain ⟨cs', st'⟩ := r
    injection Except.ok.inj h with e1 e2
    subst e1
    subst e2
    show MountPostL st c [] st
    refine ⟨le_refl _, ?_, ?_, SubL.nil c, fun q _ _ => rfl, ?_, hv⟩
    · intro x hx
      rw [elsTreeL_nil] at hx
      simp at hx
    · rw [elsTreeL_nil]
      exact List.nodup_nil
    · intro n hn
      rw [topElsL_nil, hn]
      simp
  | cons c0 cs ih =>
    intro c st r hcl hv hc h
    simp only [mountListF] at h
    rw [andThen2_eq_ok] at h
    obtain ⟨v1, s1, h1, h⟩ := h
    rw [andThen2_eq_ok] at h
    obtain ⟨cs1, s2, h2, h3⟩ := h
    obtain ⟨cs', st'⟩ := r
    injection Except.ok.inj h3 with e1 e2
    subst e1
    subst e2
    show MountPostL st c (v1 :: cs1) s2
    cases hcl with
    | cons _ _ hclh hclt =>
      have P1 : MountPost st c v1 s1 := hpf c0 c st (v1, s1) hclh hv hc h1
      have P2 : MountPostL s1 c cs1 s2 := ih c s1 (cs1, s2) hclt P1.valid
        (lt_of_lt_of_le hc P1.nextMono) h2
      have hfresh1 := P1.fresh
      have hfresh2 := P2.fresh
      refine ⟨le_trans P1.nextMono P2.nextMono, ?_, ?_, ?_, ?_, ?_, P2.valid⟩
      · intro x hx
        rw [elsTreeL_cons] at hx
        rcases List.mem_append.mp hx with hx | hx
        · exact ⟨(hfresh1 x hx).1, lt_of_lt_of_le (hfresh1 x hx).2 P2.nextMono⟩
        · exact ⟨le_trans P1.nextMono (hfresh2 x hx).1, (hfresh2 x hx).2⟩
      · rw [elsTreeL_cons]
        rw [List.nodup_append]
        refine ⟨P1.nodup, P2.nodup, ?_⟩
        intro x hx1 hx2
        have b1 := (hfresh1 x hx1).2
        have b2 := (hfresh2 x hx2).1
        omega
      · refine SubL.cons v1 cs1 c ?_ P2.sub
        refine Sub_frame P1.sub ?_
        intro q hq
        have hb := hfresh1 q hq
        refine P2.frameOld q ?_ hb.2
        omega
      · intro q hq hlt
        rw [P2.frameOld q hq (lt_of_lt_of_le hlt P1.nextMono)]
        exact P1.frameOld q hq hlt
      · intro n hn
        have e1 := P1.contChanged n hn
        have e2 := P2.contChanged _ e1
        rw [e2, topElsL_cons]
        simp [List.append_assoc]

theorem SubL_frame {h h' : Host} {cs : List VNode} {p : Nat} (hs : SubL h cs p)
    (hf : ∀ q ∈ elsTreeL cs, hget h' q = hget h q) : SubL h' cs p := by
  induction cs with
  | nil => exact SubL.nil p
  | cons c cs ih =>
    cases hs with
    | cons _ _ _ h1 h2 =>
      rw [elsTreeL_cons] at hf
      refine SubL.cons c cs p (Sub_frame h1 ?_) (ih h2 ?_)
      · intro q hq
        exact hf q (List.mem_append.mpr (Or.inl hq))
      · intro q hq
        exact hf q (List.mem_append.mpr (Or.inr hq))

theorem mountElementStep_post (pf : PatchFn)
    (hpf : ∀ v c st r, Clean v → ValidH st.host → c < st.host.nextId →
      pf none v c none st = .ok r → MountPost st c r.1 r.2)
    (tg : String) (props : Option PList) (ch : VChild) (key : JVal)
    (c : Nat) (st : RState) (r : VNode × RState)
    (hnd : PNodup props) (hcc : CleanC ch)
    (hv : ValidH st.host) (hc : c < st.host.nextId)
    (h : mountElementStep pf (.mk (.tag tg) props ch key none none) c none st
        = .ok r) : MountPost st c r.1 r.2 := by
  simp only [mountElementStep, VNode.type] at h
  rw [andThen2_eq_ok] at h
  obtain ⟨ch1, s1, h1, h2⟩ := h
  have hGf : hget (createElementS tg st).2.host st.host.nextId
      = some ⟨.elem tg, "", [], none⟩ := hget_create_fresh st.host _ hv
  have hGo : ∀ q, q ≠ st.host.nextId →
      hget (createElementS tg st).2.host q = hget st.host q :=
    fun q hq => hget_create_old st.host _ q hq
  have hV1 : ValidH (createElementS tg st).2.host := create_valid st.host _ hv
  have hN1 : (createElementS tg st).2.host.nextId = st.host.nextId + 1 := rfl
  cases hcc with
  | arr cs hcl =>
    simp only [VNode.children] at h1
    rw [andThen2_eq_ok] at h1
    obtain ⟨cs1, s2, hml, heq⟩ := h1
    injection Except.ok.inj heq with e1 e2
    subst e1
    subst e2
    have PL : MountPostL (createElementS tg st).2 st.host.nextId cs1 s2 :=
      mountListF_post pf hpf cs st.host.nextId (createElementS tg st).2
        (cs1, s2) hcl hV1 (by omega) hml
    have hNL := PL.nextMono
    have hGet2 : hget s2.host st.host.nextId
        = some { kind := HKind.elem tg, content := "",
                 childIds := [] ++ topElsL cs1, parentId := none } :=
      PL.contChanged _ hGf
    have key3 : ∀ st3 : RState, st3.host = s2.host →
        MountPost st c
          (.mk (.tag tg) props (.arr cs1) key (some st.host.nextId) none)
          (insertS st.host.nextId c none st3) := by
      intro st3 h3
      have hec : st.host.nextId ≠ c := by omega
      have hGet3 : hget st3.host st.host.nextId
          = some { kind := HKind.elem tg, content := "",
                   childIds := [] ++ topElsL cs1, parentId := none } := by
        rw [h3]; exact hGet2
      have hNode := insertS_hget_node st.host.nextId c none st3 _ hGet3 rfl hec
      have hKeys := insertS_keys st.host.nextId c none st3
      have hNF : (insertS st.host.nextId c none st3).host.nextId
          = s2.host.nextId := by rw [hKeys.2, h3]
      refine ⟨?_, ?_, ?_, ?_, ?_, ?_, ?_⟩
      · omega
      · intro x hx
        rw [elsTree_arr_some] at hx
        rcases List.mem_cons.mp hx with rfl | hx
        · refine ⟨le_refl _, ?_⟩
          have := PL.fresh
          omega
        · have hb := PL.fresh x hx
          constructor
          · omega
          · omega
      · rw [elsTree_arr_some, List.nodup_cons]
        refine ⟨?_, PL.nodup⟩
        intro hmem
        have hb := PL.fresh _ hmem
        omega
      · refine Sub.tagArr tg props cs1 key st.host.nextId _ c hnd hNode rfl rfl
          (by simp) ?_
        refine SubL_frame PL.sub ?_
        intro q hq
        have hb := PL.fresh q hq
        have hq1 : q ≠ st.host.nextId := by omega
        have hq2 : q ≠ c := by omega
        rw [insertS_hget_other st.host.nextId c none st3 _ q hGet3 rfl hq1 hq2,
          h3]
      · intro q hq hlt
        have hq1 : q ≠ st.host.nextId := by omega
        rw [insertS_hget_other st.host.nextId c none st3 _ q hGet3 rfl hq1 hq,
          h3, PL.frameOld q hq1 (by omega), hGo q hq1]
      · intro n hn
        have hc3 : hget st3.host c = some n := by
          rw [h3, PL.frameOld c (Ne.symm hec) (by omega), hGo c (Ne.symm hec)]
          exact hn
        rw [insertS_hget_parent st.host.nextId c none st3 _ n hGet3 rfl hec hc3,
          insBefore_none, topEls_tag]
      · refine insertS_valid _ _ _ _ ?_
        rw [h3]
        exact PL.valid
    obtain ⟨v', st'⟩ := r
    cases props with
    | none =>
      injection Except.ok.inj h2 with e1 e2
      subst e1
      subst e2
      exact key3 s2 rfl
    | some ps =>
      injection Except.ok.inj h2 with e1 e2
      subst e1
      subst e2
      exact key3 _ (foldl_ppn_host _ ps s2)
  | nothing =>
    simp only [VNode.children] at h1
    injection Except.ok.inj h1 with e1 e2
    subst e1
    subst e2
    have key3 : ∀ st3 : RState, st3.host = (createElementS tg st).2.host →
        MountPost st c
          (.mk (.tag tg) props VChild.nothing key (some st.host.nextId) none)
          (insertS st.host.nextId c none st3) := by
      intro st3 h3
      have hec : st.host.nextId ≠ c := by omega
      have hGet3 : hget st3.host st.host.nextId
          = some ⟨.elem tg, "", [], none⟩ := by rw [h3]; exact hGf
      have hNode := insertS_hget_node st.host.nextId c none st3 _ hGet3 rfl hec
      have hKeys := insertS_keys st.host.nextId c none st3
      have hNF : (insertS st.host.nextId c none st3).host.nextId
          = st.host.nextId + 1 := by rw [hKeys.2, h3, hN1]
      have hne : ∀ cs, VChild.nothing ≠ VChild.arr cs := fun cs h => by
        simp at h
      refine ⟨by omega, ?_, ?_, ?_, ?_, ?_, ?_⟩
      · intro x hx
        rw [elsTree_el_some _ _ _ _ _ hne] at hx
        rcases List.mem_singleton.mp hx with rfl
        exact ⟨le_refl _, by omega⟩
      · rw [elsTree_el_some _ _ _ _ _ hne]
        exact List.nodup_singleton _
      · exact Sub.tagOther tg props VChild.nothing key st.host.nextId _ c hnd
          hne hNode rfl rfl rfl rfl
      · intro q hq hlt
        have hq1 : q ≠ st.host.nextId := by omega
        rw [insertS_hget_other st.host.nextId c none st3 _ q hGet3 rfl hq1 hq,
          h3, hGo q hq1]
      · intro n hn
        have hc3 : hget st3.host c = some n := by
          rw [h3, hGo c (Ne.symm hec)]
          exact hn
        rw [insertS_hget_parent st.host.nextId c none st3 _ n hGet3 rfl hec hc3,
          insBefore_none, topEls_tag]
      · refine insertS_valid _ _ _ _ ?_
        rw [h3]
        exact hV1
    obtain ⟨v', st'⟩ := r
    cases props with
    | none =>
      injection Except.ok.inj h2 with e1 e2
      subst e1
      subst e2
      exact key3 _ rfl
    | some ps =>
      injection Except.ok.inj h2 with e1 e2
      subst e1
      subst e2
      exact key3 _ (foldl_ppn_host _ ps _)
  | text str =>
    simp only [VNode.children] at h1
    injection Except.ok.inj h1 with e1 e2
    subst e1
    subst e2
    have hSet : hget (setElementTextS (createElementS tg st).1
        (childText (.text str)) (createElementS tg st).2).host st.host.nextId
        = some { kind := HKind.elem tg, content := childText (.text str),
                 childIds := [], parentId := none } :=
      setElementTextS_hget_self _ _ _ _ hGf rfl
    have hSetO : ∀ q, q ≠ st.host.nextId →
        hget (setElementTextS (createElementS tg st).1
          (childText (.text str)) (createElementS tg st).2).host q
          = hget st.host q := by
      intro q hq
      exact (setElementTextS_hget_other _ _ _ _ q hGf rfl hq).trans (hGo q hq)
    have hSetK := setElementTextS_keys (createElementS tg st).1
      (childText (.text str)) (createElementS tg st).2
    have hSetN : (setElementTextS (createElementS tg st).1
        (childText (.text str)) (createElementS tg st).2).host.nextId
        = st.host.nextId + 1 := by rw [hSetK.2, hN1]
    have hSetV : ValidH (setElementTextS (createElementS tg st).1
        (childText (.text str)) (createElementS tg st).2).host :=
      ValidH_of_eq hSetK.1 hSetK.2 hV1
    have key3 : ∀ st3 : RState,
        st3.host = (setElementTextS (createElementS tg st).1
          (childText (.text str)) (createElementS tg st).2).host →
        MountPost st c
          (.mk (.tag tg) props (.text str) key (some st.host.nextId) none)
          (insertS st.host.nextId c none st3) := by
      intro st3 h3
      have hec : st.host.nextId ≠ c := by omega
      have hGet3 : hget st3.host st.host.nextId
          = some { kind := HKind.elem tg, content := childText (.text str),
                   childIds := [], parentId := none } := by
        rw [h3]; exact hSet
      have hNode := insertS_hget_node st.host.nextId c none st3 _ hGet3 rfl hec
      have hKeys := insertS_keys st.host.nextId c none st3
      have hNF : (insertS st.host.nextId c none st3).host.nextId
          = st.host.nextId + 1 := by rw [hKeys.2, h3, hSetN]
      have hne : ∀ cs, VChild.text str ≠ VChild.arr cs := fun cs h => by
        simp at h
      refine ⟨by omega, ?_, ?_, ?_, ?_, ?_, ?_⟩
      · intro x hx
        rw [elsTree_el_some _ _ _ _ _ hne] at hx
        rcases List.mem_singleton.mp hx with rfl
        exact ⟨le_refl _, by omega⟩
      · rw [elsTree_el_some _ _ _ _ _ hne]
        exact List.nodup_singleton _
      · exact Sub.tagOther tg props (.text str) key st.host.nextId _ c hnd
          hne hNode rfl rfl rfl rfl
      · intro q hq hlt
        have hq1 : q ≠ st.host.nextId := by omega
        rw [insertS_hget_other st.host.nextId c none st3 _ q hGet3 rfl hq1 hq,
          h3, hSetO q hq1]
      · intro n hn
        have hc3 : hget st3.host c = some n := by
          rw [h3, hSetO c (Ne.symm hec)]
          exact hn
        rw [insertS_hget_parent st.host.nextId c none st3 _ n hGet3 rfl hec hc3,
          insBefore_none, topEls_tag]
      · refine insertS_valid _ _ _ _ ?_
        rw [h3]
        exact hSetV
    obtain ⟨v', st'⟩ := r
    cases props with
    | none =>
      injection Except.ok.inj h2 with e1 e2
      subst e1
      subst e2
      exact key3 _ rfl
    | some ps =>
      injection Except.ok.inj h2 with e1 e2
      subst e1
      subst e2
      exact key3 _ (foldl_ppn_host _ ps _)
  | slots ss =>
    simp only [VNode.children] at h1
    injection Except.ok.inj h1 with e1 e2
    subst e1
    subst e2
    have hSet : hget (setElementTextS (createElementS tg st).1
        (childText (.slots ss)) (createElementS tg st).2).host st.host.nextId
        = some { kind := HKind.elem tg, content := childText (.slots ss),
                 childIds := [], parentId := none } :=
      setElementTextS_hget_self _ _ _ _ hGf rfl
    have hSetO : ∀ q, q ≠ st.host.nextId →
        hget (setElementTextS (createElementS tg st).1
          (childText (.slots ss)) (createElementS tg st).2).host q
          = hget st.host q := by
      intro q hq
      exact (setElementTextS_hget_other _ _ _ _ q hGf rfl hq).trans (hGo q hq)
    have hSetK := setElementTextS_keys (createElementS tg st).1
      (childText (.slots ss)) (createElementS tg st).2
    have hSetN : (setElementTextS (createElementS tg st).1
        (childText (.slots ss)) (createElementS tg st).2).host.nextId
        = st.host.nextId + 1 := by rw [hSetK.2, hN1]
    have hSetV : ValidH (setElementTextS (createElementS tg st).1
        (childText (.slots ss)) (createElementS tg st).2).host :=
      ValidH_of_eq hSetK.1 hSetK.2 hV1
    have key3 : ∀ st3 : RState,
        st3.host = (setElementTextS (createElementS tg st).1
          (childText (.slots ss)) (createElementS tg st).2).host →
        MountPost st c
          (.mk (.tag tg) props (.slots ss) key (some st.host.nextId) none)
          (insertS st.host.nextId c none st3) := by
      intro st3 h3
      have hec : st.host.nextId ≠ c := by omega
      have hGet3 : hget st3.host st.host.nextId
          = some { kind := HKind.elem tg, content := childText (.slots ss),
                   childIds := [], parentId := none } := by
        rw [h3]; exact hSet
      have hNode := insertS_hget_node st.host.nextId c none st3 _ hGet3 rfl hec
      have hKeys := insertS_keys st.host.nextId c none st3
      have hNF : (insertS st.host.nextId c none st3).host.nextId
          = st.host.nextId + 1 := by rw [hKeys.2, h3, hSetN]
      have hne : ∀ cs, VChild.slots ss ≠ VChild.arr cs := fun cs h => by
        simp at h
      refine ⟨by omega, ?_, ?_, ?_, ?_, ?_, ?_⟩
      · intro x hx
        rw [elsTree_el_some _ _ _ _ _ hne] at hx
        rcases List.mem_singleton.mp hx with rfl
        exact ⟨le_refl _, by omega⟩
      · rw [elsTree_el_some _ _ _ _ _ hne]
        exact List.nodup_singleton _
      · exact Sub.tagOther tg props (.slots ss) key st.host.nextId _ c hnd
          hne hNode rfl rfl rfl rfl
      · intro q hq hlt
        have hq1 : q ≠ st.host.nextId := by omega
        rw [insertS_hget_other st.host.nextId c none st3 _ q hGet3 rfl hq1 hq,
          h3, hSetO q hq1]
      · intro n hn
        have hc3 : hget st3.host c = some n := by
          rw [h3, hSetO c (Ne.symm hec)]
          exact hn
        rw [insertS_hget_parent st.host.nextId c none st3 _ n hGet3 rfl hec hc3,
          insBefore_none, topEls_tag]
      · refine insertS_valid _ _ _ _ ?_
        rw [h3]
        exact hSetV
    obtain ⟨v', st'⟩ := r
    cases props with
    | none =>
      injection Except.ok.inj h2 with e1 e2
      subst e1
      subst e2
      exact key3 _ rfl
    | some ps =>
      injection Except.ok.inj h2 with e1 e2
      subst e1
      subst e2
      exact key3 _ (foldl_ppn_host _ ps _)

theorem mountComponentStep_post (pf : PatchFn)
    (hpf : ∀ v c st r, Clean v → ValidH st.host → c < st.host.nextId →
      pf none v c none st = .ok r → MountPost st c r.1 r.2)
    (o : COpts) (props : Option PList) (ch : VChild) (key : JVal)
    (c : Nat) (st : RState) (r : VNode × RState)
    (hnd : PNodup props) (hne : ∀ cs, ch ≠ VChild.arr cs)
    (hcr : Clean (effRenderOf o))
    (hv : ValidH st.host) (hc : c < st.host.nextId)
    (h : mountComponentStep pf (.mk (.comp o) props ch key none none) c none st
        = .ok r) : MountPost st c r.1 r.2 := by
  simp only [mountComponentStep, VNode.type] at h
  rw [andThenE_eq_ok] at h
  obtain ⟨pa, hra, h⟩ := h
  rw [andThen2_eq_ok] at h
  obtain ⟨sub, s1, hsub, heq⟩ := h
  obtain ⟨v', st'⟩ := r
  injection Except.ok.inj heq with e1 e2
  subst e1
  subst e2
  have P : MountPost _ c sub s1 := hpf _ c _ (sub, s1) ?hcl ?hv5 ?hc5 hsub
  case hcl =>
    cases hs : o.hasSetup
    · simpa [effRenderOf, hs] using hcr
    · cases hsr : o.setupResult <;> simpa [effRenderOf, hs, hsr] using hcr
  case hv5 =>
    cases hs : o.hasSetup
    · simpa using hv
    · cases hsr : o.setupResult <;> simpa using hv
  case hc5 =>
    cases hs : o.hasSetup
    · simpa using hc
    · cases hsr : o.setupResult <;> simpa using hc
  have P2 : MountPost st c sub s1 := mountPost_rebase P ?hh5
  case hh5 =>
    cases hs : o.hasSetup
    · simp
    · cases hsr : o.setupResult <;> simp
  simp only [VNode.withComponent]
  refine @mountPost_retarget st c _ s1 _ ?fin ?hq
  case fin =>
    refine ⟨P2.nextMono, ?_, ?_, ?_, P2.frameOld, ?_, P2.valid⟩
    · rw [elsTree_cmp_some _ _ _ _ _ _ _ _ _ _ _ _ hne]
      exact P2.fresh
    · rw [elsTree_cmp_some _ _ _ _ _ _ _ _ _ _ _ _ hne]
      exact P2.nodup
    · exact Sub.compS o props ch key _ sub c hnd hne rfl P2.sub
    · intro n hn
      rw [topEls_comp]
      exact P2.contChanged n hn
  case hq => simp [foldl_emit_host]

theorem patchR_mount_post :
    ∀ (f : Nat) (v : VNode) (c : Nat) (st : RState) (r : VNode × RState),
      Clean v → ValidH st.host → c < st.host.nextId →
      patchR f none v c none st = .ok r → MountPost st c r.1 r.2 := by
  intro f
  induction f with
  | zero =>
    intro v c st r hcl hv hc h
    simp [patchR] at h
  | succ f ih =>
    intro v c st r hcl hv hc h
    simp only [patchR, patchStep] at h
    cases hcl with
    | mk t props ch key hnd hcc hct hsl =>
      cases t
      case tag tg =>
        simp only [patchCore, VNode.type] at h
        exact mountElementStep_post _ ih tg props ch key c st r hnd hcc hv hc h
      case textT =>
        simp only [patchCore, VNode.type, VNode.children] at h
        obtain ⟨v', st'⟩ := r
        injection Except.ok.inj h with e1 e2
        subst e1
        subst e2
        show MountPost st c
          ((VNode.mk VType.textT props ch key none none).withEl
            (some st.host.nextId))
          (insertS st.host.nextId c none (createTextNodeS (childText ch) st).2)
        have hph : ∀ cs, ch = VChild.arr cs → elsTreeL cs = [] := by
          intro cs hcs
          subst hcs
          cases hcc with
          | arr _ hclcs => exact elsTreeL_clean hclcs
        have hGf : hget (createTextNodeS (childText ch) st).2.host
            st.host.nextId = some ⟨.textN, childText ch, [], none⟩ :=
          hget_create_fresh st.host _ hv
        have hGo : ∀ q, q ≠ st.host.nextId →
            hget (createTextNodeS (childText ch) st).2.host q
              = hget st.host q :=
          fun q hq => hget_create_old st.host _ q hq
        have hV1 : ValidH (createTextNodeS (childText ch) st).2.host :=
          create_valid st.host _ hv
        have hec : st.host.nextId ≠ c := by omega
        have hNode := insertS_hget_node st.host.nextId c none
          (createTextNodeS (childText ch) st).2 _ hGf rfl hec
        have hKeys := insertS_keys st.host.nextId c none
          (createTextNodeS (childText ch) st).2
        have hNF : (insertS st.host.nextId c none
            (createTextNodeS (childText ch) st).2).host.nextId
            = st.host.nextId + 1 := hKeys.2
        simp only [VNode.withEl]
        refine ⟨by omega, ?_, ?_, ?_, ?_, ?_, ?_⟩
        · intro x hx
          rw [elsTree_el_some_emp _ _ _ _ _ hph] at hx
          rcases List.mem_singleton.mp hx with rfl
          exact ⟨le_refl _, by omega⟩
        · rw [elsTree_el_some_emp _ _ _ _ _ hph]
          exact List.nodup_singleton _
        · exact Sub.textS props ch key st.host.nextId _ c hnd hph hNode
            rfl rfl rfl rfl
        · intro q hq hlt
          have hq1 : q ≠ st.host.nextId := by omega
          rw [insertS_hget_other st.host.nextId c none _ _ q hGf rfl hq1 hq]
          exact hGo q hq1
        · intro n hn
          have hc3 : hget (createTextNodeS (childText ch) st).2.host c
              = some n := by
            rw [hGo c (Ne.symm hec)]
            exact hn
          rw [insertS_hget_parent st.host.nextId c none _ _ n hGf rfl hec hc3,
            insBefore_none, topEls_text]
        · exact insertS_valid _ _ _ _ hV1
      case commentT =>
        simp only [patchCore, VNode.type, VNode.children] at h
        obtain ⟨v', st'⟩ := r
        injection Except.ok.inj h with e1 e2
        subst e1
        subst e2
        show MountPost st c
          ((VNode.mk VType.commentT props ch key none none).withEl
            (some st.host.nextId))
          (insertS st.host.nextId c none (createCommentS (childText ch) st).2)
        have hph : ∀ cs, ch = VChild.arr cs → elsTreeL cs = [] := by
          intro cs hcs
          subst hcs
          cases hcc with
          | arr _ hclcs => exact elsTreeL_clean hclcs
        have hGf : hget (createCommentS (childText ch) st).2.host
            st.host.nextId = some ⟨.commentN, childText ch, [], none⟩ :=
          hget_create_fresh st.host _ hv
        have hGo : ∀ q, q ≠ st.host.nextId →
            hget (createCommentS (childText ch) st).2.host q
              = hget st.host q :=
          fun q hq => hget_create_old st.host _ q hq
        have hV1 : ValidH (createCommentS (childText ch) st).2.host :=
          create_valid st.host _ hv
        have hec : st.host.nextId ≠ c := by omega
        have hNode := insertS_hget_node st.host.nextId c none
          (createCommentS (childText ch) st).2 _ hGf rfl hec
        have hKeys := insertS_keys st.host.nextId c none
          (createCommentS (childText ch) st).2
        have hNF : (insertS st.host.nextId c none
            (createCommentS (childText ch) st).2).host.nextId
            = st.host.nextId + 1 := hKeys.2
        simp only [VNode.withEl]
        refine ⟨by omega, ?_, ?_, ?_, ?_, ?_, ?_⟩
        · intro x hx
          rw [elsTree_el_some_emp _ _ _ _ _ hph] at hx
          rcases List.mem_singleton.mp hx with rfl
          exact ⟨le_refl _, by omega⟩
        · rw [elsTree_el_some_emp _ _ _ _ _ hph]
          exact List.nodup_singleton _
        · exact Sub.commentS props ch key st.host.nextId _ c hnd hph hNode
            rfl rfl rfl rfl
        · intro q hq hlt
          have hq1 : q ≠ st.host.nextId := by omega
          rw [insertS_hget_other st.host.nextId c none _ _ q hGf rfl hq1 hq]
          exact hGo q hq1
        · intro n hn
          have hc3 : hget (createCommentS (childText ch) st).2.host c
              = some n := by
            rw [hGo c (Ne.symm hec)]
            exact hn
          rw [insertS_hget_parent st.host.nextId c none _ _ n hGf rfl hec hc3,
            insBefore_none, topEls_comment]
        · exact insertS_valid _ _ _ _ hV1
      case fragmentT =>
        cases hcc with
        | arr cs hclcs =>
          simp only [patchCore, VNode.type, VNode.children] at h
          rw [andThen2_eq_ok] at h
          obtain ⟨cs1, s2, hml, heq⟩ := h
          obtain ⟨v', st'⟩ := r
          injection Except.ok.inj heq with e1 e2
          subst e1
          subst e2
          have PL : MountPostL st c cs1 s2 :=
            mountListF_post _ ih cs c st (cs1, s2) hclcs hv hc hml
          simp only [VNode.withChildren]
          refine ⟨PL.nextMono, ?_, ?_, ?_, PL.frameOld, ?_, PL.valid⟩
          · rw [elsTree_arr_none]
            exact PL.fresh
          · rw [elsTree_arr_none]
            exact PL.nodup
          · exact Sub.fragS props cs1 key c hnd PL.sub
          · intro n hn
            rw [topEls_frag]
            exact PL.contChanged n hn
        | nothing => simp [patchCore, VNode.type, VNode.children] at h
        | text str => simp [patchCore, VNode.type, VNode.children] at h
        | slots ss => simp [patchCore, VNode.type, VNode.children] at h
      case comp o =>
        simp only [patchCore, VNode.type] at h
        cases hct with
        | comp o2 hcro =>
          exact mountComponentStep_post _ ih o props ch key c st r hnd
            (hsl rfl) hcro hv hc h
      case funcComp fid =>
        simp only [patchCore, VNode.type] at h
        obtain ⟨v', st'⟩ := r
        injection Except.ok.inj h with e1 e2
        subst e1
        subst e2
        have hne := hsl rfl
        refine ⟨le_refl _, ?_, ?_, ?_, fun q _ _ => rfl, ?_, hv⟩
        · intro x hx
          rw [elsTree_plain _ _ _ _ hne] at hx
          simp at hx
        · rw [elsTree_plain _ _ _ _ hne]
          exact List.nodup_nil
        · exact Sub.funcS fid props ch key c hnd hne
        · intro n hn
          rw [topEls_func, hn]
          simp

/-!
The unmount guarantee. unmount(v) on a tree mounted under p detaches
every tree node and removes exactly the tree's top nodes from p's child
list; a second unmount pass over an already-detached tree (the Fragment
branch does this) leaves the host untouched.
-/

theorem mem_elsTree_arr (t : VType) (props : Option PList) (cs : List VNode)
    (key : JVal) (el : Option Nat) (cmp : Option CInstance) (q : Nat)
    (hq : q ∈ elsTreeL cs) : q ∈ elsTree (.mk t props (.arr cs) key el cmp) := by
  have base : ∀ (l1 l3 : List Nat), q ∈ l1 ++ elsTreeL cs ++ l3 :=
    fun l1 l3 => List.mem_append.mpr (Or.inl (List.mem_append.mpr (Or.inr hq)))
  cases el <;> cases cmp <;>
    first
      | exact base _ _
      | (rename_i inst
         obtain ⟨a1, a2, a3, a4, isub, a6, a7, a8⟩ := inst
         cases isub <;> exact base _ _)

theorem mem_elsTree_el (t : VType) (props : Option PList) (ch : VChild)
    (key : JVal) (e : Nat) (cmp : Option CInstance) :
    e ∈ elsTree (.mk t props ch key (some e) cmp) := by
  have base : ∀ (l2 l3 : List Nat), e ∈ [e] ++ l2 ++ l3 := fun l2 l3 =>
    List.mem_append.mpr
      (Or.inl (List.mem_append.mpr (Or.inl (List.mem_singleton.mpr rfl))))
  cases ch <;> cases cmp <;>
    first
      | exact base _ _
      | (rename_i inst
         obtain ⟨a1, a2, a3, a4, isub, a6, a7, a8⟩ := inst
         cases isub <;> exact base _ _)

theorem mem_elsTree_cmp (t : VType) (props : Option PList) (ch : VChild)
    (key : JVal) (el : Option Nat) (a1 a2 : PList) (a3 : Option PList)
    (a4 : Bool) (a6 : VChild) (a7 : List Nat) (a8 : Nat) (w : VNode) (q : Nat)
    (hq : q ∈ elsTree w) :
    q ∈ elsTree (.mk t props ch key el
      (some (.mk a1 a2 a3 a4 (some w) a6 a7 a8))) := by
  have base : ∀ (l1 l2 : List Nat), q ∈ l1 ++ l2 ++ elsTree w := fun l1 l2 =>
    List.mem_append.mpr (Or.inr hq)
  cases ch <;> cases el <;> exact base _ _

theorem unmountListF_detached (um : UnmountFn)
    (hum : ∀ v st st', DetachedTree st.host v → um v st = .ok st' →
      st'.host = st.host) :
    ∀ (cs : List VNode) (st st' : RState), DetachedL st.host cs →
      unmountListF um cs st = .ok st' → st'.host = st.host := by
  intro cs
  induction cs with
  | nil =>
    intro st st' hd h
    simp only [unmountListF] at h
    rw [← Except.ok.inj h]
  | cons c cs ih =>
    intro st st' hd h
    simp only [unmountListF] at h
    rw [andThen1_eq_ok] at h
    obtain ⟨s1, h1, h2⟩ := h
    have e1 : s1.host = st.host := by
      refine hum c st s1 ?_ h1
      intro e he
      refine hd e ?_
      rw [elsTreeL_cons]
      exact List.mem_append.mpr (Or.inl he)
    have e2 : st'.host = s1.host := by
      refine ih s1 st' ?_ h2
      intro e he n hn
      refine hd e ?_ n ?_
      · rw [elsTreeL_cons]
        exact List.mem_append.mpr (Or.inr he)
      · rw [← e1]
        exact hn
    rw [e2, e1]

theorem unmountStep_detached (um : UnmountFn)
    (hum : ∀ v st st', DetachedTree st.host v → um v st = .ok st' →
      st'.host = st.host)
    (v : VNode) (st st' : RState) (hd : DetachedTree st.host v)
    (h : unmountStep um v st = .ok st') : st'.host = st.host := by
  obtain ⟨t, props, ch, key, el, cmp⟩ := v
  simp only [unmountStep, VNode.children, VNode.type, VNode.props, VNode.el,
    VNode.component] at h
  rw [andThen1_eq_ok] at h
  obtain ⟨s1, h1, h2⟩ := h
  have hs1 : s1.host = st.host := by
    cases ch with
    | arr cs =>
      refine unmountListF_detached um hum cs st s1 ?_ h1
      intro e he
      exact hd e (mem_elsTree_arr _ _ _ _ _ _ e he)
    | nothing => exact congrArg RState.host (Except.ok.inj h1).symm
    | text s => exact congrArg RState.host (Except.ok.inj h1).symm
    | slots ss => exact congrArg RState.host (Except.ok.inj h1).symm
  cases t with
  | comp o =>
    cases cmp with
    | none => simp at h2
    | some inst =>
      obtain ⟨a1, a2, a3, a4, isub, a6, a7, a8⟩ := inst
      simp only [CInstance.subTree] at h2
      cases isub with
      | none => simp at h2
      | some w =>
        have e2 : st'.host = s1.host := by
          refine hum w s1 st' ?_ h2
          intro e he n hn
          refine hd e (mem_elsTree_cmp _ _ _ _ _ _ _ _ _ _ _ _ _ e he) n ?_
          rw [← hs1]
          exact hn
        rw [e2, hs1]
  | fragmentT =>
    cases ch with
    | arr cs =>
      cases props with
      | none =>
        refine (unmountListF_detached um hum cs s1 st' ?_ h2).trans hs1
        intro e he n hn
        refine hd e (mem_elsTree_arr _ _ _ _ _ _ e he) n ?_
        rw [← hs1]
        exact hn
      | some ps =>
        have hf : (List.foldl
            (fun s kv => patchPropS el kv.1 kv.2 JVal.null s) s1
            ps).host = st.host := (foldl_ppo_host _ _ _).trans hs1
        refine (unmountListF_detached um hum cs _ st' ?_ h2).trans hf
        intro e he n hn
        refine hd e (mem_elsTree_arr _ _ _ _ _ _ e he) n ?_
        rw [← hf]
        exact hn
    | nothing => simp at h2
    | text s => simp at h2
    | slots ss => simp at h2
  | tag tg =>
    have heq := (Except.ok.inj h2).symm
    subst heq
    show RState.host _ = st.host
    cases el with
    | none =>
      cases props with
      | none => exact hs1
      | some ps => exact (foldl_ppo_host _ _ _).trans hs1
    | some e =>
      cases props with
      | none =>
        dsimp only
        split
        · rename_i n hg
          split
          · rename_i p hp
            have hdn := hd e (mem_elsTree_el _ _ _ _ _ _) n
              (by rw [hs1] at hg; exact hg)
            rw [hdn] at hp
            simp at hp
          · exact hs1
        · exact hs1
      | some ps =>
        dsimp only
        have hf : (List.foldl
            (fun s kv => patchPropS (some e) kv.1 kv.2 JVal.null s) s1
            ps).host = st.host := (foldl_ppo_host _ _ _).trans hs1
        split
        · rename_i n hg
          split
          · rename_i p hp
            have hdn := hd e (mem_elsTree_el _ _ _ _ _ _) n
              (by rw [hf] at hg; exact hg)
            rw [hdn] at hp
            simp at hp
          · exact hf
        · exact hf

  | textT =>
    have heq := (Except.ok.inj h2).symm
    subst heq
    show RState.host _ = st.host
    cases el with
    | none =>
      cases props with
      | none => exact hs1
      | some ps => exact (foldl_ppo_host _ _ _).trans hs1
    | some e =>
      cases props with
      | none =>
        dsimp only
        split
        · rename_i n hg
          split
          · rename_i p hp
            have hdn := hd e (mem_elsTree_el _ _ _ _ _ _) n
              (by rw [hs1] at hg; exact hg)
            rw [hdn] at hp
            simp at hp
          · exact hs1
        · exact hs1
      | some ps =>
        dsimp only
        have hf : (List.foldl
            (fun s kv => patchPropS (some e) kv.1 kv.2 JVal.null s) s1
            ps).host = st.host := (foldl_ppo_host _ _ _).trans hs1
        split
        · rename_i n hg
          split
          · rename_i p hp
            have hdn := hd e (mem_elsTree_el _ _ _ _ _ _) n
              (by rw [hf] at hg; exact hg)
            rw [hdn] at hp
            simp at hp
          · exact hf
        · exact hf

  | commentT =>
    have heq := (Except.ok.inj h2).symm
    subst heq
    show RState.host _ = st.host
    cases el with
    | none =>
      cases props with
      | none => exact hs1
      | some ps => exact (foldl_ppo_host _ _ _).trans hs1
    | some e =>
      cases props with
      | none =>
        dsimp only
        split
        · rename_i n hg
          split
          · rename_i p hp
            have hdn := hd e (mem_elsTree_el _ _ _ _ _ _) n
              (by rw [hs1] at hg; exact hg)
            rw [hdn] at hp
            simp at hp
          · exact hs1
        · exact hs1
      | some ps =>
        dsimp only
        have hf : (List.foldl
            (fun s kv => patchPropS (some e) kv.1 kv.2 JVal.null s) s1
            ps).host = st.host := (foldl_ppo_host _ _ _).trans hs1
        split
        · rename_i n hg
          split
          · rename_i p hp
            have hdn := hd e (mem_elsTree_el _ _ _ _ _ _) n
              (by rw [hf] at hg; exact hg)
            rw [hdn] at hp
            simp at hp
          · exact hf
        · exact hf

  | funcComp fid =>
    have heq := (Except.ok.inj h2).symm
    subst heq
    show RState.host _ = st.host
    cases el with
    | none =>
      cases props with
      | none => exact hs1
      | some ps => exact (foldl_ppo_host _ _ _).trans hs1
    | some e =>
      cases props with
      | none =>
        dsimp only
        split
        · rename_i n hg
          split
          · rename_i p hp
            have hdn := hd e (mem_elsTree_el _ _ _ _ _ _) n
              (by rw [hs1] at hg; exact hg)
            rw [hdn] at hp
            simp at hp
          · exact hs1
        · exact hs1
      | some ps =>
        dsimp only
        have hf : (List.foldl
            (fun s kv => patchPropS (some e) kv.1 kv.2 JVal.null s) s1
            ps).host = st.host := (foldl_ppo_host _ _ _).trans hs1
        split
        · rename_i n hg
          split
          · rename_i p hp
            have hdn := hd e (mem_elsTree_el _ _ _ _ _ _) n
              (by rw [hf] at hg; exact hg)
            rw [hdn] at hp
            simp at hp
          · exact hf
        · exact hf

theorem unmountR_detached :
    ∀ (g : Nat) (v : VNode) (st st' : RState), DetachedTree st.host v →
      unmountR g v st = .ok st' → st'.host = st.host := by
  intro g
  induction g with
  | zero =>
    intro v st st' hd h
    simp [unmountR] at h
  | succ g ih =>
    intro v st st' hd h
    rw [unmountR] at h
    exact unmountStep_detached (unmountR g) (fun v st st' => ih v st st') v st
      st' hd h

theorem unmountListF_post (um : UnmountFn)
    (hum : ∀ v p st st', Sub st.host v p → (elsTree v).Nodup →
      p ∉ elsTree v → um v st = .ok st' → UPost v p st st') :
    ∀ (cs : List VNode) (p : Nat) (st st' : RState),
      SubL st.host cs p → (elsTreeL cs).Nodup → p ∉ elsTreeL cs →
      unmountListF um cs st = .ok st' → UPostL cs p st st' := by
  intro cs
  induction cs with
  | nil =>
    intro p st st' hsub hnd hp h
    simp only [unmountListF] at h
    rw [← Except.ok.inj h]
    refine ⟨fun q _ _ => rfl, ?_, ?_⟩
    · intro e he
      rw [elsTreeL_nil] at he
      simp at he
    · intro np hnp
      rw [topElsL_nil]
      simpa using hnp
  | cons c cs ih =>
    intro p st st' hsub hnd hp h
    simp only [unmountListF] at h
    rw [andThen1_eq_ok] at h
    obtain ⟨s1, h1, h2⟩ := h
    cases hsub with
    | cons _ _ _ hsubc hsubcs =>
      rw [elsTreeL_cons] at hnd hp
      rw [List.nodup_append] at hnd
      obtain ⟨hndc, hndcs, hdisj⟩ := hnd
      have hpc : p ∉ elsTree c := fun hx => hp (List.mem_append.mpr (Or.inl hx))
      have hpcs : p ∉ elsTreeL cs :=
        fun hx => hp (List.mem_append.mpr (Or.inr hx))
      obtain ⟨F1, D1, P1⟩ := hum c p st s1 hsubc hndc hpc h1
      have hsub2 : SubL s1.host cs p := by
        refine SubL_frame hsubcs ?_
        intro q hq
        exact F1 q (fun hx => hdisj hx hq) (fun hqp => hpcs (hqp ▸ hq))
      obtain ⟨F2, D2, P2⟩ := ih p s1 st' hsub2 hndcs hpcs h2
      refine ⟨?_, ?_, ?_⟩
      · intro q hq hqp
        rw [elsTreeL_cons] at hq
        have hq1 : q ∉ elsTree c :=
          fun hx => hq (List.mem_append.mpr (Or.inl hx))
        have hq2 : q ∉ elsTreeL cs :=
          fun hx => hq (List.mem_append.mpr (Or.inr hx))
        rw [F2 q hq2 hqp, F1 q hq1 hqp]
      · intro e he n hn
        rw [elsTreeL_cons] at he
        rcases List.mem_append.mp he with he | he
        · have hne : e ∉ elsTreeL cs := fun hx => hdisj he hx
          have hep : e ≠ p := fun hx => hpc (hx ▸ he)
          rw [F2 e hne hep] at hn
          exact D1 e he n hn
        · exact D2 e he n hn
      · intro np hnp
        have s1p := P1 np hnp
        have s2p := P2 _ s1p
        rw [s2p, topElsL_cons]
        simp [List.foldl_append]

theorem unmountStep_post (um : UnmountFn)
    (humD : ∀ v st st', DetachedTree st.host v → um v st = .ok st' →
      st'.host = st.host)
    (hum : ∀ v p st st', Sub st.host v p → (elsTree v).Nodup →
      p ∉ elsTree v → um v st = .ok st' → UPost v p st st')
    (v : VNode) (p : Nat) (st st' : RState) (hsub : Sub st.host v p)
    (hnd : (elsTree v).Nodup) (hp : p ∉ elsTree v)
    (h : unmountStep um v st = .ok st') : UPost v p st st' := by
  cases hsub with
  | tagArr t props cs key e n p2 hnd' hg hk hpar hch hsl =>
    rw [elsTree_arr_some] at hnd hp
    rw [List.nodup_cons] at hnd
    obtain ⟨hecs, hndcs⟩ := hnd
    have hpe : p ≠ e := fun hx => hp (hx ▸ List.mem_cons_self _ _)
    have hpcs : p ∉ elsTreeL cs := fun hx => hp (List.mem_cons_of_mem _ hx)
    simp only [unmountStep, VNode.children, VNode.type, VNode.props, VNode.el,
      VNode.component] at h
    rw [andThen1_eq_ok] at h
    obtain ⟨s1, h1, h2⟩ := h
    obtain ⟨F1, D1, P1⟩ := unmountListF_post um hum cs e st s1 hsl hndcs hecs h1
    have P1n := P1 n hg
    cases props with
    | none =>
      dsimp only at h2
      rw [P1n] at h2
      dsimp only at h2
      rw [hpar] at h2
      dsimp only at h2
      have heq := (Except.ok.inj h2).symm
      subst heq
      refine ⟨?_, ?_, ?_⟩
      · intro q hq hqp
        rw [elsTree_arr_some] at hq
        have hq1 : q ≠ e := fun hx => hq (hx ▸ List.mem_cons_self _ _)
        have hq2 : q ∉ elsTreeL cs := fun hx => hq (List.mem_cons_of_mem _ hx)
        rw [removeChildS_hget_other p e q s1 hqp hq1]
        exact F1 q hq2 hq1
      · intro x hx nx hnx
        rw [elsTree_arr_some] at hx
        rcases List.mem_cons.mp hx with rfl | hx
        · rw [removeChildS_hget_el p x s1 _ (fun hx2 => hpe hx2.symm) P1n]
            at hnx
          injection hnx with hnx
          rw [← hnx]
        · have hxe : x ≠ e := fun h2x => hecs (h2x ▸ hx)
          have hxp : x ≠ p := fun h2x => hpcs (h2x ▸ hx)
          rw [removeChildS_hget_other p e x s1 hxp hxe] at hnx
          exact D1 x hx nx hnx
      · intro np hnp
        have hs1p : hget s1.host p = some np := by
          rw [F1 p hpcs hpe]
          exact hnp
        rw [removeChildS_hget_parent p e s1 np hpe hs1p, topEls_tag]
        simp
    | some ps =>
      dsimp only at h2
      rw [foldl_ppo_host] at h2
      rw [P1n] at h2
      dsimp only at h2
      rw [hpar] at h2
      dsimp only at h2
      have heq := (Except.ok.inj h2).symm
      subst heq
      have hFh : (List.foldl
          (fun s kv => patchPropS (some e) kv.1 kv.2 JVal.null s) s1
          ps).host = s1.host := foldl_ppo_host _ _ _
      refine ⟨?_, ?_, ?_⟩
      · intro q hq hqp
        rw [elsTree_arr_some] at hq
        have hq1 : q ≠ e := fun hx => hq (hx ▸ List.mem_cons_self _ _)
        have hq2 : q ∉ elsTreeL cs := fun hx => hq (List.mem_cons_of_mem _ hx)
        rw [removeChildS_hget_other p e q _ hqp hq1, hFh]
        exact F1 q hq2 hq1
      · intro x hx nx hnx
        rw [elsTree_arr_some] at hx
        rcases List.mem_cons.mp hx with rfl | hx
        · rw [removeChildS_hget_el p x _ _ (fun hx2 => hpe hx2.symm)
              (by rw [hFh]; exact P1n)] at hnx
          injection hnx with hnx
          rw [← hnx]
        · have hxe : x ≠ e := fun h2x => hecs (h2x ▸ hx)
          have hxp : x ≠ p := fun h2x => hpcs (h2x ▸ hx)
          rw [removeChildS_hget_other p e x _ hxp hxe, hFh] at hnx
          exact D1 x hx nx hnx
      · intro np hnp
        have hs1p : hget (List.foldl
            (fun s kv => patchPropS (some e) kv.1 kv.2 JVal.null s) s1
            ps).host p = some np := by
          rw [hFh, F1 p hpcs hpe]
          exact hnp
        rw [removeChildS_hget_parent p e _ np hpe hs1p, topEls_tag]
        simp
  | tagOther t props ch key e n p2 hnd' hne hg hk hpar hch hct =>
    have helt : elsTree (VNode.mk (VType.tag t) props ch key (some e) none)
        = [e] := elsTree_el_some _ _ _ _ _ hne
    rw [helt] at hnd hp
    have hpe : p ≠ e := fun hx => hp (hx ▸ List.mem_singleton.mpr rfl)
    simp only [unmountStep, VNode.children, VNode.type, VNode.props, VNode.el,
      VNode.component] at h
    rw [andThen1_eq_ok] at h
    obtain ⟨s1, h1, h2⟩ := h
    have hs1 : st = s1 := by
      cases ch with
      | arr cs => exact absurd rfl (hne cs)
      | nothing => exact (Except.ok.inj h1)
      | text s2 => exact (Except.ok.inj h1)
      | slots ss => exact (Except.ok.inj h1)
    subst hs1
    cases props with
    | none =>
      dsimp only at h2
      rw [hg] at h2
      dsimp only at h2
      rw [hpar] at h2
      dsimp only at h2
      have heq := (Except.ok.inj h2).symm
      subst heq
      refine ⟨?_, ?_, ?_⟩
      · intro q hq hqp
        rw [helt] at hq
        have hq1 : q ≠ e := fun hx => hq (hx ▸ List.mem_singleton.mpr rfl)
        exact removeChildS_hget_other p e q st hqp hq1
      · intro x hx nx hnx
        rw [helt] at hx
        rcases List.mem_singleton.mp hx with rfl
        rw [removeChildS_hget_el p x st _ (fun hx2 => hpe hx2.symm) hg] at hnx
        injection hnx with hnx
        rw [← hnx]
      · intro np hnp
        rw [removeChildS_hget_parent p e st np hpe hnp, topEls_tag]
        simp
    | some ps =>
      dsimp only at h2
      rw [foldl_ppo_host] at h2
      rw [hg] at h2
      dsimp only at h2
      rw [hpar] at h2
      dsimp only at h2
      have heq := (Except.ok.inj h2).symm
      subst heq
      have hFh : (List.foldl
          (fun s kv => patchPropS (some e) kv.1 kv.2 JVal.null s) st
          ps).host = st.host := foldl_ppo_host _ _ _
      refine ⟨?_, ?_, ?_⟩
      · intro q hq hqp
        rw [helt] at hq
        have hq1 : q ≠ e := fun hx => hq (hx ▸ List.mem_singleton.mpr rfl)
        rw [removeChildS_hget_other p e q _ hqp hq1, hFh]
      · intro x hx nx hnx
        rw [helt] at hx
        rcases List.mem_singleton.mp hx with rfl
        rw [removeChildS_hget_el p x _ _ (fun hx2 => hpe hx2.symm)
            (by rw [hFh]; exact hg)] at hnx
        injection hnx with hnx
        rw [← hnx]
      · intro np hnp
        rw [removeChildS_hget_parent p e _ np hpe
          (by rw [hFh]; exact hnp), topEls_tag]
        simp
  | textS props ch key e n p2 hnd' hph hg hk hpar hch hct =>
    have helt : elsTree (VNode.mk VType.textT props ch key (some e) none)
        = [e] := elsTree_el_some_emp _ _ _ _ _ hph
    rw [helt] at hnd hp
    have hpe : p ≠ e := fun hx => hp (hx ▸ List.mem_singleton.mpr rfl)
    simp only [unmountStep, VNode.children, VNode.type, VNode.props, VNode.el,
      VNode.component] at h
    rw [andThen1_eq_ok] at h
    obtain ⟨s1, h1, h2⟩ := h
    have hs1 : s1.host = st.host := by
      cases ch with
      | arr cs =>
        refine unmountListF_detached um humD cs st s1 ?_ h1
        intro x hx
        rw [hph cs rfl] at hx
        simp at hx
      | nothing => rw [← Except.ok.inj h1]
      | text s2 => rw [← Except.ok.inj h1]
      | slots ss => rw [← Except.ok.inj h1]
    cases props with
    | none =>
      dsimp only at h2
      rw [hs1, hg] at h2
      dsimp only at h2
      rw [hpar] at h2
      dsimp only at h2
      have heq := (Except.ok.inj h2).symm
      subst heq
      refine ⟨?_, ?_, ?_⟩
      · intro q hq hqp
        rw [helt] at hq
        have hq1 : q ≠ e := fun hx => hq (hx ▸ List.mem_singleton.mpr rfl)
        rw [removeChildS_hget_other p e q _ hqp hq1, hs1]
      · intro x hx nx hnx
        rw [helt] at hx
        rcases List.mem_singleton.mp hx with rfl
        rw [removeChildS_hget_el p x _ _ (fun hx2 => hpe hx2.symm)
            (by rw [hs1]; exact hg)] at hnx
        injection hnx with hnx
        rw [← hnx]
      · intro np hnp
        rw [removeChildS_hget_parent p e _ np hpe
          (by rw [hs1]; exact hnp), topEls_text]
        simp
    | some ps =>
      dsimp only at h2
      rw [foldl_ppo_host, hs1, hg] at h2
      dsimp only at h2
      rw [hpar] at h2
      dsimp only at h2
      have heq := (Except.ok.inj h2).symm
      subst heq
      have hFh : (List.foldl
          (fun s kv => patchPropS (some e) kv.1 kv.2 JVal.null s) s1
          ps).host = st.host := (foldl_ppo_host _ _ _).trans hs1
      refine ⟨?_, ?_, ?_⟩
      · intro q hq hqp
        rw [helt] at hq
        have hq1 : q ≠ e := fun hx => hq (hx ▸ List.mem_singleton.mpr rfl)
        rw [removeChildS_hget_other p e q _ hqp hq1, hFh]
      · intro x hx nx hnx
        rw [helt] at hx
        rcases List.mem_singleton.mp hx with rfl
        rw [removeChildS_hget_el p x _ _ (fun hx2 => hpe hx2.symm)
            (by rw [hFh]; exact hg)] at hnx
        injection hnx with hnx
        rw [← hnx]
      · intro np hnp
        rw [removeChildS_hget_parent p e _ np hpe
          (by rw [hFh]; exact hnp), topEls_text]
        simp
  | commentS props ch key e n p2 hnd' hph hg hk hpar hch hct =>
    have helt : elsTree (VNode.mk VType.commentT props ch key (some e) none)
        = [e] := elsTree_el_some_emp _ _ _ _ _ hph
    rw [helt] at hnd hp
    have hpe : p ≠ e := fun hx => hp (hx ▸ List.mem_singleton.mpr rfl)
    simp only [unmountStep, VNode.children, VNode.type, VNode.props, VNode.el,
      VNode.component] at h
    rw [andThen1_eq_ok] at h
    obtain ⟨s1, h1, h2⟩ := h
    have hs1 : s1.host = st.host := by
      cases ch with
      | arr cs =>
        refine unmountListF_detached um humD cs st s1 ?_ h1
        intro x hx
        rw [hph cs rfl] at hx
        simp at hx
      | nothing => rw [← Except.ok.inj h1]
      | text s2 => rw [← Except.ok.inj h1]
      | slots ss => rw [← Except.ok.inj h1]
    cases props with
    | none =>
      dsimp only at h2
      rw [hs1, hg] at h2
      dsimp only at h2
      rw [hpar] at h2
      dsimp only at h2
      have heq := (Except.ok.inj h2).symm
      subst heq
      refine ⟨?_, ?_, ?_⟩
      · intro q hq hqp
        rw [helt] at hq
        have hq1 : q ≠ e := fun hx => hq (hx ▸ List.mem_singleton.mpr rfl)
        rw [removeChildS_hget_other p e q _ hqp hq1, hs1]
      · intro x hx nx hnx
        rw [helt] at hx
        rcases List.mem_singleton.mp hx with rfl
        rw [removeChildS_hget_el p x _ _ (fun hx2 => hpe hx2.symm)
            (by rw [hs1]; exact hg)] at hnx
        injection hnx with hnx
        rw [← hnx]
      · intro np hnp
        rw [removeChildS_hget_parent p e _ np hpe
          (by rw [hs1]; exact hnp), topEls_comment]
        simp
    | some ps =>
      dsimp only at h2
      rw [foldl_ppo_host, hs1, hg] at h2
      dsimp only at h2
      rw [hpar] at h2
      dsimp only at h2
      have heq := (Except.ok.inj h2).symm
      subst heq
      have hFh : (List.foldl
          (fun s kv => patchPropS (some e) kv.1 kv.2 JVal.null s) s1
          ps).host = st.host := (foldl_ppo_host _ _ _).trans hs1
      refine ⟨?_, ?_, ?_⟩
      · intro q hq hqp
        rw [helt] at hq
        have hq1 : q ≠ e := fun hx => hq (hx ▸ List.mem_singleton.mpr rfl)
        rw [removeChildS_hget_other p e q _ hqp hq1, hFh]
      · intro x hx nx hnx
        rw [helt] at hx
        rcases List.mem_singleton.mp hx with rfl
        rw [removeChildS_hget_el p x _ _ (fun hx2 => hpe hx2.symm)
            (by rw [hFh]; exact hg)] at hnx
        injection hnx with hnx
        rw [← hnx]
      · intro np hnp
        rw [removeChildS_hget_parent p e _ np hpe
          (by rw [hFh]; exact hnp), topEls_comment]
        simp
  | fragS props cs key p2 hnd' hsl =>
    rw [elsTree_arr_none] at hnd hp
    simp only [unmountStep, VNode.children, VNode.type, VNode.props, VNode.el,
      VNode.component] at h
    rw [andThen1_eq_ok] at h
    obtain ⟨s1, h1, h2⟩ := h
    obtain ⟨F1, D1, P1⟩ := unmountListF_post um hum cs p st s1 hsl hnd hp h1
    have hDL : ∀ s2 : RState, s2.host = s1.host →
        unmountListF um cs s2 = .ok st' → st'.host = s1.host := by
      intro s2 hs2 hh
      refine (unmountListF_detached um humD cs s2 st' ?_ hh).trans hs2
      intro x hx nx hnx
      refine D1 x hx nx ?_
      rw [← hs2]
      exact hnx
    have hFin : st'.host = s1.host := by
      cases props with
      | none =>
        dsimp only at h2
        exact hDL s1 rfl h2
      | some ps =>
        dsimp only at h2
        exact hDL _ (foldl_ppo_host _ _ _) h2
    refine ⟨?_, ?_, ?_⟩
    · intro q hq hqp
      rw [elsTree_arr_none] at hq
      rw [hFin]
      exact F1 q hq hqp
    · intro x hx nx hnx
      rw [elsTree_arr_none] at hx
      rw [hFin] at hnx
      exact D1 x hx nx hnx
    · intro np hnp
      rw [hFin, topEls_frag]
      exact P1 np hnp
  | compS o props ch key inst w p2 hnd' hne hsubT hsubw =>
    obtain ⟨a1, a2, a3, a4, isub, a6, a7, a8⟩ := inst
    simp only [CInstance.subTree] at hsubT
    subst hsubT
    have helt : elsTree (VNode.mk (VType.comp o) props ch key none
        (some (CInstance.mk a1 a2 a3 a4 (some w) a6 a7 a8))) = elsTree w :=
      elsTree_cmp_some _ _ _ _ _ _ _ _ _ _ _ _ hne
    rw [helt] at hnd hp
    simp only [unmountStep, VNode.children, VNode.type, VNode.props, VNode.el,
      VNode.component] at h
    rw [andThen1_eq_ok] at h
    obtain ⟨s1, h1, h2⟩ := h
    have hs1 : st = s1 := by
      cases ch with
      | arr cs => exact absurd rfl (hne cs)
      | nothing => exact (Except.ok.inj h1)
      | text s2 => exact (Except.ok.inj h1)
      | slots ss => exact (Except.ok.inj h1)
    subst hs1
    simp only [CInstance.subTree] at h2
    obtain ⟨F1, D1, P1⟩ := hum w p st st' hsubw hnd hp h2
    refine ⟨?_, ?_, ?_⟩
    · intro q hq hqp
      rw [helt] at hq
      exact F1 q hq hqp
    · intro x hx nx hnx
      rw [helt] at hx
      exact D1 x hx nx hnx
    · intro np hnp
      rw [topEls_comp]
      exact P1 np hnp
  | funcS fid props ch key p2 hnd' hne =>
    have helt : elsTree (VNode.mk (VType.funcComp fid) props ch key none none)
        = [] := elsTree_plain _ _ _ _ hne
    simp only [unmountStep, VNode.children, VNode.type, VNode.props, VNode.el,
      VNode.component] at h
    rw [andThen1_eq_ok] at h
    obtain ⟨s1, h1, h2⟩ := h
    have hs1 : st = s1 := by
      cases ch with
      | arr cs => exact absurd rfl (hne cs)
      | nothing => exact (Except.ok.inj h1)
      | text s2 => exact (Except.ok.inj h1)
      | slots ss => exact (Except.ok.inj h1)
    subst hs1
    have hFin : st'.host = st.host := by
      cases props with
      | none =>
        dsimp only at h2
        rw [← Except.ok.inj h2]
      | some ps =>
        dsimp only at h2
        rw [← Except.ok.inj h2]
        exact foldl_ppo_host _ _ _
    refine ⟨?_, ?_, ?_⟩
    · intro q hq hqp
      rw [hFin]
    · intro x hx nx hnx
      rw [helt] at hx
      simp at hx
    · intro np hnp
      rw [hFin, topEls_func]
      simpa using hnp

theorem unmountR_post :
    ∀ (g : Nat) (v : VNode) (p : Nat) (st st' : RState), Sub st.host v p →
      (elsTree v).Nodup → p ∉ elsTree v → unmountR g v st = .ok st' →
      UPost v p st st' := by
  intro g
  induction g with
  | zero =>
    intro v p st st' hs hnd hp h
    simp [unmountR] at h
  | succ g ih =>
    intro v p st st' hs hnd hp h
    rw [unmountR] at h
    exact unmountStep_post (unmountR g)
      (fun v st st' => unmountR_detached g v st st')
      (fun v p st st' => ih v p st st') v p st st' hs hnd hp h

/-!
Re-rendering an unchanged tree. Patching a mounted vnode against itself
changes no host node and allocates nothing: the only trace growth is
setElementText operations that rewrite a node's existing text.
-/

theorem samePost_refl (st : RState) : SamePost st st :=
  ⟨rfl, rfl, [], by simp, by simp⟩

theorem samePost_trans {s1 s2 s3 : RState} (h1 : SamePost s1 s2)
    (h2 : SamePost s2 s3) : SamePost s1 s3 := by
  obtain ⟨hh1, hn1, t1, ht1, hc1⟩ := h1
  obtain ⟨hh2, hn2, t2, ht2, hc2⟩ := h2
  refine ⟨hh2.trans hh1, hn2.trans hn1, t1 ++ t2,
    by rw [ht2, ht1, List.append_assoc], ?_⟩
  intro t hm
  rcases List.mem_append.mp hm with hx | hx
  · exact hc1 t hx
  · obtain ⟨e, s, he, hcs⟩ := hc2 t hx
    exact ⟨e, s, he, by rw [← hh1]; exact hcs⟩

theorem VType.same_refl (t : VType) : t.same t = true := by
  cases t <;> first | rfl | simp [VType.same]

theorem map_set_id (l : List (Nat × HNode)) (i : Nat) (n : HNode)
    (hnd : (l.map Prod.fst).Nodup)
    (hf : (l.find? (fun p => p.1 = i)).map (·.2) = some n) :
    l.map (fun p => if p.1 = i then (i, n) else p) = l := by
  induction l with
  | nil => simp at hf
  | cons hd tl ih =>
    rw [List.map_cons, List.nodup_cons] at hnd
    by_cases hhd : hd.1 = i
    · rw [List.find?_cons_of_pos _ (by simpa using hhd)] at hf
      have hf2 : hd.2 = n := by simpa using hf
      have hdeq : hd = (i, n) := Prod.ext hhd hf2
      have htl : ∀ p ∈ tl, p.1 ≠ i := by
        intro p hp hpi
        have hmem : p.1 ∈ List.map Prod.fst tl := List.mem_map.mpr ⟨p, hp, rfl⟩
        rw [hpi, ← hhd] at hmem
        exact hnd.1 hmem
      have htleq : List.map (fun p => if p.1 = i then (i, n) else p) tl = tl :=
        calc List.map (fun p => if p.1 = i then (i, n) else p) tl
            = List.map id tl :=
              List.map_congr_left (fun p hp => if_neg (htl p hp))
          _ = tl := List.map_id tl
      rw [List.map_cons, if_pos hhd, htleq, ← hdeq]
    · rw [List.find?_cons_of_neg _ (by simpa using hhd)] at hf
      rw [List.map_cons, if_neg hhd, ih hnd.2 hf]

theorem hset_same (h : Host) (i : Nat) (n : HNode) (hv : ValidH h)
    (hn : hget h i = some n) : hset h i n = h := by
  unfold hset
  rw [if_pos (hget_any h i n hn)]
  unfold hget at hn
  rw [map_set_id h.nodes i n hv.1 hn]

theorem setElementTextS_same (e : Nat) (s : String) (st : RState) (n : HNode)
    (hv : ValidH st.host) (hn : hget st.host e = some n)
    (hch : n.childIds = []) (hc : n.content = s) :
    (setElementTextS e s st).host = st.host := by
  unfold setElementTextS
  simp only [emitT_host]
  rw [hn]
  dsimp only
  rw [hch, List.foldl_nil]
  unfold hmod
  rw [hn]
  dsimp only
  have hfn : { n with content := s, childIds := [] } = n := by
    rw [← hc, ← hch]
  rw [hfn]
  exact hset_same st.host e n hv hn

theorem samePost_setText (e : Nat) (s : String) (st : RState) (n : HNode)
    (hv : ValidH st.host) (hn : hget st.host e = some n)
    (hch : n.childIds = []) (hc : n.content = s) :
    SamePost st (setElementTextS e s st) := by
  refine ⟨setElementTextS_same e s st n hv hn hch hc, rfl,
    [.hop (.setElementText e s)], rfl, ?_⟩
  intro t hm
  rcases List.mem_singleton.mp hm with rfl
  refine ⟨e, s, rfl, ?_⟩
  unfold contentOf
  rw [hn]
  simp [hc]

theorem pget_mem_nodup {ps : PList} (hnd : (ps.map Prod.fst).Nodup)
    {kv : String × JVal} (hm : kv ∈ ps) : pget ps kv.1 = kv.2 := by
  induction ps with
  | nil => simp at hm
  | cons hd tl ih =>
    rw [List.map_cons, List.nodup_cons] at hnd
    rcases List.mem_cons.mp hm with rfl | hm
    · unfold pget
      rw [List.find?_cons_of_pos _ (by simp)]
    · have hne : hd.1 ≠ kv.1 := by
        intro hx
        exact hnd.1 (hx ▸ List.mem_map.mpr ⟨kv, hm, rfl⟩)
      unfold pget
      rw [List.find?_cons_of_neg _ (by simpa using hne)]
      exact ih hnd.2 hm

theorem pmem_of_mem {ps : PList} {kv : String × JVal} (hm : kv ∈ ps) :
    pmem ps kv.1 = true :=
  List.any_eq_true.mpr ⟨kv, hm, by simp⟩

theorem newPropsLoop_same (e : Nat) (ps : PList)
    (hnd : (ps.map Prod.fst).Nodup) :
    ∀ (rest : PList) (st : RState), (∀ kv ∈ rest, kv ∈ ps) →
      newPropsLoop e (some ps) rest st = .ok st := by
  intro rest
  induction rest with
  | nil => intro st hs; rfl
  | cons kv rest ih =>
    intro st hs
    rw [newPropsLoop]
    rw [pget_mem_nodup hnd (hs kv (List.mem_cons_self _ _))]
    rw [if_neg (by simp)]
    exact ih st (fun x hx => hs x (List.mem_cons_of_mem _ hx))

theorem oldPropsLoop_same (e : Nat) (ps : PList) :
    ∀ (rest : PList) (st : RState), (∀ kv ∈ rest, kv ∈ ps) →
      oldPropsLoop e (some ps) rest st = .ok st := by
  intro rest
  induction rest with
  | nil => intro st hs; rfl
  | cons kv rest ih =>
    intro st hs
    rw [oldPropsLoop]
    rw [pmem_of_mem (hs kv (List.mem_cons_self _ _)), if_pos rfl]
    exact ih st (fun x hx => hs x (List.mem_cons_of_mem _ hx))

theorem list_set_get_same {α : Type} :
    ∀ (l : List α) (k : Nat) (v : α), l.get? k = some v → l.set k v = l := by
  intro l
  induction l with
  | nil => intro k v h; simp at h
  | cons hd tl ih =>
    intro k v h
    cases k with
    | zero =>
      simp only [List.get?] at h
      injection h with h
      rw [h]
      rfl
    | succ k =>
      simp only [List.get?] at h
      rw [List.set_cons_succ, ih k v h]

theorem jset_same {l : List VNode} {i : Int} {v : VNode}
    (h : jget l i = some v) : jset l i v = l := by
  unfold jget at h
  unfold jset
  by_cases hi : (0 : Int) ≤ i
  · rw [if_pos hi] at h
    rw [if_pos hi, list_set_get_same l i.toNat v h]
  · rw [if_neg hi] at h
    simp at h

theorem jget_mem {l : List VNode} {i : Int} {v : VNode}
    (h : jget l i = some v) : v ∈ l := by
  unfold jget at h
  by_cases hi : (0 : Int) ≤ i
  · rw [if_pos hi] at h
    exact List.get?_mem h
  · rw [if_neg hi] at h
    simp at h

theorem jget_none_ge {l : List VNode} {i : Int} (hi : 0 ≤ i)
    (h : jget l i = none) : (l.length : Int) ≤ i := by
  unfold jget at h
  rw [if_pos hi] at h
  have h2 := List.get?_eq_none.mp h
  omega

theorem jget_some_lt {l : List VNode} {i : Int} {v : VNode} (hi : 0 ≤ i)
    (h : jget l i = some v) : i < (l.length : Int) := by
  unfold jget at h
  rw [if_pos hi] at h
  by_contra hcon
  rw [List.get?_eq_none.mpr (by omega)] at h
  exact Option.noConfusion h

theorem SubL_mem {h : Host} {cs : List VNode} {p : Nat} (hs : SubL h cs p)
    {w : VNode} (hm : w ∈ cs) : Sub h w p := by
  induction cs with
  | nil => simp at hm
  | cons c cs ih =>
    cases hs with
    | cons _ _ _ h1 h2 =>
      rcases List.mem_cons.mp hm with rfl | hm
      · exact h1
      · exact ih h2 hm

theorem preLoopF_same (pf : PatchFn)
    (hpf : ∀ w p c st r, Sub st.host w p → ValidH st.host →
      pf (some w) w c none st = .ok r → r.1 = w ∧ SamePost st r.2)
    (cs : List VNode) (e : Nat) (c : Nat) :
    ∀ (k : Nat) (i : Int) (st : RState) (r : Int × List VNode × RState),
      SubL st.host cs e → ValidH st.host → 0 ≤ i →
      preLoopF pf cs c k cs i st = .ok r →
      r.1 = max i (cs.length : Int) ∧ r.2.1 = cs ∧ SamePost st r.2.2 := by
  intro k
  induction k with
  | zero =>
    intro i st r _ _ _ h
    simp [preLoopF] at h
  | succ k ih =>
    intro i st r hsub hv hi h
    rw [preLoopF] at h
    cases hj : jget cs i with
    | none =>
      rw [hj] at h
      dsimp only at h
      obtain ⟨w1, w2, w3⟩ := r
      injection Except.ok.inj h with e1 e2
      injection e2 with e2 e3
      subst e1
      subst e2
      subst e3
      have hge := jget_none_ge hi hj
      refine ⟨?_, rfl, samePost_refl st⟩
      omega
    | some w =>
      rw [hj] at h
      dsimp only at h
      rw [if_pos rfl] at h
      rw [andThen2_eq_ok] at h
      obtain ⟨w', s2, hw, h⟩ := h
      have hsubw : Sub st.host w e := SubL_mem hsub (jget_mem hj)
      obtain ⟨hw1, hSP⟩ := hpf w e c st (w', s2) hsubw hv hw
      have hw1' : w' = w := hw1
      subst hw1'
      rw [jset_same hj] at h
      have hlt := jget_some_lt hi hj
      have hHost := hSP.1
      have ihr := ih (i + 1) s2 r (by rw [hHost]; exact hsub)
        (by rw [hHost]; exact hv) (by omega) h
      refine ⟨?_, ihr.2.1, samePost_trans hSP ihr.2.2⟩
      rw [ihr.1]
      omega

theorem sufLoopF_self (pf : PatchFn) (cs : List VNode) (c : Nat) (k : Nat)
    (newC : List VNode) (st : RState) :
    sufLoopF pf cs c (cs.length : Int) (k + 1) newC
      ((cs.length : Int) - 1) ((cs.length : Int) - 1) st
      = .ok ((cs.length : Int) - 1, (cs.length : Int) - 1, newC, st) := by
  rw [sufLoopF]
  cases hj : jget cs ((cs.length : Int) - 1) with
  | none => rfl
  | some w =>
    cases hj2 : jget newC ((cs.length : Int) - 1) with
    | none => rfl
    | some w2 =>
      dsimp only
      rw [if_neg]
      intro hcon
      obtain ⟨h1, _⟩ := hcon
      simp only [min_self] at h1
      omega

theorem fastDiffStep_same (pf : PatchFn) (um : UnmountFn)
    (hpf : ∀ w p c st r, Sub st.host w p → ValidH st.host →
      pf (some w) w c none st = .ok r → r.1 = w ∧ SamePost st r.2)
    (v : VNode) (cs : List VNode) (e : Nat) (c : Nat) (st : RState)
    (r : List VNode × RState)
    (hchv : childArr v.children = cs)
    (hsub : SubL st.host cs e) (hv : ValidH st.host)
    (h : fastDiffStep pf um v v c st = .ok r) :
    r.1 = cs ∧ SamePost st r.2 := by
  unfold fastDiffStep at h
  rw [hchv] at h
  dsimp only at h
  rw [andThenE_eq_ok] at h
  obtain ⟨r1, hpre, h⟩ := h
  obtain ⟨hp1, hp2, hp3⟩ := preLoopF_same pf hpf cs e c _ 0 st r1 hsub hv
    (le_refl 0) hpre
  obtain ⟨i1, nc1, st1⟩ := r1
  simp only at hp1 hp2
  rw [hp2] at h
  have hi1 : i1 = (cs.length : Int) := by
    rw [hp1]
    omega
  subst hi1
  rw [andThenE_eq_ok] at h
  obtain ⟨r2, hsuf, h⟩ := h
  rw [sufLoopF_self pf cs c (cs.length + cs.length) cs st1] at hsuf
  obtain ⟨o1, n1, nc2, st2⟩ := r2
  injection Except.ok.inj hsuf with e1 e2
  injection e2 with e2 e3
  injection e3 with e3 e4
  subst e1
  subst e2
  subst e3
  subst e4
  dsimp only at h
  rw [if_neg (by rintro ⟨_, hcon⟩; omega)] at h
  rw [if_neg (by rintro ⟨hcon, _⟩; omega)] at h
  rw [if_pos (by omega)] at h
  obtain ⟨rc, rst⟩ := r
  injection Except.ok.inj h with e1 e2
  subst e1
  subst e2
  exact ⟨rfl, hp3⟩

theorem patchElementStep_same (pf : PatchFn) (um : UnmountFn)
    (fdiff : VNode → VNode → Nat → RState → Except String (List VNode × RState))
    (t : VType) (props : Option PList) (ch : VChild) (key : JVal) (e : Nat)
    (st : RState) (r : VNode × RState)
    (hnd : PNodup props)
    (hch : ∀ r2, patchChildrenStep pf um fdiff
        (.mk t props ch key (some e) none) (.mk t props ch key (some e) none)
        e st = .ok r2 → r2.1 = ch ∧ SamePost st r2.2)
    (h : patchElementStep pf um fdiff (.mk t props ch key (some e) none)
        (.mk t props ch key (some e) none) st = .ok r) :
    r.1 = VNode.mk t props ch key (some e) none ∧ SamePost st r.2 := by
  unfold patchElementStep at h
  simp only [VNode.el, VNode.props] at h
  cases props with
  | none =>
    dsimp only [andThen1] at h
    rw [andThen2_eq_ok] at h
    obtain ⟨ch2, s2, h2, h⟩ := h
    obtain ⟨hc2, hsp⟩ := hch (ch2, s2) h2
    dsimp only at hc2
    subst hc2
    obtain ⟨r1, r2⟩ := r
    injection Except.ok.inj h with e1 e2
    subst e1
    subst e2
    exact ⟨rfl, hsp⟩
  | some ps =>
    have hnd2 : (List.map Prod.fst ps).Nodup := hnd
    dsimp only at h
    rw [newPropsLoop_same e ps hnd2 ps st (fun kv hk => hk)] at h
    dsimp only [andThen1] at h
    rw [oldPropsLoop_same e ps ps st (fun kv hk => hk)] at h
    dsimp only [andThen1] at h
    rw [andThen2_eq_ok] at h
    obtain ⟨ch2, s2, h2, h⟩ := h
    obtain ⟨hc2, hsp⟩ := hch (ch2, s2) h2
    dsimp only at hc2
    subst hc2
    obtain ⟨r1, r2⟩ := r
    injection Except.ok.inj h with e1 e2
    subst e1
    subst e2
    exact ⟨rfl, hsp⟩

/-- Re-patching a mounted vnode against itself changes nothing observable:
the result is the very same vnode and the state satisfies SamePost (host
and instance counter untouched, only redundant same-text setElementText
operations appended to the trace). -/
theorem patchR_same : ∀ (f : Nat) (v : VNode) (p c : Nat) (st : RState)
    (r : VNode × RState),
    Sub st.host v p → ValidH st.host →
    patchR f (some v) v c none st = .ok r →
    r.1 = v ∧ SamePost st r.2 := by
  intro f
  induction f with
  | zero =>
    intro v p c st r _ _ h
    exact Except.noConfusion h
  | succ f ih =>
    intro v p c st r hsub hv h
    rw [patchR] at h
    simp only [patchStep] at h
    rw [if_neg (fun hx => hx (VType.same_refl _))] at h
    cases hsub with
    | tagArr t props cs key e n p2 hnd hg hk hpar hchd hsl =>
      simp only [patchCore, VNode.type] at h
      refine patchElementStep_same _ _ _ _ props _ key e st r hnd ?_ h
      intro r2 h2
      unfold patchChildrenStep at h2
      simp only [VNode.children] at h2
      rw [andThen2_eq_ok] at h2
      obtain ⟨ncs, s3, hf, h2⟩ := h2
      obtain ⟨hncs, hsp⟩ := fastDiffStep_same (patchR f) (unmountR (f + 1)) ih
        (.mk (.tag t) props (.arr cs) key (some e) none) cs e e st (ncs, s3)
        rfl hsl hv hf
      subst hncs
      obtain ⟨r21, r22⟩ := r2
      injection Except.ok.inj h2 with e1 e2
      subst e1
      subst e2
      exact ⟨rfl, hsp⟩
    | tagOther t props ch key e n p2 hnd hne hg hk hpar hchd hct =>
      simp only [patchCore, VNode.type] at h
      refine patchElementStep_same _ _ _ _ props _ key e st r hnd ?_ h
      intro r2 h2
      unfold patchChildrenStep at h2
      simp only [VNode.children] at h2
      cases ch with
      | arr cs => exact absurd rfl (hne cs)
      | nothing =>
        dsimp only [notEmptyC] at h2
        rw [if_neg (by simp)] at h2
        obtain ⟨r21, r22⟩ := r2
        injection Except.ok.inj h2 with e1 e2
        subst e1
        subst e2
        exact ⟨rfl, samePost_refl st⟩
      | text s =>
        dsimp only [notEmptyC] at h2
        rw [if_pos rfl] at h2
        dsimp only [andThen1, childText] at h2
        obtain ⟨r21, r22⟩ := r2
        injection Except.ok.inj h2 with e1 e2
        subst e1
        subst e2
        exact ⟨rfl, samePost_setText e s st n hv hg hchd hct⟩
      | slots ss =>
        dsimp only [notEmptyC] at h2
        rw [if_pos rfl] at h2
        dsimp only [andThen1, childText] at h2
        obtain ⟨r21, r22⟩ := r2
        injection Except.ok.inj h2 with e1 e2
        subst e1
        subst e2
        exact ⟨rfl, samePost_setText e "[object Object]" st n hv hg hchd hct⟩
    | textS props ch key e n p2 hnd hph hg hk hpar hchd hct =>
      simp only [patchCore, VNode.type, VNode.el, VNode.children] at h
      have hco : contentOf st.host e = some (childText ch) := by
        unfold contentOf
        rw [hg]
        simp [hct]
      rw [if_neg (fun hx => hx hco)] at h
      obtain ⟨r1, r2⟩ := r
      injection Except.ok.inj h with e1 e2
      subst e1
      subst e2
      exact ⟨rfl, samePost_refl st⟩
    | commentS props ch key e n p2 hnd hph hg hk hpar hchd hct =>
      simp only [patchCore, VNode.type, VNode.el, VNode.children] at h
      have hco : contentOf st.host e = some (childText ch) := by
        unfold contentOf
        rw [hg]
        simp [hct]
      rw [if_neg (fun hx => hx hco)] at h
      obtain ⟨r1, r2⟩ := r
      injection Except.ok.inj h with e1 e2
      subst e1
      subst e2
      exact ⟨rfl, samePost_refl st⟩
    | fragS props cs key p2 hnd hsl =>
      simp only [patchCore, VNode.type] at h
      rw [andThen2_eq_ok] at h
      obtain ⟨ch2, s2, h2, h⟩ := h
      unfold patchChildrenStep at h2
      simp only [VNode.children] at h2
      rw [andThen2_eq_ok] at h2
      obtain ⟨ncs, s3, hf, h2⟩ := h2
      obtain ⟨hncs, hsp⟩ := fastDiffStep_same (patchR f) (unmountR (f + 1)) ih
        (.mk .fragmentT props (.arr cs) key none none) cs p c st (ncs, s3)
        rfl hsl hv hf
      subst hncs
      injection Except.ok.inj h2 with e1 e2
      subst e1
      subst e2
      dsimp only at h
      obtain ⟨r1, r2⟩ := r
      injection Except.ok.inj h with e1 e2
      subst e1
      subst e2
      exact ⟨rfl, hsp⟩
    | compS o props ch key inst w p2 hnd hne hsubT hsubw =>
      simp only [patchCore, VNode.type] at h
      obtain ⟨r1, r2⟩ := r
      injection Except.ok.inj h with e1 e2
      subst e1
      subst e2
      exact ⟨rfl, samePost_refl st⟩
    | funcS fid props ch key p2 hnd hne =>
      simp only [patchCore, VNode.type] at h
      obtain ⟨r1, r2⟩ := r
      injection Except.ok.inj h with e1 e2
      subst e1
      subst e2
      exact ⟨rfl, samePost_refl st⟩

/-- Counterexample recorded for C4: rendering the div-with-text vnode and
then rendering the very same stored vnode again ends with five
host-adapter operations in the trace while the initial mount alone issues
four: the second render re-emits setElementText(el, "hi") although
nothing changed, because patchChildren writes the text child
unconditionally. So the literal claim (zero adapter mutations beyond the
mount) is false. -/
theorem c4_second_render_reissues_set_element_text :
    (andThen2 (render 2 (some exDivHi) 0 none initState)
        (fun v1 st1 => render 2 v1 0 v1 st1)).map
      (fun r => (r.2.trace.filter TItem.isHostOp).length) = .ok 5 ∧
    (render 2 (some exDivHi) 0 none initState).map
      (fun r => (r.2.trace.filter TItem.isHostOp).length) = .ok 4 :=
  ⟨rfl, rfl⟩

/-- C4, amended. The claim reads: a second render(v, c) with the same v
issues zero host-adapter mutations beyond the initial mount. The literal
form is refuted by c4_second_render_reissues_set_element_text: the text
branch of patchChildren re-issues setElementText every time. What does
hold, proved here: the second render of the stored vnode returns that
vnode unchanged and satisfies SamePost, i.e. the host tree is exactly as
the mount left it, no component instance is allocated, and every adapter
call the second render emits is a setElementText that rewrites a node's
existing text with the same string; in particular no createElement,
insert, patchProp or removeChild is issued. -/
theorem c4_second_render_same_vnode (f g : Nat) (v : VNode)
    (v1 : Option VNode) (st1 : RState) (r2 : Option VNode × RState)
    (hclean : Clean v)
    (h1 : render f (some v) 0 none initState = .ok (v1, st1))
    (h2 : render g v1 0 v1 st1 = .ok r2) :
    r2.1 = v1 ∧ SamePost st1 r2.2 := by
  simp only [render] at h1
  rw [andThen2_eq_ok] at h1
  obtain ⟨w, s1, hp1, heq1⟩ := h1
  injection Except.ok.inj heq1 with e1 e2
  subst e1
  subst e2
  have MP : MountPost initState 0 w s1 :=
    patchR_mount_post f v 0 initState (w, s1) hclean
      ⟨by simp [initState], by simp [initState]⟩ Nat.one_pos hp1
  simp only [render] at h2
  rw [andThen2_eq_ok] at h2
  obtain ⟨w2, s2, hp2, heq2⟩ := h2
  obtain ⟨hw2, hsp⟩ := patchR_same g w 0 0 s1 (w2, s2) MP.sub MP.valid hp2
  obtain ⟨r21, r22⟩ := r2
  injection Except.ok.inj heq2 with e1 e2
  subst e1
  subst e2
  have hw2x : w2 = w := hw2
  subst hw2x
  exact ⟨rfl, hsp⟩

/-- Witness for C4: the concrete double render of the div with the text
child "hi". The second render returns the stored vnode itself and the
extra trace is the single redundant setElementText. -/
theorem c4_second_render_same_vnode_witness :
    Clean exDivHi ∧
    render 2 (some exDivHi) 0 none initState =
      .ok (some (VNode.mk (.tag "div") (some [("id", JVal.str "x")])
        (.text "hi") .undef (some 1) none),
        (RState.mk (Host.mk 2 [(0, HNode.mk (.elem "root") "" [1] none),
        (1, HNode.mk (.elem "div") "hi" [] (some 0))])
      [TItem.hop (.createElement 1 "div"), TItem.hop (.setElementText 1 "hi"),
        TItem.hop (.patchProp (some 1) "id" .null (.str "x")),
        TItem.hop (.insert 1 0 none)] 0)) ∧
    render 2
      (some (VNode.mk (.tag "div") (some [("id", JVal.str "x")])
        (.text "hi") .undef (some 1) none)) 0
      (some (VNode.mk (.tag "div") (some [("id", JVal.str "x")])
        (.text "hi") .undef (some 1) none))
      (RState.mk (Host.mk 2 [(0, HNode.mk (.elem "root") "" [1] none),
        (1, HNode.mk (.elem "div") "hi" [] (some 0))])
      [TItem.hop (.createElement 1 "div"), TItem.hop (.setElementText 1 "hi"),
        TItem.hop (.patchProp (some 1) "id" .null (.str "x")),
        TItem.hop (.insert 1 0 none)] 0) =
      .ok (some (VNode.mk (.tag "div") (some [("id", JVal.str "x")])
        (.text "hi") .undef (some 1) none),
        (RState.mk (Host.mk 2 [(0, HNode.mk (.elem "root") "" [1] none),
        (1, HNode.mk (.elem "div") "hi" [] (some 0))])
      [TItem.hop (.createElement 1 "div"), TItem.hop (.setElementText 1 "hi"),
        TItem.hop (.patchProp (some 1) "id" .null (.str "x")),
        TItem.hop (.insert 1 0 none), TItem.hop (.setElementText 1 "hi")] 0)) ∧
    ((some (VNode.mk (.tag "div") (some [("id", JVal.str "x")])
        (.text "hi") .undef (some 1) none),
        (RState.mk (Host.mk 2 [(0, HNode.mk (.elem "root") "" [1] none),
        (1, HNode.mk (.elem "div") "hi" [] (some 0))])
      [TItem.hop (.createElement 1 "div"), TItem.hop (.setElementText 1 "hi"),
        TItem.hop (.patchProp (some 1) "id" .null (.str "x")),
        TItem.hop (.insert 1 0 none), TItem.hop (.setElementText 1 "hi")] 0)) :
        Option VNode × RState).1 =
      some (VNode.mk (.tag "div") (some [("id", JVal.str "x")])
        (.text "hi") .undef (some 1) none) ∧
    SamePost
      (RState.mk (Host.mk 2 [(0, HNode.mk (.elem "root") "" [1] none),
        (1, HNode.mk (.elem "div") "hi" [] (some 0))])
      [TItem.hop (.createElement 1 "div"), TItem.hop (.setElementText 1 "hi"),
        TItem.hop (.patchProp (some 1) "id" .null (.str "x")),
        TItem.hop (.insert 1 0 none)] 0)
      (RState.mk (Host.mk 2 [(0, HNode.mk (.elem "root") "" [1] none),
        (1, HNode.mk (.elem "div") "hi" [] (some 0))])
      [TItem.hop (.createElement 1 "div"), TItem.hop (.setElementText 1 "hi"),
        TItem.hop (.patchProp (some 1) "id" .null (.str "x")),
        TItem.hop (.insert 1 0 none), TItem.hop (.setElementText 1 "hi")] 0) :=
  have hcl : Clean exDivHi :=
    Clean.mk _ _ _ _ (by simp [PNodup]) (CleanC.text "hi") (CleanT.tag "div")
      (by intro hx; simp [slotsOnly] at hx)
  have hres := c4_second_render_same_vnode 2 2 exDivHi
    (some (VNode.mk (.tag "div") (some [("id", JVal.str "x")])
        (.text "hi") .undef (some 1) none))
    (RState.mk (Host.mk 2 [(0, HNode.mk (.elem "root") "" [1] none),
        (1, HNode.mk (.elem "div") "hi" [] (some 0))])
      [TItem.hop (.createElement 1 "div"), TItem.hop (.setElementText 1 "hi"),
        TItem.hop (.patchProp (some 1) "id" .null (.str "x")),
        TItem.hop (.insert 1 0 none)] 0)
    (some (VNode.mk (.tag "div") (some [("id", JVal.str "x")])
        (.text "hi") .undef (some 1) none),
      (RState.mk (Host.mk 2 [(0, HNode.mk (.elem "root") "" [1] none),
        (1, HNode.mk (.elem "div") "hi" [] (some 0))])
      [TItem.hop (.createElement 1 "div"), TItem.hop (.setElementText 1 "hi"),
        TItem.hop (.patchProp (some 1) "id" .null (.str "x")),
        TItem.hop (.insert 1 0 none), TItem.hop (.setElementText 1 "hi")] 0))
    hcl rfl rfl
  ⟨hcl, rfl, rfl, hres.1, hres.2⟩

/-- C3: the claim is that getSequence, applied to a phase-4 source array
(seeded with -1 for holes, old indices elsewhere), returns index
positions of a longest strictly increasing subsequence in which the -1
hole positions cannot appear. The source array [1, 0, -1] arises from
diffing old keyed children [b, a] against new [a, b, c] (position 0
matched old index 1, position 1 matched old index 0, position 2 is a
hole). getSequence skips entries equal to 0, not -1, so it returns [2]:
position 2, which holds the -1 hole, is in the answer, while position 1
(a genuine old index, of value 0) has been dropped as if it were a
hole. -/
theorem c3_getSequence_includes_hole_position :
    getSequence [1, 0, -1] = .ok [2] ∧
    agetI [1, 0, -1] 2 = some (-1) ∧
    agetI [1, 0, -1] 1 = some 0 :=
  ⟨rfl, rfl, rfl⟩

/-- C5: the claim is that reading the key dollar-slots on the render
context returns the slots mapping and never fails, while other absent
names log an error and yield undefined. In the source, the branch that
should recognise that key compares the undeclared identifier k, so every
read that falls through state, props and setupState throws a
ReferenceError instead: both halves of the claim fail. -/
theorem c5_render_context_get_throws :
    renderContextGet none [] none "$slots"
      = .error "ReferenceError: k is not defined" ∧
    renderContextGet (some [("a", .num 1)]) [("b", .num 2)]
        (some [("c", .num 3)]) "other"
      = .error "ReferenceError: k is not defined" :=
  ⟨rfl, rfl⟩

/-- C9 counterexample: the claim says emit with no matching handler
returns without throwing for every event, but emit of the empty event
name throws a TypeError while computing event[0].toUpperCase(), before
the handler lookup, even though instance.props contains no handler. -/
theorem c9_emit_empty_event_throws :
    emit [] "" = .error "TypeError: cannot read toUpperCase of undefined" :=
  rfl

/-- C9 amended: for every nonempty event name whose derived on-handler
key is not a truthy entry of instance.props, emit logs exactly one
warning, invokes no handler, does not throw, and (being a pure read of
the instance) leaves props, state and subTree unchanged. -/
theorem c9_emit_without_handler_warns (props : PList) (c : Char)
    (rest : List Char) (event : String) (hev : event.toList = c :: rest)
    (hno : (pget props ("on" ++ String.mk (c.toUpper :: rest))).truthy = false) :
    emit props event =
      .ok (["missing handler for " ++ ("on" ++ String.mk (c.toUpper :: rest))],
        none) := by
  unfold emit
  rw [hev]
  simp [hno]

/-- Witness for the amended C9 at the concrete event change and empty
props. -/
theorem c9_emit_without_handler_warns_witness :
    emit [] "change" = .ok (["missing handler for onChange"], none) :=
  c9_emit_without_handler_warns [] 'c' "hange".toList "change" rfl rfl

/-- C1: the claim says that re-patching a component vnode (old vnode
present, same descriptor) carries the instance to the new vnode and,
when hasPropsChanged holds, updates instance.props and re-renders once.
In the source, the component arm of patch handles only the mount case
(there is no else branch and patchComponent is never invoked), so the
patch returns with the state completely unchanged: no trace entry, no
host change, and the new vnode still carries whatever component field it
arrived with, not the old instance. -/
theorem c1_component_repatch_does_nothing (f : Nat) (ov nv : VNode)
    (o : COpts) (c : Nat) (a : Option Nat) (st : RState)
    (hov : ov.type = .comp o) (hnv : nv.type = .comp o)
    (hch : hasPropsChanged (ov.props.getD []) (nv.props.getD []) = true) :
    patchR (f + 1) (some ov) nv c a st = .ok (nv, st) := by
  obtain ⟨t1, p1, ch1, k1, e1, cm1⟩ := ov
  obtain ⟨t2, p2, ch2, k2, e2, cm2⟩ := nv
  simp only [VNode.type] at hov hnv
  subst hov; subst hnv
  show patchStep _ _ _ _ _ _ _ _ = _
  simp [patchStep, patchCore, VType.same, VNode.type]

/-- Witness for C1: the title prop changed (hasPropsChanged is true),
yet the re-patch leaves the renderer state untouched and carries no
instance onto the new vnode (its component field stays none). -/
theorem c1_component_repatch_does_nothing_witness :
    hasPropsChanged (exComp1.props.getD []) (exComp2.props.getD []) = true ∧
    patchR 1 (some exComp1) exComp2 0 none initState
      = .ok (exComp2, initState) ∧
    exComp2.component = none :=
  ⟨rfl,
    c1_component_repatch_does_nothing 0 exComp1 exComp2 exTitleOpts 0 none
      initState rfl rfl rfl,
    rfl⟩

/-- C6: the claim says a vnode whose type is a function is routed to the
component runtime and mounted. The dispatch in patch tests for a string
tag, the three sentinels, and typeof object; a function type matches
none of these branches, so patch returns with the state untouched and
nothing is instantiated or mounted. (The repository's own demo renders
such a vnode, and unmount has a dedicated function-component branch, so
mounting is clearly intended.) -/
theorem c6_function_component_ignored (f : Nat) (nv : VNode) (fid : Nat)
    (c : Nat) (a : Option Nat) (st : RState)
    (hnv : nv.type = .funcComp fid) :
    patchR (f + 1) none nv c a st = .ok (nv, st) := by
  obtain ⟨t2, p2, ch2, k2, e2, cm2⟩ := nv
  simp only [VNode.type] at hnv
  subst hnv
  show patchStep _ _ _ _ _ _ _ _ = _
  simp [patchStep, patchCore, VNode.type]

/-- Witness for C6 at the demo-like function component: mounting it
leaves the renderer state untouched (no host node, no trace entry). -/
theorem c6_function_component_ignored_witness :
    patchR 1 none exFunc 0 none initState = .ok (exFunc, initState) :=
  c6_function_component_ignored 0 exFunc 7 0 none initState rfl

/-- C2: the claim says that when the old children are exhausted first
(i > oldEnd, i ≤ newEnd) the remaining new children are mounted before
newC[newEnd + 1].el, or before null when newEnd + 1 is past the end; in
particular diffing [] against [a, b, c] mounts three nodes. The source
computes the anchor under the bound anchorIdx < newChildren.length + 1
(instead of < newChildren.length, the bound it uses correctly in phase
4), so whenever newEnd + 1 equals the new length - which is exactly the
diff of [] against [a, b, c] - it evaluates newChildren[anchorIdx].el of
an undefined element and the whole diff throws a TypeError instead of
mounting anything. -/
theorem c2_fastdiff_tail_mount_throws (pf : PatchFn) (um : UnmountFn)
    (ov nv : VNode) (cs : List VNode) (container : Nat) (st : RState)
    (hov : ov.children = .arr []) (hnv : nv.children = .arr cs)
    (hne : cs ≠ []) :
    fastDiffStep pf um ov nv container st
      = .error "TypeError: reading el of undefined" := by
  have hlen : 1 ≤ cs.length := List.length_pos.mpr hne
  have h1 : preLoopF pf [] container (cs.length + 1) cs 0 st
      = .ok (0, cs, st) := by
    simp [preLoopF, jget]
  have h2 : ∀ oe ne, sufLoopF pf [] container 0 (cs.length + 1) cs oe ne st
      = .ok (oe, ne, cs, st) := by
    intro oe ne; simp [sufLoopF, jget]
  have h3 : jget cs ((cs.length : Int) - 1 + 1) = none := by
    rw [show ((cs.length : Int) - 1 + 1) = (cs.length : Int) by omega]
    simp [jget, List.get?_eq_none]
  unfold fastDiffStep
  rw [hov, hnv]
  simp only [childArr, List.length_nil, Nat.cast_zero, Nat.zero_add, zero_add]
  rw [h1, andThenE_ok]
  simp only []
  rw [h2, andThenE_ok]
  simp only []
  rw [if_pos (by constructor <;> omega :
    ((0 : Int) > 0 - 1 ∧ (0 : Int) ≤ (cs.length : Int) - 1))]
  rw [if_pos (by omega : ((cs.length : Int) - 1 + 1) < (cs.length : Int) + 1)]
  rw [h3]
  rfl

/-- Witness for C2 at the concrete diff of [] against the keyed children
[a, b, c], as run by the children reconciler. -/
theorem c2_fastdiff_tail_mount_throws_witness :
    fastDiffStep (patchR 10) (unmountR 10) exEmptyList exABC 0 initState
      = .error "TypeError: reading el of undefined" :=
  c2_fastdiff_tail_mount_throws (patchR 10) (unmountR 10) exEmptyList exABC
    [exKeyed "a", exKeyed "b", exKeyed "c"] 0 initState rfl rfl
    (by simp [exKeyed])

/-- C10: mounting a component whose options define no render function
and whose setup does not return a function succeeds: the fallback render
producing a Comment vnode with empty text is installed, the instance's
subTree is that Comment vnode (decorated with the freshly created host
comment node, which carries empty text in the host), and the instance
ends up mounted. -/
theorem c10_missing_render_falls_back_to_comment (f : Nat) (o : COpts)
    (ch : VChild) (key : JVal) (c : Nat) (a : Option Nat) (st : RState)
    (hrender : o.renderOpt = none)
    (hsetup : ∀ b, o.setupResult ≠ .renderFn b)
    (hv : ValidH st.host) (hc : c < st.host.nextId) :
    ∃ inst st',
      patchR (f + 2) none (.mk (.comp o) none ch key none none) c a st
        = .ok (.mk (.comp o) none ch key none (some inst), st') ∧
      inst.subTree = some (fallbackRender.withEl (some st.host.nextId)) ∧
      inst.isMounted = true ∧
      (hget st'.host st.host.nextId).map HNode.kind = some HKind.commentN ∧
      contentOf st'.host st.host.nextId = some "" := by
  have hsub : ∀ (st5 : RState), st5.host = st.host →
      (some (fallbackRender.withEl (some st5.host.nextId))
        : Option VNode) = some (fallbackRender.withEl (some st.host.nextId)) := by
    intro st5 hh5
    rw [hh5]
  have hfact : ∀ (st5 : RState), st5.host = st.host →
      ∀ (b : Bool) (cbs2 : List Nat) (t : TItem) (g : Nat → TItem),
      (hget (if b then emitT (List.foldl (fun s cb => emitT s (g cb))
            (insertS st5.host.nextId c none (createCommentS "" st5).2) cbs2) t
          else List.foldl (fun s cb => emitT s (g cb))
            (insertS st5.host.nextId c none (createCommentS "" st5).2) cbs2).host
        st.host.nextId).map HNode.kind = some HKind.commentN ∧
      contentOf (if b then emitT (List.foldl (fun s cb => emitT s (g cb))
            (insertS st5.host.nextId c none (createCommentS "" st5).2) cbs2) t
          else List.foldl (fun s cb => emitT s (g cb))
            (insertS st5.host.nextId c none (createCommentS "" st5).2) cbs2).host
        st.host.nextId = some "" := by
    intro st5 hh5 b cbs2 t g
    have hm := commentMount_host st5 c (hh5 ▸ hv) (hh5 ▸ hc)
    rw [show st.host.nextId = st5.host.nextId by rw [hh5]]
    constructor
    · rw [if_emit_host, foldl_emit_host (fun cb => g cb), hm]
      rfl
    · unfold contentOf
      rw [if_emit_host, foldl_emit_host (fun cb => g cb), hm]
      rfl
  obtain ⟨did, po, hd, ds, hs, cbs, sr, ro, b1, b2, b3, b4, b5, b6⟩ := o
  simp only [COpts.renderOpt] at hrender
  simp only [COpts.setupResult] at hsetup
  subst hrender
  cases hs with
  | false =>
    refine ⟨_, _, rfl, hsub _ (by simp [COpts.hasSetup, COpts.renderOpt, COpts.hasBeforeCreate, COpts.hasCreated, COpts.hasBeforeMount, COpts.setupResult]), rfl, (hfact _ (by simp [COpts.hasSetup, COpts.renderOpt, COpts.hasBeforeCreate, COpts.hasCreated, COpts.hasBeforeMount, COpts.setupResult]) _ _ _ _).1,
      (hfact _ (by simp [COpts.hasSetup, COpts.renderOpt, COpts.hasBeforeCreate, COpts.hasCreated, COpts.hasBeforeMount, COpts.setupResult]) _ _ _ _).2⟩
  | true =>
    cases sr with
    | renderFn b => exact absurd rfl (hsetup b)
    | objRes l =>
      refine ⟨_, _, rfl, hsub _ (by simp [COpts.hasSetup, COpts.renderOpt, COpts.hasBeforeCreate, COpts.hasCreated, COpts.hasBeforeMount, COpts.setupResult]), rfl, (hfact _ (by simp [COpts.hasSetup, COpts.renderOpt, COpts.hasBeforeCreate, COpts.hasCreated, COpts.hasBeforeMount, COpts.setupResult]) _ _ _ _).1,
        (hfact _ (by simp [COpts.hasSetup, COpts.renderOpt, COpts.hasBeforeCreate, COpts.hasCreated, COpts.hasBeforeMount, COpts.setupResult]) _ _ _ _).2⟩
    | nullRes =>
      refine ⟨_, _, rfl, hsub _ (by simp [COpts.hasSetup, COpts.renderOpt, COpts.hasBeforeCreate, COpts.hasCreated, COpts.hasBeforeMount, COpts.setupResult]), rfl, (hfact _ (by simp [COpts.hasSetup, COpts.renderOpt, COpts.hasBeforeCreate, COpts.hasCreated, COpts.hasBeforeMount, COpts.setupResult]) _ _ _ _).1,
        (hfact _ (by simp [COpts.hasSetup, COpts.renderOpt, COpts.hasBeforeCreate, COpts.hasCreated, COpts.hasBeforeMount, COpts.setupResult]) _ _ _ _).2⟩

/-- Witness for C10: the concrete component with setup returning null
(and two onMounted registrations) and no render option mounts an empty
host comment into the empty root container. -/
theorem c10_missing_render_falls_back_to_comment_witness :
    ∃ inst st',
      patchR 2 none (.mk (.comp exCbOpts) none .nothing .undef none none)
          0 none initState
        = .ok (.mk (.comp exCbOpts) none .nothing .undef none (some inst), st') ∧
      inst.subTree = some (fallbackRender.withEl (some initState.host.nextId)) ∧
      inst.isMounted = true ∧
      (hget st'.host initState.host.nextId).map HNode.kind
        = some HKind.commentN ∧
      contentOf st'.host initState.host.nextId = some "" :=
  c10_missing_render_falls_back_to_comment 0 exCbOpts .nothing .undef 0 none
    initState rfl (by intro b; simp [exCbOpts, COpts.setupResult])
    ⟨by decide, by decide⟩ (by decide)

/-- C7: for every component-descriptor vnode whose mount completes,
the onMounted callbacks its setup registered (o.setupCbs, recorded when
o.hasSetup; no callbacks otherwise) appear in the trace exactly once, as
one contiguous block in registration order, attributed to the instance
id this mount allocated (st.nextInst). The block sits after the whole
prefix pre produced by the lifecycle hooks and the complete patch of the
component's subtree - the subtree's insertion into the container
included - and before control returns, with only the mounted-option
event after it. No callback event of this instance can hide inside pre:
every onMounted-callback event there belongs to a strictly later
instance, because the subtree's own components are allocated after this
one. -/
theorem c7_mounted_callbacks_once_in_order (f : Nat) (o : COpts)
    (props : Option PList) (ch : VChild) (key : JVal) (el : Option Nat)
    (cmp : Option CInstance) (c : Nat) (a : Option Nat) (st : RState)
    (r : VNode × RState)
    (hok : patchR (f + 1) none (.mk (.comp o) props ch key el cmp) c a st
        = .ok r) :
    ∃ pre,
      r.2.trace = st.trace ++ pre
          ++ (if o.hasSetup then o.setupCbs else []).map
              (fun cb => TItem.lev (.mountedCbE st.nextInst cb))
          ++ (if o.hasMounted then [TItem.lev (.mountedOptE st.nextInst)]
              else [])
        ∧ ∀ i cb, TItem.lev (.mountedCbE i cb) ∈ pre → st.nextInst < i := by
  simp only [patchR, patchStep, patchCore, VNode.type,
    mountComponentStep] at hok
  rw [andThenE_eq_ok] at hok
  obtain ⟨pa, hra, hok⟩ := hok
  rw [andThen2_eq_ok] at hok
  obtain ⟨sub, s1, hsub, heq⟩ := hok
  rw [← congrArg Prod.snd (Except.ok.inj heq)]
  have hpre : PreSeg st.nextInst st s1 := by
    refine preSeg_mono ?_ (patchR_mono_mount f _ _ _ _ _ hsub)
    refine preSeg_snoc_if ?_ _ _ (by intro i cb; simp)
    refine preSeg_snoc_if ?_ _ _ (by intro i cb; simp)
    cases hs : o.hasSetup
    · refine preSeg_snoc_if ?_ _ _ (by intro i cb; simp)
      exact preSeg_bump _ _ _ (Nat.lt_succ_self _)
    · cases hsr : o.setupResult
      case renderFn b =>
        refine preSeg_snoc_if ?_ _ _ (by intro i cb; simp)
        refine preSeg_snoc_if ?_ _ _ (by intro i cb; simp)
        exact preSeg_bump _ _ _ (Nat.lt_succ_self _)
      all_goals
        refine preSeg_snoc_if ?_ _ _ (by intro i cb; simp)
        exact preSeg_bump _ _ _ (Nat.lt_succ_self _)
  obtain ⟨hlt, pre0, hptr, hpc⟩ := hpre
  refine ⟨pre0, ?_, hpc⟩
  cases hm : o.hasMounted
  · simp [hm, foldl_cb_trace, hptr]
  · simp [hm, foldl_cb_trace, hptr]

/-- Witness for C7: mounting exCbComp (setup registers callbacks 10 and
11, a mounted option is present, no render, so the comment fallback is
mounted) produces the comment-create and insert operations first, then
the two callback events of instance 0 in order, then the mounted-option
event. -/
theorem c7_mounted_callbacks_once_in_order_witness :
    ∃ pre,
      ([.hop (.createComment 1 ""), .hop (.insert 1 0 none),
        .lev (.mountedCbE 0 10), .lev (.mountedCbE 0 11),
        .lev (.mountedOptE 0)] : List TItem)
          = [] ++ pre
            ++ [TItem.lev (.mountedCbE 0 10), TItem.lev (.mountedCbE 0 11)]
            ++ [TItem.lev (.mountedOptE 0)]
        ∧ ∀ i cb, TItem.lev (.mountedCbE i cb) ∈ pre → 0 < i :=
  c7_mounted_callbacks_once_in_order 1 exCbOpts none .nothing .undef none
    none 0 none initState _ rfl

/-- C8: for every container previously rendered into, render(null, c)
unmounts the stored tree completely and stores null: after
render(v, c) mounts a clean vnode into the empty container 0 and
render(null, c) follows, the stored vnode is null and the container has
no remaining child host nodes (its child list is empty, so no host node
is reachable from it). -/
theorem c8_render_null_clears_container (f g : Nat) (v : VNode)
    (v1 : Option VNode) (st1 : RState) (r2 : Option VNode × RState)
    (hclean : Clean v)
    (h1 : render f (some v) 0 none initState = .ok (v1, st1))
    (h2 : render g none 0 v1 st1 = .ok r2) :
    r2.1 = none ∧ childIdsOf r2.2.host 0 = some [] := by
  simp only [render] at h1
  rw [andThen2_eq_ok] at h1
  obtain ⟨v', s1, hp1, heq1⟩ := h1
  injection Except.ok.inj heq1 with e1 e2
  subst e1
  subst e2
  have MP : MountPost initState 0 v' s1 :=
    patchR_mount_post f v 0 initState (v', s1) hclean
      ⟨by simp [initState], by simp [initState]⟩ Nat.one_pos hp1
  have h0 : (0 : Nat) ∉ elsTree v' := by
    intro hx
    exact absurd ((MP.fresh 0 hx).1 : (1 : Nat) ≤ 0) (by decide)
  have hroot : hget initState.host 0
      = some ⟨.elem "root", "", [], none⟩ := rfl
  have hC := MP.contChanged _ hroot
  simp only [render] at h2
  rw [andThen1_eq_ok] at h2
  obtain ⟨s2, hu, heq2⟩ := h2
  obtain ⟨r21, r22⟩ := r2
  injection Except.ok.inj heq2 with e1 e2
  subst e1
  subst e2
  obtain ⟨F, D, P⟩ := unmountR_post g v' 0 s1 s2 MP.sub MP.nodup h0 hu
  have hP := P _ hC
  refine ⟨rfl, ?_⟩
  show childIdsOf s2.host 0 = some []
  unfold childIdsOf
  rw [hP]
  have hnodup : (topEls v').Nodup :=
    (sub_topEls_sublist MP.sub).nodup MP.nodup
  simp [foldl_erase_self _ hnodup]

/-- Witness for C8: mounting the div with text child into the empty
root container and then rendering null leaves the stored vnode null and
the container's child list empty. -/
theorem c8_render_null_clears_container_witness :
    ∃ (v1 : Option VNode) (st1 : RState) (r2 : Option VNode × RState),
      Clean exDivHi ∧
      render 2 (some exDivHi) 0 none initState = .ok (v1, st1) ∧
      render 2 none 0 v1 st1 = .ok r2 ∧
      r2.1 = none ∧ childIdsOf r2.2.host 0 = some [] := by
  have hclean : Clean exDivHi :=
    Clean.mk _ _ _ _ (by simp [PNodup]) (CleanC.text "hi") (CleanT.tag "div")
      (by intro hx; simp [slotsOnly] at hx)
  refine ⟨_, _, _, hclean, rfl, rfl, ?_⟩
  exact c8_render_null_clears_container 2 2 exDivHi _ _ _ hclean rfl rfl

end SelfVue
